import Mathlib

/-!
# ImageMosaicFilter: the effect-rendering engine

A shallow embedding of `src/effects.js` and of the class `ShowImage` of `src/common.js`,
with the way `src/script.js` calls them.

Conventions.
* JavaScript numbers are exact: integers are `Nat`/`Int`, reals are `ℚ`, and `NaN` is
  `none` in `Option`.  Rounding of double arithmetic is not modelled.
* A raster is a function from device-pixel coordinates (column, row) to an RGBA pixel.
* `imageData.data` is the flat byte list `r, g, b, a, r, g, b, a, …` in row-major order.
* The work canvas of the mosaic is a bitmap.  The visible canvas is its assigned size, its
  context state and the list of drawing calls that reached it: what a filter paints is the
  browser's business.
* An `async` method is cut at its `await`s: a run of the body up to the next `await` is one
  function call, and the event loop chooses which run comes next.
-/

namespace ImageMosaicFilter

/-! ## Pixels, colours and `ImageData` -/

/-- One RGBA device pixel: four bytes of a `Uint8ClampedArray`. -/
structure Pixel where
  r : Nat
  g : Nat
  b : Nat
  a : Nat
deriving DecidableEq, Repr

/-- The pixel of a cleared canvas. -/
def Pixel.transparent : Pixel := ⟨0, 0, 0, 0⟩

/-- The flat `data` array of a sequence of pixels. -/
def bytesOf : List Pixel → List Nat
  | [] => []
  | p :: ps => p.r :: p.g :: p.b :: p.a :: bytesOf ps

/-- A CSS colour `rgba(r, g, b, a)`: three channel numbers and an alpha fraction. -/
structure Color where
  r : Int
  g : Int
  b : Int
  a : ℚ
deriving DecidableEq

/-- The literal `"rgba(0, 0, 0, 0)"`. -/
def Color.clear : Color := ⟨0, 0, 0, 0⟩

/-- The function `Math.round`: the nearest integer, a half going up. -/
def jsRound (q : ℚ) : Int := ⌊q + 1 / 2⌋

/-- The running totals of the loop in `_calculateAverageColor`. -/
structure Totals where
  totalR : Nat
  totalG : Nat
  totalB : Nat
  totalA : Nat
  pixelCount : Nat
deriving DecidableEq, Repr

/-- The loop `for (let i = 0; i < pixels.length; i += 4)` of `_calculateAverageColor`:
each turn looks at the four bytes `pixels[i .. i+3]` and adds them to the totals when
`pixels[i + 3] > 0`.  A trailing group of fewer than four bytes has
`pixels[i + 3] === undefined`, for which the test is false, so it is skipped. -/
def sumLoop : List Nat → Totals → Totals
  | r :: g :: b :: a :: rest, t =>
      if a > 0 then
        sumLoop rest ⟨t.totalR + r, t.totalG + g, t.totalB + b, t.totalA + a, t.pixelCount + 1⟩
      else
        sumLoop rest t
  | _, t => t

/-- The method `MosaicEffect._calculateAverageColor`, on `imageData.data`. -/
def _calculateAverageColor (pixels : List Nat) : Color :=
  let t := sumLoop pixels ⟨0, 0, 0, 0, 0⟩
  if t.pixelCount ≤ 0 then
    Color.clear
  else
    let avgR := jsRound ((t.totalR : ℚ) / t.pixelCount)
    let avgG := jsRound ((t.totalG : ℚ) / t.pixelCount)
    let avgB := jsRound ((t.totalB : ℚ) / t.pixelCount)
    let avgA := (jsRound ((t.totalA : ℚ) / t.pixelCount) : ℚ) / 255
    ⟨avgR, avgG, avgB, avgA⟩

/-- The pixels that are counted: those with alpha above zero. -/
def counted (ps : List Pixel) : List Pixel := ps.filter (fun p => decide (0 < p.a))

/-! ## Rasters: the source image, `ImageData` and the work canvas -/

/-- The loaded source image `showImage.image`: its natural size, whether reading it back is
allowed (a cross-origin image taints a canvas), and the device pixels it produces when it is
drawn at the origin under a uniform scale. -/
structure Image where
  width : Nat
  height : Nat
  originClean : Bool
  sample : ℚ → Nat → Nat → Pixel

/-- An `ImageData`: a rectangle of pixels; `data` is its flat byte array. -/
structure ImageData where
  width : Nat
  height : Nat
  pix : Nat → Nat → Pixel

/-- The pixels of an `ImageData` in row-major order. -/
def ImageData.pixels (d : ImageData) : List Pixel :=
  (List.range d.height).flatMap fun j => (List.range d.width).map fun i => d.pix i j

/-- The field `imageData.data`. -/
def ImageData.data (d : ImageData) : List Nat := bytesOf d.pixels

/-- The integer size a canvas takes when `n * s` is assigned to its width or height:
the product without its fraction (`s` is not negative). -/
def deviceLength (n : Nat) (s : ℚ) : Nat := (n * s.num.toNat) / s.den

/-- The work canvas `_canvas` with its context `_ctx`: an integer bitmap size, the uniform
scale of the current transform, the origin-clean flag and the bitmap. -/
structure Canvas where
  width : Nat
  height : Nat
  transform : ℚ
  originClean : Bool
  pix : Nat → Nat → Pixel

/-- Assigning `width` and `height` reallocates the bitmap, transparent, and resets the
context; `setTransform(1, 0, 0, 1, 0, 0)` follows in the source. -/
def Canvas.resize (w h : Nat) : Canvas :=
  { width := w, height := h, transform := 1, originClean := true,
    pix := fun _ _ => Pixel.transparent }

/-- The call `ctx.scale(s, s)`. -/
def Canvas.scale (cv : Canvas) (s : ℚ) : Canvas := { cv with transform := cv.transform * s }

/-- Whether the device pixel column (or row) `i` lies inside the span that starts at the
logical coordinate `lo` and has the logical length `len`, under the scale `t`. -/
def covers (t lo len : ℚ) (i : Nat) : Bool :=
  decide (lo * t ≤ (i : ℚ) ∧ (i : ℚ) + 1 ≤ (lo + len) * t)

/-- Whether the device pixel `(i, j)` lies inside the logical rectangle `(x, y, w, h)`. -/
def inRect (t x y w h : ℚ) (i j : Nat) : Bool := covers t x w i && covers t y h j

/-- The call `ctx.clearRect(x, y, w, h)`: the pixels of the rectangle become transparent. -/
def Canvas.clearRect (cv : Canvas) (x y w h : ℚ) : Canvas :=
  { cv with pix := fun i j => if inRect cv.transform x y w h i j then Pixel.transparent
                              else cv.pix i j }

/-- Source-over compositing of the pixel `s` onto the pixel `d`; onto a transparent pixel
the result is `s` itself. -/
def Pixel.over (s d : Pixel) : Pixel :=
  if d.a = 0 then s
  else if s.a = 0 then d
  else
    let a := s.a * 255 + d.a * (255 - s.a)
    ⟨(s.r * s.a * 255 + d.r * d.a * (255 - s.a)) / a,
     (s.g * s.a * 255 + d.g * d.a * (255 - s.a)) / a,
     (s.b * s.a * 255 + d.b * d.a * (255 - s.a)) / a, a / 255⟩

/-- The pixel a fill style paints: the channels of the colour and its alpha as a byte. -/
def Color.toPixel (c : Color) : Pixel :=
  ⟨c.r.toNat, c.g.toNat, c.b.toNat, (jsRound (c.a * 255)).toNat⟩

/-- The method `_fillBlockWithColor`: `ctx.fillStyle = color; ctx.fillRect(x, y, w, h)`. -/
def _fillBlockWithColor (cv : Canvas) (x y w h : ℚ) (color : Color) : Canvas :=
  { cv with pix := fun i j => if inRect cv.transform x y w h i j
                              then color.toPixel.over (cv.pix i j) else cv.pix i j }

/-- The function `drawPlane` on the work canvas: `ctx.filter = "none"` and
`ctx.drawImage(image, 0, 0)`. -/
def Canvas.drawPlane (cv : Canvas) (image : Image) : Canvas :=
  { cv with originClean := cv.originClean && image.originClean,
            pix := fun i j => (image.sample cv.transform i j).over (cv.pix i j) }

/-- The rectangle of pixels `(x, y, w, h)` of the bitmap as an `ImageData`; pixels outside
the bitmap read as transparent. -/
def Canvas.read (cv : Canvas) (x y w h : Nat) : ImageData :=
  { width := w, height := h,
    pix := fun i j => if i < w ∧ j < h ∧ x + i < cv.width ∧ y + j < cv.height
                      then cv.pix (x + i) (y + j) else Pixel.transparent }

/-- The call `ctx.getImageData(x, y, w, h)`.  It throws (`none`) for an empty rectangle and
for a canvas that is not origin-clean. -/
def Canvas.getImageData (cv : Canvas) (x y w h : Nat) : Option ImageData :=
  if w = 0 ∨ h = 0 ∨ cv.originClean = false then none
  else some (cv.read x y w h)

/-! ## The visible Surface -/

/-- A value of `ctx.filter`. -/
inductive Filter
  | none
  | blur (px : ℚ)
  | brightness (v : ℚ)
  | contrast (pct : ℚ)
  | dropShadow (dx dy radius : ℚ) (color : String)
  | grayscale (pct : ℚ)
  | hueRotate (deg : ℚ)
  | invert (pct : ℚ)
  | opacity (pct : ℚ)
  | saturate (pct : ℚ)
deriving DecidableEq

/-- A drawing call that reached the visible canvas, with the scale `t` of the transform and
the filter in force. -/
inductive DrawOp
  | clearRect (t x y w h : ℚ)
  | drawImage (t : ℚ) (filter : Filter) (dx dy : ℚ)
  | putImageData (img : ImageData) (dx dy : Nat)

/-- The visible canvas `showImage.canvas` with its context `showImage.ctx`.  `width` and
`height` are the numbers assigned; `ops` are the drawing calls since the bitmap was last
reallocated. -/
structure Surface where
  width : ℚ
  height : ℚ
  transform : ℚ
  filter : Filter
  ops : List DrawOp

/-- Assigning `canvas.width` and `canvas.height`, then `setTransform(1, 0, 0, 1, 0, 0)`:
a fresh transparent bitmap with the default context state. -/
def Surface.resize (w h : ℚ) : Surface :=
  { width := w, height := h, transform := 1, filter := Filter.none, ops := [] }

/-- The call `ctx.scale(s, s)` on the visible canvas. -/
def Surface.scale (sf : Surface) (s : ℚ) : Surface := { sf with transform := sf.transform * s }

/-- The call `ctx.clearRect(x, y, w, h)` on the visible canvas. -/
def Surface.clearRect (sf : Surface) (x y w h : ℚ) : Surface :=
  { sf with ops := sf.ops ++ [DrawOp.clearRect sf.transform x y w h] }

/-- The assignment `ctx.filter = f`. -/
def Surface.setFilter (sf : Surface) (f : Filter) : Surface := { sf with filter := f }

/-- The call `ctx.drawImage(image, dx, dy)` on the visible canvas. -/
def Surface.drawImage (sf : Surface) (dx dy : ℚ) : Surface :=
  { sf with ops := sf.ops ++ [DrawOp.drawImage sf.transform sf.filter dx dy] }

/-- The call `ctx.putImageData(img, dx, dy)` on the visible canvas. -/
def Surface.putImageData (sf : Surface) (img : ImageData) (dx dy : Nat) : Surface :=
  { sf with ops := sf.ops ++ [DrawOp.putImageData img dx dy] }

/-- The class `ShowImage` of `common.js`. -/
structure ShowImage where
  canvas : Surface
  image : Image
  isShowableImage : Bool
  scale : ℚ

/-- The method `ShowImage.clearRect`. -/
def ShowImage.clearRect (si : ShowImage) : ShowImage :=
  { si with canvas := si.canvas.clearRect 0 0 (si.canvas.width / si.scale)
                        (si.canvas.height / si.scale) }

/-- The function `drawPlane` on the visible canvas. -/
def ShowImage.drawPlane (si : ShowImage) : ShowImage :=
  { si with canvas := (si.canvas.setFilter Filter.none).drawImage 0 0 }

/-! ## The synchronous effects

A parameter is a JavaScript number: `none` is `NaN`.  Each `drawEffect` maps the
`ShowImage` the effect refers to (`none` when there is none) to the `ShowImage` after the
call; `console.warn` leaves no trace in it. -/

/-- A JavaScript number that may be `NaN`. -/
abbrev Num := Option ℚ

/-- The class `BlurEffect`. -/
structure BlurEffect where
  size : Num
  isScaling : Bool

/-- The method `BlurEffect.drawEffect`. -/
def BlurEffect.drawEffect (e : BlurEffect) (showImage : Option ShowImage) (isOverlap : Bool) :
    Option ShowImage :=
  match showImage with
  | none => none
  | some showImage =>
    if showImage.isShowableImage = false then some showImage
    else
      match e.size with
      | none => some showImage
      | some size =>
        if size < 0 then some showImage
        else
          let blurSize := size * (5 / 2) / showImage.scale * (if e.isScaling then 1 else 0)
          let bothSideBlurSize := blurSize * 2
          let canvasWidth := (showImage.image.width : ℚ) + bothSideBlurSize
          let canvasHeight := (showImage.image.height : ℚ) + bothSideBlurSize
          let resized : ShowImage :=
            { showImage with
              canvas := (Surface.resize (canvasWidth * showImage.scale)
                (canvasHeight * showImage.scale)).scale showImage.scale }
          let cleared := if isOverlap = false ∧ blurSize ≤ 0 then resized.clearRect else resized
          some { cleared with
            canvas := (cleared.canvas.setFilter (Filter.blur size)).drawImage blurSize blurSize }

/-- The body shared by the seven effects that do not change the geometry: validate the
parameter, clear unless `isOverlap`, set the filter and draw the image at the origin. -/
def drawFiltered (param : Num) (filter : ℚ → Filter) (showImage : Option ShowImage)
    (isOverlap : Bool) : Option ShowImage :=
  match showImage with
  | none => none
  | some showImage =>
    if showImage.isShowableImage = false then some showImage
    else
      match param with
      | none => some showImage
      | some v =>
        if v < 0 then some showImage
        else
          let cleared := if isOverlap = false then showImage.clearRect else showImage
          some { cleared with canvas := (cleared.canvas.setFilter (filter v)).drawImage 0 0 }

/-- The class `BrightnessEffect`. -/
structure BrightnessEffect where
  brightness : Num

/-- The method `BrightnessEffect.drawEffect`. -/
def BrightnessEffect.drawEffect (e : BrightnessEffect) (showImage : Option ShowImage)
    (isOverlap : Bool) : Option ShowImage :=
  drawFiltered e.brightness Filter.brightness showImage isOverlap

/-- The class `ContrastEffect`. -/
structure ContrastEffect where
  contrastRate : Num

/-- The method `ContrastEffect.drawEffect`. -/
def ContrastEffect.drawEffect (e : ContrastEffect) (showImage : Option ShowImage)
    (isOverlap : Bool) : Option ShowImage :=
  drawFiltered e.contrastRate Filter.contrast showImage isOverlap

/-- The class `GrayscaleEffect`. -/
structure GrayscaleEffect where
  grayscaleRate : Num

/-- The method `GrayscaleEffect.drawEffect`. -/
def GrayscaleEffect.drawEffect (e : GrayscaleEffect) (showImage : Option ShowImage)
    (isOverlap : Bool) : Option ShowImage :=
  drawFiltered e.grayscaleRate Filter.grayscale showImage isOverlap

/-- The class `HueRotateEffect`. -/
structure HueRotateEffect where
  degreeAngle : Num

/-- The method `HueRotateEffect.drawEffect`. -/
def HueRotateEffect.drawEffect (e : HueRotateEffect) (showImage : Option ShowImage)
    (isOverlap : Bool) : Option ShowImage :=
  drawFiltered e.degreeAngle Filter.hueRotate showImage isOverlap

/-- The class `InvertEffect`. -/
structure InvertEffect where
  invertRate : Num

/-- The method `InvertEffect.drawEffect`. -/
def InvertEffect.drawEffect (e : InvertEffect) (showImage : Option ShowImage)
    (isOverlap : Bool) : Option ShowImage :=
  drawFiltered e.invertRate Filter.invert showImage isOverlap

/-- The class `OpacityEffect`. -/
structure OpacityEffect where
  opacityRate : Num

/-- The method `OpacityEffect.drawEffect`. -/
def OpacityEffect.drawEffect (e : OpacityEffect) (showImage : Option ShowImage)
    (isOverlap : Bool) : Option ShowImage :=
  drawFiltered e.opacityRate Filter.opacity showImage isOverlap

/-- The class `SaturateEffect`. -/
structure SaturateEffect where
  saturateRate : Num

/-- The method `SaturateEffect.drawEffect`. -/
def SaturateEffect.drawEffect (e : SaturateEffect) (showImage : Option ShowImage)
    (isOverlap : Bool) : Option ShowImage :=
  drawFiltered e.saturateRate Filter.saturate showImage isOverlap

/-- The class `DropShadowEffect`; `offsetX` and `offsetY` are `offset.x` and `offset.y`. -/
structure DropShadowEffect where
  offsetX : Num
  offsetY : Num
  blurRadius : Num
  color : String

/-- The method `DropShadowEffect.drawEffect`; it does not read `isOverlap`. -/
def DropShadowEffect.drawEffect (e : DropShadowEffect) (showImage : Option ShowImage)
    (_isOverlap : Bool) : Option ShowImage :=
  match showImage with
  | none => none
  | some showImage =>
    if showImage.isShowableImage = false then some showImage
    else
      match e.offsetX, e.offsetY with
      | some offsetX, some offsetY =>
        match e.blurRadius with
        | none => some showImage
        | some blurRadius =>
          if blurRadius < 0 then some showImage
          else
            let blurSize := blurRadius * (5 / 2) / showImage.scale
            let bothSideBlurSize := blurSize * 2
            let canvasWidth0 := (showImage.image.width : ℚ) + bothSideBlurSize
            let canvasHeight0 := (showImage.image.height : ℚ) + bothSideBlurSize
            let canvasWidth :=
              if |offsetX| > blurSize then canvasWidth0 + (|offsetX| - blurSize) else canvasWidth0
            let canvasHeight :=
              if |offsetY| > blurSize then canvasHeight0 + (|offsetY| - blurSize) else canvasHeight0
            let resized : ShowImage :=
              { showImage with
                canvas := (Surface.resize (canvasWidth * showImage.scale)
                  (canvasHeight * showImage.scale)).scale showImage.scale }
            let cleared := resized.clearRect
            some { cleared with
              canvas := (cleared.canvas.setFilter
                  (Filter.dropShadow (offsetX * showImage.scale) (offsetY * showImage.scale)
                    blurRadius e.color)).drawImage
                (max (blurSize - offsetX) 0) (max (blurSize - offsetY) 0) }
      | _, _ => some showImage

/-- A parameter that the validation of an effect rejects: `NaN` or negative. -/
def Num.rejected (n : Num) : Prop := n = none ∨ ∃ v, n = some v ∧ v < 0

/-! ## The mosaic effect -/

/-- A block of the grid: its origin and its clipped extent `blockWidth × blockHeight`. -/
structure Block where
  x : Nat
  y : Nat
  w : Nat
  h : Nat
deriving DecidableEq, Repr

/-- A record of one turn of the inner loop: the block, the pixels read for it and the
colour it was filled with. -/
structure Visit where
  block : Block
  read : ImageData
  color : Color

/-- The object `MosaicEffect` together with the `ShowImage` it refers to.  `blockSize` is
`none` for `NaN` (it is set from `parseInt`).  The last four fields are a record of what
happened: the blocks processed, the number of `await`s taken, of `console.warn` calls and
of `alert` calls. -/
structure MosaicEffect where
  showImage : Option ShowImage
  blockSize : Option Int
  _isRunningDraw : Bool
  _isRequestedCancel : Bool
  _canvas : Canvas
  visits : List Visit
  yields : Nat
  warnings : Nat
  alerts : Nat

/-- The local variables of a `drawEffect` activation that is suspended at
`await this.waitForNextFrame()`. -/
structure Locals where
  x : Nat
  y : Nat
  pixelCount : Nat
  blockUnitSize : Nat
deriving DecidableEq, Repr

/-- How a run of `drawEffect` up to its next suspension ends. -/
inductive Outcome
  | suspended (l : Locals) (m : MosaicEffect)
  | returned (m : MosaicEffect)

/-- The constant `piexelCountThreshold`. -/
def piexelCountThreshold : Nat := 5000

/-- The `catch` clause of `drawEffect` followed by the last line of the method. -/
def caught (m : MosaicEffect) : MosaicEffect :=
  { m with _isRunningDraw := false, alerts := m.alerts + 1 }

/-- Lines 94–101: read the block at `(x, y)`, average it, clear its region and fill it.
The result is `none` when `getImageData` throws. -/
def processBlock (m : MosaicEffect) (b : Nat) (s : ℚ) (x y : Nat) : Option MosaicEffect :=
  let blockWidth := min b (m._canvas.width - x)
  let blockHeight := min b (m._canvas.height - y)
  match m._canvas.getImageData x y blockWidth blockHeight with
  | none => none
  | some imageData =>
    let averageColor := _calculateAverageColor imageData.data
    let cleared := m._canvas.clearRect (x / s) (y / s) (b / s) (b / s)
    let filled := _fillBlockWithColor cleared (x / s) (y / s) (b / s) (b / s) averageColor
    some { m with _canvas := filled,
                  visits := m.visits ++ [⟨⟨x, y, blockWidth, blockHeight⟩, imageData, averageColor⟩] }

/-- Lines 113–116 and 131: once both loops are left, the work canvas is copied to the
visible canvas unless a cancel is requested, and the pass stops running. -/
def afterLoops (m : MosaicEffect) : MosaicEffect :=
  if m._isRequestedCancel = false then
    match m._canvas.getImageData 0 0 m._canvas.width m._canvas.height with
    | none => caught m
    | some mosaicImageData =>
      { m with showImage := m.showImage.map fun si =>
                 { si with canvas := si.canvas.putImageData mosaicImageData 0 0 },
               _isRunningDraw := false }
  else
    { m with _isRunningDraw := false }

/-- The two nested `for` loops of `drawEffect` from the test of the inner loop at
`(l.x, l.y)` up to the next `await` or the end of the method.  `b` is `this.blockSize` and
`s` is `showImage.scale`.  The first argument bounds the number of loop tests; `none` means
the bound was too small. -/
def loop (b : Nat) (s : ℚ) : Nat → MosaicEffect → Locals → Option Outcome
  | 0, _, _ => none
  | fuel + 1, m, l =>
    if l.x < m._canvas.width ∧ m._isRequestedCancel = false then
      match processBlock m b s l.x l.y with
      | none => some (Outcome.returned (caught m))
      | some m1 =>
        let pixelCount := l.pixelCount + l.blockUnitSize
        if pixelCount > piexelCountThreshold then
          some (Outcome.suspended { l with pixelCount := pixelCount - piexelCountThreshold }
            { m1 with yields := m1.yields + 1 })
        else
          loop b s fuel m1 { l with x := l.x + b, pixelCount := pixelCount }
    else if l.y + b < m._canvas.height ∧ m._isRequestedCancel = false then
      loop b s fuel m { l with x := 0, y := l.y + b }
    else
      some (Outcome.returned (afterLoops m))

/-- A number of loop tests that suffices for a canvas of the given size. -/
def loopFuel (cv : Canvas) : Nat := (cv.width + 2) * (cv.height + 2)

/-- Lines 80–86: the work canvas is resized to the scaled image, cleared, and the plain
image is drawn into it. -/
def prepareCanvas (si : ShowImage) : Canvas :=
  let cv := (Canvas.resize (deviceLength si.image.width si.scale)
              (deviceLength si.image.height si.scale)).scale si.scale
  (cv.clearRect 0 0 (cv.width / si.scale) (cv.height / si.scale)).drawPlane si.image

/-- The method `MosaicEffect.drawEffect` from its first line up to its first `await` or its
end.  The method never reads its argument `isOverlap`. -/
def MosaicEffect.drawEffect (m : MosaicEffect) (_isOverlap : Bool) : Option Outcome :=
  match m.showImage with
  | none => some (Outcome.returned m)
  | some showImage =>
    if showImage.isShowableImage = false then some (Outcome.returned m)
    else
      match m.blockSize with
      | none => some (Outcome.returned { m with warnings := m.warnings + 1, _isRunningDraw := false })
      | some blockSize =>
        if blockSize ≤ 0 then
          some (Outcome.returned { m with warnings := m.warnings + 1, _isRunningDraw := false })
        else if blockSize > 1 then
          let m1 := { m with _canvas := prepareCanvas showImage }
          let l : Locals := ⟨0, 0, 0, (blockSize * blockSize).toNat⟩
          if 0 < m1._canvas.height ∧ m1._isRequestedCancel = false then
            loop blockSize.toNat showImage.scale (loopFuel m1._canvas) m1 l
          else
            some (Outcome.returned (afterLoops m1))
        else
          some (Outcome.returned
            { m with showImage := some showImage.clearRect.drawPlane, _isRunningDraw := false })

/-- The value of `this.blockSize` as the step of the loops.  A pass is resumed with the
block size it started with, a positive integer: the event loop below has no turn that
changes `blockSize`. -/
def MosaicEffect.step (m : MosaicEffect) : Nat :=
  match m.blockSize with
  | some b => b.toNat
  | none => 0

/-- The value of `showImage.scale` inside a running pass (a pass only runs with a
`ShowImage`). -/
def MosaicEffect.scale (m : MosaicEffect) : ℚ :=
  match m.showImage with
  | some si => si.scale
  | none => 1

/-- The rest of `drawEffect` after an `await` has returned: `x += this.blockSize`, then the
test of the inner loop, up to the next `await` or the end. -/
def MosaicEffect.resume (m : MosaicEffect) (l : Locals) : Option Outcome :=
  loop m.step m.scale (loopFuel m._canvas) m { l with x := l.x + m.step }

/-- The part of `drawEffectAsync` after `await this.asyncWaitCancel()`.  No caller passes
the argument `isOverlap`, so it is `undefined`, here `false`. -/
def MosaicEffect.start (m : MosaicEffect) : Option Outcome :=
  MosaicEffect.drawEffect { m with _isRunningDraw := true, _isRequestedCancel := false } false

/-- A whole pass in which the cancel flag is raised during the `k`-th `await` exactly when
the `k`-th entry of the list is `true`.  The list bounds the number of `await`s followed. -/
def runFrom : List Bool → Outcome → Option Outcome
  | _, Outcome.returned m => some (Outcome.returned m)
  | [], Outcome.suspended l m => some (Outcome.suspended l m)
  | c :: cs, Outcome.suspended l m =>
    (MosaicEffect.resume { m with _isRequestedCancel := m._isRequestedCancel || c } l).bind
      (runFrom cs)

/-- A pass from the start of its `drawEffect` body, see `runFrom`. -/
def runPass (cancels : List Bool) (m : MosaicEffect) : Option Outcome :=
  m.start.bind (runFrom cancels)

/-- The blocks processed so far, in order. -/
def MosaicEffect.blocks (m : MosaicEffect) : List Block := m.visits.map Visit.block

/-- The drawing calls that have reached the visible canvas. -/
def MosaicEffect.surfaceOps (m : MosaicEffect) : List DrawOp :=
  match m.showImage with
  | some si => si.canvas.ops
  | none => []

/-! ## The grid of blocks, as the specification describes it -/

/-- The number of blocks along an axis of length `n`: `ceil(n / b)`. -/
def blockCount (b n : Nat) : Nat := (n + b - 1) / b

/-- The blocks of the `j`-th row of the grid, left to right. -/
def gridRow (b W H j : Nat) : List Block :=
  (List.range (blockCount b W)).map fun i => ⟨i * b, j * b, min b (W - i * b), min b (H - j * b)⟩

/-- The grid of `b × b` blocks over a `W × H` buffer, clipped at the right and bottom edges,
in row-major order. -/
def gridBlocks (b W H : Nat) : List Block :=
  (List.range (blockCount b H)).flatMap (gridRow b W H)

/-- Whether the device pixel `(p, q)` belongs to a block. -/
def Block.contains (bl : Block) (p q : Nat) : Prop :=
  bl.x ≤ p ∧ p < bl.x + bl.w ∧ bl.y ≤ q ∧ q < bl.y + bl.h

/-- What the block with origin `(x, y)` reads from the canvas `src`. -/
def blockRead (src : Canvas) (b x y : Nat) : ImageData :=
  src.read x y (min b (src.width - x)) (min b (src.height - y))

/-- The record of a block that was read from `src` and filled with the average of what was
read. -/
def blockVisit (src : Canvas) (b x y : Nat) : Visit :=
  ⟨⟨x, y, min b (src.width - x), min b (src.height - y)⟩, blockRead src b x y,
    _calculateAverageColor (blockRead src b x y).data⟩

/-- The records of the `j`-th row of blocks. -/
def rowVisits (src : Canvas) (b j : Nat) : List Visit :=
  (List.range (blockCount b src.width)).map fun i => blockVisit src b (i * b) (j * b)

/-- The records of the whole grid in row-major order. -/
def gridVisits (src : Canvas) (b : Nat) : List Visit :=
  (List.range (blockCount b src.height)).flatMap (rowVisits src b)

/-- The mosaic of `src`: every pixel has the average colour of the source pixels of its
block. -/
def mosaicPixel (src : Canvas) (b p q : Nat) : Pixel :=
  (_calculateAverageColor (blockRead src b (b * (p / b)) (b * (q / b))).data).toPixel

/-- The state of a pass that has not been cancelled, at the test of the inner loop for the
block column `i` of the block row `j`: the blocks before it are painted with their mosaic
colour, all other pixels still are those of `src`, and the record lists the blocks before
it.  `m0` is the state the pass started from. -/
structure LoopInv (src : Canvas) (b : Nat) (m0 m : MosaicEffect) (i j : Nat) : Prop where
  width : m._canvas.width = src.width
  height : m._canvas.height = src.height
  transform : m._canvas.transform = src.transform
  clean : m._canvas.originClean = true
  pix : ∀ p q, p < src.width → q < src.height →
    m._canvas.pix p q =
      if q < j * b ∨ (q < j * b + b ∧ p < i * b) then mosaicPixel src b p q else src.pix p q
  visits : m.visits = m0.visits ++ ((List.range j).flatMap (rowVisits src b) ++
    (List.range i).map fun i' => blockVisit src b (i' * b) (j * b))
  showImage : m.showImage = m0.showImage
  blockSize : m.blockSize = m0.blockSize
  cancel : m._isRequestedCancel = false
  warnings : m.warnings = m0.warnings
  alerts : m.alerts = m0.alerts

/-- The state in which a pass that was not cancelled ends: the whole grid is recorded, the
work canvas holds the mosaic of `src`, and one copy of it has reached the visible canvas. -/
structure Completed (src : Canvas) (b : Nat) (m0 m : MosaicEffect) : Prop where
  width : m._canvas.width = src.width
  height : m._canvas.height = src.height
  pix : ∀ p q, p < src.width → q < src.height → m._canvas.pix p q = mosaicPixel src b p q
  visits : m.visits = m0.visits ++ gridVisits src b
  showImage : m.showImage = m0.showImage.map fun si =>
    { si with canvas := si.canvas.putImageData (m._canvas.read 0 0 src.width src.height) 0 0 }
  running : m._isRunningDraw = false
  cancel : m._isRequestedCancel = false
  warnings : m.warnings = m0.warnings
  alerts : m.alerts = m0.alerts

/-! ## The asynchronous controller

`drawEffectAsync` runs on the single-threaded event loop.  A request is a call of
`drawEffectAsync`; it is numbered in the order of arrival.  The state lists the requests
whose poll has succeeded and whose continuation is queued as a microtask (`micro`), the
requests that wait on `setTimeout(checkIsRunningDraw, 10)` (`timers`), and the passes that
are suspended at `await this.waitForNextFrame()` with their local variables (`frames`).
The remaining fields record the order in which passes started and ended, which of them
drew on the visible canvas, and how many passes started while another pass was still
suspended. -/

/-- The event loop around one `MosaicEffect`. -/
structure Controller where
  mosaic : MosaicEffect
  micro : List Nat
  timers : List Nat
  frames : List (Nat × Locals)
  nextId : Nat
  started : List Nat
  ended : List Nat
  committed : List Nat
  overlaps : Nat

/-- A turn of the event loop. -/
inductive Turn
  /-- Some script calls `drawEffectAsync`. -/
  | call
  /-- The oldest queued continuation of `await this.asyncWaitCancel()` runs. -/
  | micro
  /-- The timer of the waiting request `id` fires and `checkIsRunningDraw` runs. -/
  | timer (id : Nat)
  /-- The animation frame the pass `id` waits for arrives and the pass goes on. -/
  | frame (id : Nat)
deriving DecidableEq, Repr

/-- The controller before any request, around an effect that is not running. -/
def Controller.init (m : MosaicEffect) : Controller :=
  { mosaic := { m with _isRunningDraw := false, _isRequestedCancel := false },
    micro := [], timers := [], frames := [], nextId := 0,
    started := [], ended := [], committed := [], overlaps := 0 }

/-- The bookkeeping after a run of the pass `id` up to its next suspension: `rest` are the
other suspended passes and `before` is the effect before the run. -/
def Controller.settle (c : Controller) (id : Nat) (rest : List (Nat × Locals))
    (before : MosaicEffect) : Outcome → Controller
  | Outcome.suspended l m => { c with mosaic := m, frames := rest ++ [(id, l)] }
  | Outcome.returned m =>
    { c with mosaic := m, frames := rest, ended := c.ended ++ [id],
             committed := if m.surfaceOps.length = before.surfaceOps.length then c.committed
                          else c.committed ++ [id] }

/-- One turn of the event loop; `none` when the turn cannot happen in the state.  Timers
and animation frames are tasks and fire only when no microtask is queued.  With `strict`,
a call is a task of its own as well (an event handler that calls `drawEffectAsync` once);
without it, a call may come while continuations are queued, as two calls in one task do. -/
def Controller.step (strict : Bool) (c : Controller) : Turn → Option Controller
  | Turn.call =>
    if strict = true ∧ c.micro ≠ [] then none
    else
      let m := { c.mosaic with _isRequestedCancel := true }
      if m._isRunningDraw = false then
        some { c with mosaic := m, micro := c.micro ++ [c.nextId], nextId := c.nextId + 1 }
      else
        some { c with mosaic := m, timers := c.timers ++ [c.nextId], nextId := c.nextId + 1 }
  | Turn.micro =>
    match c.micro with
    | [] => none
    | id :: rest =>
      (MosaicEffect.start c.mosaic).map fun out =>
        Controller.settle
          { c with micro := rest, started := c.started ++ [id],
                   overlaps := if c.frames = [] then c.overlaps else c.overlaps + 1 }
          id c.frames c.mosaic out
  | Turn.timer id =>
    if c.micro = [] ∧ id ∈ c.timers then
      if c.mosaic._isRunningDraw = false then
        some { c with timers := c.timers.erase id, micro := [id] }
      else some c
    else none
  | Turn.frame id =>
    if c.micro = [] then
      match c.frames.lookup id with
      | none => none
      | some l =>
        (MosaicEffect.resume c.mosaic l).map fun out =>
          Controller.settle c id (c.frames.filter fun e => e.1 ≠ id) c.mosaic out
    else none

/-- A sequence of turns from a state. -/
def Controller.run (strict : Bool) : Controller → List Turn → Option Controller
  | c, [] => some c
  | c, t :: ts => (Controller.step strict c t).bind fun c' => Controller.run strict c' ts

/-- What holds in every state the controller reaches when each call is a task of its own:
at most one request is about to start or one pass is suspended, never both; a suspended
pass keeps `_isRunningDraw` set; no pass started over another; and a request is in one place
only. -/
structure Sound (c : Controller) : Prop where
  micro_le : c.micro.length ≤ 1
  frames_le : c.frames.length ≤ 1
  idle_of_micro : c.micro ≠ [] → c.frames = [] ∧ c.mosaic._isRunningDraw = false
  running_of_frames : c.frames ≠ [] → c.mosaic._isRunningDraw = true
  overlaps : c.overlaps = 0
  fresh_micro : ∀ j, j ∈ c.micro → j < c.nextId
  fresh_timers : ∀ j, j ∈ c.timers → j < c.nextId
  fresh_frames : ∀ e, e ∈ c.frames → e.1 < c.nextId
  fresh_committed : ∀ j, j ∈ c.committed → j < c.nextId
  timers_nodup : c.timers.Nodup
  micro_timers : ∀ j, j ∈ c.micro → j ∉ c.timers
  frames_timers : ∀ e, e ∈ c.frames → e.1 ∉ c.timers
  committed_micro : ∀ j, j ∈ c.committed → j ∉ c.micro
  committed_timers : ∀ j, j ∈ c.committed → j ∉ c.timers
  committed_frames : ∀ j, j ∈ c.committed → ∀ e, e ∈ c.frames → e.1 ≠ j

/-- The request `id` can no longer draw on the visible canvas: it is not waiting to start,
it has not drawn, and while its pass is suspended the cancel flag is set. -/
structure Superseded (id : Nat) (c : Controller) : Prop where
  sound : Sound c
  fresh : id < c.nextId
  not_micro : id ∉ c.micro
  not_timer : id ∉ c.timers
  not_committed : id ∉ c.committed
  cancel : ∀ l, (id, l) ∈ c.frames → c.mosaic._isRequestedCancel = true

/-- What a pass that started from `m0` over the source `src` can have come to: it is
suspended with the blocks so far painted, or it has ended after the whole grid and its
copy, or it has ended by a cancel request without any trace outside the work canvas. -/
inductive PassState (src : Canvas) (b : Nat) (m0 : MosaicEffect) : Outcome → Prop
  | waiting (l : Locals) (m : MosaicEffect) (i j : Nat) :
      LoopInv src b m0 m i j → PassState src b m0 (Outcome.suspended l m)
  | completed (m : MosaicEffect) :
      Completed src b m0 m → PassState src b m0 (Outcome.returned m)
  | cancelled (m : MosaicEffect) :
      m.showImage = m0.showImage → m._isRequestedCancel = true → m._isRunningDraw = false →
      m.alerts = m0.alerts → m.warnings = m0.warnings →
      PassState src b m0 (Outcome.returned m)

/-- The state an outcome carries. -/
def Outcome.mosaic : Outcome → MosaicEffect
  | Outcome.suspended _ m => m
  | Outcome.returned m => m

/-- Whether the body of `drawEffect` has run to its end. -/
def Outcome.isReturned : Outcome → Bool
  | Outcome.suspended _ _ => false
  | Outcome.returned _ => true

/-- The image of the last `putImageData` among some drawing calls, if any. -/
def lastPut : List DrawOp → Option ImageData
  | [] => none
  | op :: ops =>
    match lastPut ops, op with
    | some img, _ => some img
    | none, DrawOp.putImageData img _ _ => some img
    | none, _ => none

/-- The spread of the blur effect as the specification gives it: `r * 2.5 / scale` with the
scaling flag, zero without. -/
def blurSpread (r scale : ℚ) (isScaling : Bool) : ℚ :=
  if isScaling = true then r * (5 / 2) / scale else 0

/-- The spread of the drop shadow as the specification gives it: `radius * 2.5 / scale`. -/
def shadowSpread (radius scale : ℚ) : ℚ := radius * (5 / 2) / scale

/-! ## Sample states -/

/-- A sample opaque image whose pixel `(i, j)` is `(i, j, 3, 255)` at every scale. -/
def sampleImage (w h : Nat) : Image := ⟨w, h, true, fun _ i j => ⟨i, j, 3, 255⟩⟩

/-- A sample idle mosaic effect over a loaded `w × h` image at scale 1. -/
def sampleMosaic (w h : Nat) (b : Option Int) : MosaicEffect :=
  { showImage := some ⟨Surface.resize w h, sampleImage w h, true, 1⟩, blockSize := b,
    _isRunningDraw := false, _isRequestedCancel := false, _canvas := Canvas.resize 0 0,
    visits := [], yields := 0, warnings := 0, alerts := 0 }

/-- A sample displayable `ShowImage`: a loaded 4×3 image at scale 2. -/
def sampleShow : ShowImage := ⟨Surface.resize 8 6, sampleImage 4 3, true, 2⟩

/-- A sample mosaic effect whose image is not loaded yet (`isShowableImage` is `false`). -/
def sampleUnloaded : MosaicEffect :=
  { sampleMosaic 0 0 (some 10) with
    showImage := some ⟨Surface.resize 300 150, sampleImage 0 0, false, 1⟩ }

/-- A sample history: the controller around a 1×1 image with block size 71 (one block is
more than the yield threshold) after the given turns, each call a task of its own. -/
def sampleAfter (ts : List Turn) : Controller :=
  (Controller.run true (Controller.init (sampleMosaic 1 1 (some 71))) ts).getD
    (Controller.init (sampleMosaic 1 1 (some 71)))

/-! ## What the visible canvas shows -/

/-- The function `scaleCanvas` of `script.js` on the visible canvas: it is resized to the
scaled image and its transform becomes the scale.  The handlers of `script.js` call it when
an image has loaded, when the scale changes and when another effect is selected. -/
def scaleCanvas (si : ShowImage) : ShowImage :=
  { si with canvas := (Surface.resize (si.image.width * si.scale)
      (si.image.height * si.scale)).scale si.scale }

/-- Whether a drawing call clears every pixel of a bitmap of the size `w × h`: it is a
`clearRect` whose rectangle, in device pixels, covers the bitmap. -/
def DrawOp.clearsAll (w h : ℚ) : DrawOp → Bool
  | DrawOp.clearRect t x y cw ch =>
    decide (x * t ≤ 0 ∧ y * t ≤ 0 ∧ w ≤ (x + cw) * t ∧ h ≤ (y + ch) * t)
  | _ => false

/-- The drawing calls that decide what the bitmap shows: those after the last call that
cleared the whole bitmap. -/
def Surface.content (sf : Surface) : List DrawOp :=
  sf.ops.foldl (fun shown op => if op.clearsAll sf.width sf.height then [] else shown ++ [op]) []

/-- The contract of a draw that does not change the geometry, as the specification words
it: the size and the transform of the visible canvas stay, the whole bitmap is cleared
first exactly when `isOverlap` is `false`, and then the image is drawn at the origin with
the filter `f`. -/
def ClearThenDraw (si si' : ShowImage) (isOverlap : Bool) (f : Filter) : Prop :=
  si'.canvas.width = si.canvas.width ∧ si'.canvas.height = si.canvas.height ∧
  si'.canvas.transform = si.canvas.transform ∧ si'.canvas.filter = f ∧
  si'.image = si.image ∧ si'.scale = si.scale ∧ si'.isShowableImage = si.isShowableImage ∧
  (DrawOp.clearRect si.scale 0 0 (si.canvas.width / si.scale)
      (si.canvas.height / si.scale)).clearsAll si.canvas.width si.canvas.height = true ∧
  si'.canvas.ops = si.canvas.ops ++
    (if isOverlap = false then
      [DrawOp.clearRect si.scale 0 0 (si.canvas.width / si.scale) (si.canvas.height / si.scale)]
     else []) ++ [DrawOp.drawImage si.scale f 0 0]

/-- A sample `ShowImage` as `scaleCanvas` leaves it: a loaded 4×3 image at scale 2 on a
canvas of 8×6 with the transform 2. -/
def sampleScaled : ShowImage := scaleCanvas ⟨Surface.resize 0 0, sampleImage 4 3, true, 2⟩

/-! ## The schedule of the yields -/

/-- Lines 104–108 for one block, on the pair of the counter `pixelCount` and the number of
`await`s taken: `pixelCount += blockUnitSize`, and if it is above the threshold the
threshold is subtracted and the pass awaits the next frame. -/
def countBlock (blockUnitSize : Nat) (ck : Nat × Nat) : Nat × Nat :=
  let pixelCount := ck.1 + blockUnitSize
  if pixelCount > piexelCountThreshold then (pixelCount - piexelCountThreshold, ck.2 + 1)
  else (pixelCount, ck.2)

/-- The counter and the number of `await`s after `n` blocks, from `let pixelCount = 0`. -/
def countBlocks (blockUnitSize : Nat) : Nat → Nat × Nat
  | 0 => (0, 0)
  | n + 1 => countBlock blockUnitSize (countBlocks blockUnitSize n)

/-- An outcome of a pass agrees with the schedule: since the pass started (with `v0` blocks
on record and `y0` awaits) it has processed some `n` blocks and awaited as often as
`countBlocks` says; and if it is suspended, its counter is the one `countBlocks` gives, its
`blockUnitSize` is `u`, and the block just processed took the sum above the threshold. -/
def Outcome.counted (u v0 y0 : Nat) (out : Outcome) : Prop :=
  ∃ n, out.mosaic.visits.length = v0 + n ∧ out.mosaic.yields = y0 + (countBlocks u n).2 ∧
    match out with
    | Outcome.suspended l _ =>
      l.blockUnitSize = u ∧ l.pixelCount = (countBlocks u n).1 ∧
        ∃ n', n = n' + 1 ∧ (countBlocks u n').1 + u > piexelCountThreshold
    | Outcome.returned _ => True

/-! ## The scenario of a 100×100 opaque image -/

/-- The 100 source pixels, at scale 1, of the 10×10 block with the origin `(x, y)`, in
row-major order. -/
def sourceBlock (image : Image) (x y : Nat) : List Pixel :=
  (List.range 10).flatMap fun q => (List.range 10).map fun p => image.sample 1 (x + p) (y + q)

/-- A 100×100 opaque image that is black but for the red value 1 of its pixel `(0, 0)`. -/
def speckImage : Image :=
  ⟨100, 100, true, fun _ i j => ⟨if i = 0 ∧ j = 0 then 1 else 0, 0, 0, 255⟩⟩

/-- The sample mosaic effect with block size 10 over `speckImage` at scale 1. -/
def speckMosaic : MosaicEffect :=
  { sampleMosaic 100 100 (some 10) with
    showImage := some ⟨Surface.resize 100 100, speckImage, true, 1⟩ }

/-! ## The registry of `script.js`

`EFFECT_FUNCTIONS` is an object literal, so `EFFECT_FUNCTIONS[effect]` finds its ten own
properties and, after them, the properties of `Object.prototype`.  All ten effects are
constructed with the one `ShowImage` of the page; it is kept in the mosaic effect here. -/

/-- The ten bound functions that are the own properties of `EFFECT_FUNCTIONS`. -/
inductive Entry
  | mosaic | blur | brightness | contrast | dropShadow | grayscale | hueRotate | invert
  | opacity | saturate
deriving DecidableEq, Repr

/-- The constants of `EFFECTS`: the key under which an entry is registered. -/
def Entry.id : Entry → String
  | Entry.mosaic => "mosaic"
  | Entry.blur => "blur"
  | Entry.brightness => "brightness"
  | Entry.contrast => "contrast"
  | Entry.dropShadow => "dropShadow"
  | Entry.grayscale => "grayscale"
  | Entry.hueRotate => "hueRotate"
  | Entry.invert => "invert"
  | Entry.opacity => "opacity"
  | Entry.saturate => "saturate"

/-- The own properties of `EFFECT_FUNCTIONS` in the order of the literal. -/
def registered : List Entry :=
  [Entry.mosaic, Entry.blur, Entry.brightness, Entry.contrast, Entry.dropShadow,
   Entry.grayscale, Entry.hueRotate, Entry.invert, Entry.opacity, Entry.saturate]

/-- The property names of `Object.prototype`, the prototype of an object literal. -/
def objectPrototypeNames : List String :=
  ["constructor", "hasOwnProperty", "isPrototypeOf", "propertyIsEnumerable", "toLocaleString",
   "toString", "valueOf", "__proto__", "__defineGetter__", "__defineSetter__",
   "__lookupGetter__", "__lookupSetter__"]

/-- What a property lookup on `EFFECT_FUNCTIONS` finds: one of the ten entries or a member
inherited from `Object.prototype`; each of these is truthy. -/
inductive Member
  | entry (e : Entry)
  | inherited (name : String)
deriving DecidableEq, Repr

/-- The lookup `EFFECT_FUNCTIONS[effect]`; `none` is `undefined`. -/
def EFFECT_FUNCTIONS (effect : String) : Option Member :=
  match registered.find? fun e => e.id = effect with
  | some e => some (Member.entry e)
  | none => if effect ∈ objectPrototypeNames then some (Member.inherited effect) else none

/-- Whether the call `effectFunction()` of an inherited member, without `this` and without
arguments, throws: `toString`, `constructor` and `isPrototypeOf` return, the others need an
object as `this` or are not callable (`__proto__`). -/
def inheritedCallThrows (name : String) : Bool :=
  !(name = "toString" || name = "constructor" || name = "isPrototypeOf")

/-- The module state of `script.js`: the mosaic effect with its event loop (and the
`ShowImage` of the page), the nine synchronous effects, `lastDrawEffect`, and a record of
the functions called through the registry, of the reports of an unknown effect and of the
reports of an error caught in `drawEffect`. -/
structure App where
  controller : Controller
  blurEffect : BlurEffect
  brightnessEffect : BrightnessEffect
  contrastEffect : ContrastEffect
  dropShadowEffect : DropShadowEffect
  grayscaleEffect : GrayscaleEffect
  hueRotateEffect : HueRotateEffect
  invertEffect : InvertEffect
  opacityEffect : OpacityEffect
  saturateEffect : SaturateEffect
  lastDrawEffect : Option String
  invoked : List Member
  unknownReports : Nat
  errorReports : Nat

/-- The `ShowImage` of the page. -/
def App.showImage (a : App) : Option ShowImage := a.controller.mosaic.showImage

/-- The state after a synchronous effect has drawn on the `ShowImage` of the page. -/
def App.withShowImage (a : App) (si : Option ShowImage) : App :=
  { a with controller := { a.controller with mosaic := { a.controller.mosaic with showImage := si } } }

/-- The call `effectFunction()` of an entry, without arguments: `drawEffectAsync` of the
mosaic up to its first `await`, or the `drawEffect` of a synchronous effect, whose
`isOverlap` takes its default `false`. -/
def Entry.call (a : App) : Entry → App
  | Entry.mosaic =>
    { a with controller := (Controller.step false a.controller Turn.call).getD a.controller }
  | Entry.blur => a.withShowImage (a.blurEffect.drawEffect a.showImage false)
  | Entry.brightness => a.withShowImage (a.brightnessEffect.drawEffect a.showImage false)
  | Entry.contrast => a.withShowImage (a.contrastEffect.drawEffect a.showImage false)
  | Entry.dropShadow => a.withShowImage (a.dropShadowEffect.drawEffect a.showImage false)
  | Entry.grayscale => a.withShowImage (a.grayscaleEffect.drawEffect a.showImage false)
  | Entry.hueRotate => a.withShowImage (a.hueRotateEffect.drawEffect a.showImage false)
  | Entry.invert => a.withShowImage (a.invertEffect.drawEffect a.showImage false)
  | Entry.opacity => a.withShowImage (a.opacityEffect.drawEffect a.showImage false)
  | Entry.saturate => a.withShowImage (a.saturateEffect.drawEffect a.showImage false)

/-- The function `drawEffect(effect)` of `script.js`. -/
def drawEffect (a : App) (effect : String) : App :=
  match EFFECT_FUNCTIONS effect with
  | some effectFunction =>
    let a1 := { a with lastDrawEffect := some effect, invoked := a.invoked ++ [effectFunction] }
    match effectFunction with
    | Member.entry e => e.call a1
    | Member.inherited name =>
      if inheritedCallThrows name then { a1 with errorReports := a1.errorReports + 1 } else a1
  | none => { a with unknownReports := a.unknownReports + 1 }

/-- The function `drawLastEffect` of `script.js`. -/
def drawLastEffect (a : App) : App :=
  match a.lastDrawEffect with
  | some effect => drawEffect a effect
  | none => a

/-- The module state when `script.js` has been loaded, around a mosaic effect `m` over the
`ShowImage` of the page: `lastDrawEffect` is `EFFECTS.MOSAIC` and nothing has been called.
The parameters of the effects are `undefined` until the sliders set them, but for the
offset `(0, 0)` of the drop shadow. -/
def App.init (m : MosaicEffect) : App :=
  { controller := Controller.init m, blurEffect := ⟨none, false⟩, brightnessEffect := ⟨none⟩,
    contrastEffect := ⟨none⟩, dropShadowEffect := ⟨some 0, some 0, none, "undefined"⟩,
    grayscaleEffect := ⟨none⟩, hueRotateEffect := ⟨none⟩, invertEffect := ⟨none⟩,
    opacityEffect := ⟨none⟩, saturateEffect := ⟨none⟩, lastDrawEffect := some "mosaic",
    invoked := [], unknownReports := 0, errorReports := 0 }

/-! ## The average colour -/

theorem sumLoop_bytesOf (ps : List Pixel) (t : Totals) :
    sumLoop (bytesOf ps) t =
      ⟨t.totalR + ((counted ps).map Pixel.r).sum, t.totalG + ((counted ps).map Pixel.g).sum,
        t.totalB + ((counted ps).map Pixel.b).sum, t.totalA + ((counted ps).map Pixel.a).sum,
        t.pixelCount + (counted ps).length⟩ := by
  induction ps generalizing t with
  | nil => simp [bytesOf, sumLoop, counted]
  | cons p ps ih =>
    by_cases h : 0 < p.a
    · simp [bytesOf, sumLoop, counted, h, ih, List.filter_cons, Nat.add_assoc]
      omega
    · simp [bytesOf, sumLoop, counted, h, ih, List.filter_cons]

theorem jsRound_nearest (q : ℚ) : (jsRound q : ℚ) - 1 / 2 ≤ q ∧ q < jsRound q + 1 / 2 := by
  unfold jsRound
  constructor
  · have := Int.floor_le (q + 1 / 2)
    linarith
  · have := Int.lt_floor_add_one (q + 1 / 2)
    linarith

theorem counted_counted (ps : List Pixel) : counted (counted ps) = counted ps := by
  simp [counted]

theorem counted_insert_clear (ps qs : List Pixel) (r g b : Nat) :
    counted (ps ++ ⟨r, g, b, 0⟩ :: qs) = counted (ps ++ qs) := by
  simp [counted, List.filter_cons]

theorem calculateAverageColor_bytesOf (ps : List Pixel) :
    _calculateAverageColor (bytesOf ps) =
      if (counted ps).length = 0 then Color.clear
      else
        ⟨jsRound ((((counted ps).map Pixel.r).sum : ℚ) / (counted ps).length),
         jsRound ((((counted ps).map Pixel.g).sum : ℚ) / (counted ps).length),
         jsRound ((((counted ps).map Pixel.b).sum : ℚ) / (counted ps).length),
         (jsRound ((((counted ps).map Pixel.a).sum : ℚ) / (counted ps).length) : ℚ) / 255⟩ := by
  unfold _calculateAverageColor
  rw [sumLoop_bytesOf]
  by_cases h : (counted ps).length = 0
  · simp [h]
  · simp [h]

/-- C2: on every RGBA pixel array, `_calculateAverageColor` counts only the pixels with
alpha above zero; with none it returns `rgba(0, 0, 0, 0)`, otherwise the rounded means of
red, green, blue over the `n` counted pixels and `round(sumA / n) / 255` as alpha, where
`round` is the nearest integer with halves going up; pixels with alpha zero may be removed
from or added to the array without changing the result. -/
theorem calculateAverageColor_spec (ps : List Pixel) :
    (_calculateAverageColor (bytesOf ps) =
      if (counted ps).length = 0 then Color.clear
      else
        ⟨jsRound ((((counted ps).map Pixel.r).sum : ℚ) / (counted ps).length),
         jsRound ((((counted ps).map Pixel.g).sum : ℚ) / (counted ps).length),
         jsRound ((((counted ps).map Pixel.b).sum : ℚ) / (counted ps).length),
         (jsRound ((((counted ps).map Pixel.a).sum : ℚ) / (counted ps).length) : ℚ) / 255⟩)
    ∧ (∀ q : ℚ, (jsRound q : ℚ) - 1 / 2 ≤ q ∧ q < jsRound q + 1 / 2)
    ∧ _calculateAverageColor (bytesOf (counted ps)) = _calculateAverageColor (bytesOf ps)
    ∧ (∀ (qs : List Pixel) (r g b : Nat),
        _calculateAverageColor (bytesOf (ps ++ ⟨r, g, b, 0⟩ :: qs)) =
          _calculateAverageColor (bytesOf (ps ++ qs))) := by
  refine ⟨calculateAverageColor_bytesOf ps, jsRound_nearest, ?_, ?_⟩
  · rw [calculateAverageColor_bytesOf, calculateAverageColor_bytesOf, counted_counted]
  · intro qs r g b
    rw [calculateAverageColor_bytesOf, calculateAverageColor_bytesOf, counted_insert_clear]

/-! ## Arithmetic of the grid -/

theorem covers_block {s : ℚ} (hs : s ≠ 0) (x b p : Nat) :
    covers s ((x : ℚ) / s) ((b : ℚ) / s) p = true ↔ x ≤ p ∧ p < x + b := by
  unfold covers
  have h1 : (x : ℚ) / s * s = x := div_mul_cancel₀ _ hs
  have h2 : ((x : ℚ) / s + (b : ℚ) / s) * s = x + b := by
    rw [add_mul, div_mul_cancel₀ _ hs, div_mul_cancel₀ _ hs]
  rw [decide_eq_true_iff, h1, h2]
  constructor
  · rintro ⟨ha, hb⟩
    exact ⟨by exact_mod_cast ha, by have : p + 1 ≤ x + b := by exact_mod_cast hb
                                    omega⟩
  · rintro ⟨ha, hb⟩
    exact ⟨by exact_mod_cast ha, by have : p + 1 ≤ x + b := by omega
                                    exact_mod_cast this⟩

theorem inRect_block {s : ℚ} (hs : s ≠ 0) (x y b p q : Nat) :
    inRect s ((x : ℚ) / s) ((y : ℚ) / s) ((b : ℚ) / s) ((b : ℚ) / s) p q = true ↔
      (x ≤ p ∧ p < x + b) ∧ (y ≤ q ∧ q < y + b) := by
  unfold inRect
  rw [Bool.and_eq_true, covers_block hs, covers_block hs]

theorem mul_lt_iff_lt_blockCount {b : Nat} (hb : 0 < b) (i n : Nat) :
    i * b < n ↔ i < blockCount b n := by
  unfold blockCount
  rw [Nat.lt_iff_add_one_le, Nat.lt_iff_add_one_le, Nat.le_div_iff_mul_le hb, Nat.add_mul]
  omega

theorem blockCount_le {b : Nat} (hb : 0 < b) (n : Nat) : blockCount b n ≤ n := by
  by_contra h
  have h1 : n < blockCount b n := by omega
  have h2 := (mul_lt_iff_lt_blockCount hb n n).mpr h1
  have h3 : n * 1 ≤ n * b := Nat.mul_le_mul_left n hb
  omega

theorem div_eq_of_block {b : Nat} {i p : Nat} (h1 : i * b ≤ p) (h2 : p < i * b + b) :
    p / b = i := by
  apply Nat.div_eq_of_lt_le
  · exact h1
  · rw [Nat.add_mul]
    omega

theorem Pixel.over_transparent (s : Pixel) : s.over Pixel.transparent = s := by
  simp [Pixel.over, Pixel.transparent]


/-! ## One block -/

theorem processBlock_spec {src : Canvas} {b : Nat} {m0 m : MosaicEffect} {i j : Nat} {s : ℚ}
    (hb : 0 < b) (hs : s ≠ 0) (ht : src.transform = s) (hinv : LoopInv src b m0 m i j)
    (hi : i * b < src.width) (hj : j * b < src.height) :
    ∃ m1, processBlock m b s (i * b) (j * b) = some m1 ∧ LoopInv src b m0 m1 (i + 1) j ∧
      m1.yields = m.yields ∧ m1._isRunningDraw = m._isRunningDraw := by
  have hread : m._canvas.read (i * b) (j * b) (min b (m._canvas.width - i * b))
      (min b (m._canvas.height - j * b)) = blockRead src b (i * b) (j * b) := by
    unfold blockRead Canvas.read
    rw [hinv.width, hinv.height]
    congr 1
    funext p q
    by_cases h : p < min b (src.width - i * b) ∧ q < min b (src.height - j * b) ∧
        i * b + p < src.width ∧ j * b + q < src.height
    · rw [if_pos h, if_pos h, hinv.pix _ _ h.2.2.1 h.2.2.2, if_neg]
      omega
    · rw [if_neg h, if_neg h]
  have hget : m._canvas.getImageData (i * b) (j * b) (min b (m._canvas.width - i * b))
      (min b (m._canvas.height - j * b)) = some (blockRead src b (i * b) (j * b)) := by
    unfold Canvas.getImageData
    rw [if_neg, hread]
    rw [hinv.width, hinv.height, hinv.clean]
    simp
    omega
  have hpb : processBlock m b s (i * b) (j * b) = some
      { m with
        _canvas := _fillBlockWithColor
          (m._canvas.clearRect ((i * b : Nat) / s) ((j * b : Nat) / s) ((b : Nat) / s)
            ((b : Nat) / s))
          ((i * b : Nat) / s) ((j * b : Nat) / s) ((b : Nat) / s) ((b : Nat) / s)
          (_calculateAverageColor (blockRead src b (i * b) (j * b)).data),
        visits := m.visits ++
          [⟨⟨i * b, j * b, min b (m._canvas.width - i * b), min b (m._canvas.height - j * b)⟩,
            blockRead src b (i * b) (j * b),
            _calculateAverageColor (blockRead src b (i * b) (j * b)).data⟩] } := by
    unfold processBlock
    simp only [hget]
  refine ⟨_, hpb, ?_, rfl, rfl⟩
  have htm : m._canvas.transform = s := by rw [hinv.transform, ht]
  constructor
  · exact hinv.width
  · exact hinv.height
  · exact hinv.transform
  · exact hinv.clean
  · intro p q hp hq
    have hmul : (i + 1) * b = i * b + b := by rw [Nat.add_mul, Nat.one_mul]
    simp only [_fillBlockWithColor, Canvas.clearRect, htm]
    by_cases hin : inRect s ((i * b : Nat) / s) ((j * b : Nat) / s) ((b : Nat) / s)
        ((b : Nat) / s) p q = true
    · have hin' := (inRect_block hs _ _ _ _ _).mp hin
      simp only [if_pos hin, Pixel.over_transparent]
      rw [if_pos (by omega)]
      unfold mosaicPixel
      rw [div_eq_of_block hin'.1.1 hin'.1.2, div_eq_of_block hin'.2.1 hin'.2.2,
        Nat.mul_comm b i, Nat.mul_comm b j]
    · have hin' : ¬ ((i * b ≤ p ∧ p < i * b + b) ∧ (j * b ≤ q ∧ q < j * b + b)) :=
        fun h => hin ((inRect_block hs _ _ _ _ _).mpr h)
      simp only [if_neg hin]
      rw [hinv.pix p q hp hq, hmul]
      by_cases hd : q < j * b ∨ (q < j * b + b ∧ p < i * b)
      · rw [if_pos hd, if_pos (by omega)]
      · rw [if_neg hd, if_neg (by omega)]
  · show m.visits ++ [_] = _
    rw [hinv.visits, List.range_succ, List.map_append, List.append_assoc, List.append_assoc,
      hinv.width, hinv.height]
    rfl
  · exact hinv.showImage
  · exact hinv.blockSize
  · exact hinv.cancel
  · exact hinv.warnings
  · exact hinv.alerts


/-! ## A pass that is not cancelled -/

theorem MosaicEffect.step_congr {m m0 : MosaicEffect} (h : m.blockSize = m0.blockSize) :
    m.step = m0.step := by
  unfold MosaicEffect.step
  rw [h]

theorem MosaicEffect.scale_congr {m m0 : MosaicEffect} (h : m.showImage = m0.showImage) :
    m.scale = m0.scale := by
  unfold MosaicEffect.scale
  rw [h]

theorem LoopInv.withYields {src : Canvas} {b : Nat} {m0 m : MosaicEffect} {i j : Nat}
    (h : LoopInv src b m0 m i j) (n : Nat) : LoopInv src b m0 { m with yields := n } i j :=
  ⟨h.width, h.height, h.transform, h.clean, h.pix, h.visits, h.showImage, h.blockSize,
    h.cancel, h.warnings, h.alerts⟩

theorem cancel_or_false (m : MosaicEffect) (h : m._isRequestedCancel = false) :
    { m with _isRequestedCancel := m._isRequestedCancel || false } = m := by
  cases m
  simp

theorem afterLoops_completed {src : Canvas} {b : Nat} {m0 m : MosaicEffect} {j : Nat}
    (hb : 0 < b) (hW : 0 < src.width) (hH : 0 < src.height)
    (hinv : LoopInv src b m0 m (blockCount b src.width) j)
    (hjlt : j < blockCount b src.height) (hj : ¬ (j * b + b < src.height)) :
    Completed src b m0 (afterLoops m) := by
  have hget : m._canvas.getImageData 0 0 m._canvas.width m._canvas.height =
      some (m._canvas.read 0 0 src.width src.height) := by
    unfold Canvas.getImageData
    rw [if_neg, hinv.width, hinv.height]
    rw [hinv.width, hinv.height, hinv.clean]
    simp
    omega
  have hlast : j + 1 = blockCount b src.height := by
    have h1 : ¬ ((j + 1) * b < src.height) := by rw [Nat.add_mul, Nat.one_mul]; exact hj
    rw [mul_lt_iff_lt_blockCount hb] at h1
    omega
  have hcol : ¬ (blockCount b src.width * b < src.width) := by
    rw [mul_lt_iff_lt_blockCount hb]
    omega
  have heq : afterLoops m = { m with
      showImage := m.showImage.map fun si =>
        { si with canvas := si.canvas.putImageData (m._canvas.read 0 0 src.width src.height) 0 0 },
      _isRunningDraw := false } := by
    unfold afterLoops
    rw [if_pos hinv.cancel]
    simp only [hget]
  rw [heq]
  constructor
  · exact hinv.width
  · exact hinv.height
  · intro p q hp hq
    show m._canvas.pix p q = _
    rw [hinv.pix p q hp hq, if_pos]
    omega
  · show m.visits = _
    rw [hinv.visits]
    unfold gridVisits
    rw [← hlast, List.range_succ, List.flatMap_append, List.flatMap_singleton]
    rfl
  · show Option.map _ m.showImage = _
    rw [hinv.showImage]
  · rfl
  · exact hinv.cancel
  · exact hinv.warnings
  · exact hinv.alerts

theorem loop_completes {src : Canvas} {b : Nat} {s : ℚ} {m0 : MosaicEffect}
    (hb : 0 < b) (hs : s ≠ 0) (ht : src.transform = s) (hW : 0 < src.width)
    (hH : 0 < src.height) (hstep : m0.step = b) (hscale : m0.scale = s) :
    ∀ k i j m l fuel n, LoopInv src b m0 m i j → l.x = i * b → l.y = j * b →
      i ≤ blockCount b src.width → j < blockCount b src.height →
      (blockCount b src.height - j) * (blockCount b src.width + 1) - i ≤ k →
      k ≤ (src.width + 2) * (src.height + 2) → k ≤ fuel → k ≤ n →
      ∃ m', (loop b s fuel m l).bind (runFrom (List.replicate n false)) =
          some (Outcome.returned m') ∧ Completed src b m0 m' := by
  intro k
  induction k with
  | zero =>
    intro i j m l fuel n _ _ _ hi hj hk _ _ _
    exfalso
    have h1 : 1 * (blockCount b src.width + 1) ≤
        (blockCount b src.height - j) * (blockCount b src.width + 1) :=
      Nat.mul_le_mul_right _ (by omega)
    omega
  | succ k ih =>
    intro i j m l fuel n hinv hx hy hi hj hk hkb hfuel hn
    obtain ⟨f, rfl⟩ : ∃ f, fuel = f + 1 := ⟨fuel - 1, by omega⟩
    have h1 : 1 * (blockCount b src.width + 1) ≤
        (blockCount b src.height - j) * (blockCount b src.width + 1) :=
      Nat.mul_le_mul_right _ (by omega)
    have hjH : j * b < src.height := (mul_lt_iff_lt_blockCount hb _ _).mpr hj
    unfold loop
    by_cases hxi : i < blockCount b src.width
    · have hiW : i * b < src.width := (mul_lt_iff_lt_blockCount hb _ _).mpr hxi
      obtain ⟨m1, hpb, hinv1, _, _⟩ := processBlock_spec hb hs ht hinv hiW hjH
      rw [if_pos ⟨by rw [hx, hinv.width]; exact hiW, hinv.cancel⟩, hx, hy, hpb]
      simp only []
      have hmul : (i + 1) * b = i * b + b := by rw [Nat.add_mul, Nat.one_mul]
      by_cases hpc : l.pixelCount + l.blockUnitSize > piexelCountThreshold
      · rw [if_pos hpc]
        obtain ⟨n', rfl⟩ : ∃ n', n = n' + 1 := ⟨n - 1, by omega⟩
        rw [List.replicate_succ, Option.some_bind, runFrom,
          cancel_or_false _ (hinv1.withYields _).cancel]
        unfold MosaicEffect.resume
        rw [MosaicEffect.step_congr (hinv1.withYields _).blockSize,
          MosaicEffect.scale_congr (hinv1.withYields _).showImage, hstep, hscale]
        refine ih (i + 1) j _ _ _ n' (hinv1.withYields _) ?_ rfl (by omega) hj (by omega)
          (by omega) ?_ (by omega)
        · show i * b + b = _
          rw [hmul]
        · show k ≤ loopFuel _
          unfold loopFuel
          show k ≤ (m1._canvas.width + 2) * (m1._canvas.height + 2)
          rw [hinv1.width, hinv1.height]
          omega
      · rw [if_neg hpc]
        refine ih (i + 1) j m1 _ f n hinv1 ?_ rfl (by omega) hj (by omega) (by omega)
          (by omega) (by omega)
        show i * b + b = _
        rw [hmul]
    · have hi' : i = blockCount b src.width := by omega
      subst hi'
      have hnlt : ¬ (l.x < m._canvas.width ∧ m._isRequestedCancel = false) := by
        rw [hx, hinv.width, mul_lt_iff_lt_blockCount hb]
        omega
      rw [if_neg hnlt, hy, hinv.height, hinv.cancel]
      by_cases hrow : j * b + b < src.height
      · rw [if_pos ⟨hrow, rfl⟩]
        have hj1 : j + 1 < blockCount b src.height := by
          rw [← mul_lt_iff_lt_blockCount hb, Nat.add_mul, Nat.one_mul]
          exact hrow
        have hsplit : (blockCount b src.height - j) * (blockCount b src.width + 1) =
            (blockCount b src.height - (j + 1)) * (blockCount b src.width + 1) +
              (blockCount b src.width + 1) := by
          rw [show blockCount b src.height - j = (blockCount b src.height - (j + 1)) + 1 by omega,
            Nat.add_mul, Nat.one_mul]
        have hnocol : ¬ (blockCount b src.width * b < src.width) := by
          rw [mul_lt_iff_lt_blockCount hb]
          omega
        have hinv' : LoopInv src b m0 m 0 (j + 1) := by
          refine ⟨hinv.width, hinv.height, hinv.transform, hinv.clean, ?_, ?_, hinv.showImage,
            hinv.blockSize, hinv.cancel, hinv.warnings, hinv.alerts⟩
          · intro p q hp hq
            rw [hinv.pix p q hp hq, Nat.add_mul, Nat.one_mul]
            by_cases hd : q < j * b ∨ (q < j * b + b ∧ p < blockCount b src.width * b)
            · rw [if_pos hd, if_pos (by omega)]
            · rw [if_neg hd, if_neg (by omega)]
          · rw [hinv.visits, List.range_succ, List.flatMap_append, List.flatMap_singleton]
            simp [rowVisits]
        refine ih 0 (j + 1) m _ f n hinv' ?_ ?_ (by omega) hj1 (by omega) (by omega)
          (by omega) (by omega)
        · show 0 = 0 * b
          rw [Nat.zero_mul]
        · show j * b + b = _
          rw [Nat.add_mul, Nat.one_mul]
      · rw [if_neg (fun h => hrow h.1), Option.some_bind]
        refine ⟨afterLoops m, ?_, afterLoops_completed hb hW hH hinv hj hrow⟩
        cases n <;> rfl

theorem prepareCanvas_loopInv (m : MosaicEffect) (si : ShowImage) (b : Nat)
    (hclean : si.image.originClean = true) :
    LoopInv (prepareCanvas si) b m
      { m with _isRunningDraw := true, _isRequestedCancel := false,
               _canvas := prepareCanvas si } 0 0 := by
  refine ⟨rfl, rfl, rfl, ?_, ?_, ?_, rfl, rfl, rfl, rfl, rfl⟩
  · show (true && si.image.originClean) = true
    rw [hclean]
    rfl
  · intro p q _ _
    rw [if_neg]
    omega
  · simp

theorem pass_completes (m : MosaicEffect) (si : ShowImage) (b : Int)
    (hsi : m.showImage = some si) (hshow : si.isShowableImage = true)
    (hclean : si.image.originClean = true) (hs : 0 < si.scale)
    (hb : m.blockSize = some b) (h1 : 1 < b)
    (hW : 0 < (prepareCanvas si).width) (hH : 0 < (prepareCanvas si).height)
    (n : Nat) (hn : loopFuel (prepareCanvas si) ≤ n) :
    ∃ m', runPass (List.replicate n false) m = some (Outcome.returned m') ∧
      Completed (prepareCanvas si) b.toNat m m' := by
  obtain ⟨showImage, blockSize, r, c, cv, vs, ys, ws, als⟩ := m
  simp only at hsi hb
  subst hsi hb
  have hbn : 0 < b.toNat := by omega
  have hs0 : si.scale ≠ 0 := ne_of_gt hs
  have ht : (prepareCanvas si).transform = si.scale := by
    show (1 : ℚ) * si.scale = si.scale
    rw [one_mul]
  have hinv := prepareCanvas_loopInv ⟨some si, some b, r, c, cv, vs, ys, ws, als⟩ si b.toNat
    hclean
  have hcw := blockCount_le hbn (prepareCanvas si).width
  have hch := blockCount_le hbn (prepareCanvas si).height
  have hchpos : 0 < blockCount b.toNat (prepareCanvas si).height := by
    rw [← mul_lt_iff_lt_blockCount hbn, Nat.zero_mul]
    exact hH
  have hbound : blockCount b.toNat (prepareCanvas si).height *
      (blockCount b.toNat (prepareCanvas si).width + 1) ≤
      ((prepareCanvas si).width + 2) * ((prepareCanvas si).height + 2) := by
    calc _ ≤ ((prepareCanvas si).height + 2) * ((prepareCanvas si).width + 2) :=
          Nat.mul_le_mul (by omega) (by omega)
      _ = _ := Nat.mul_comm _ _
  have hloop := @loop_completes (prepareCanvas si) b.toNat si.scale
    ⟨some si, some b, r, c, cv, vs, ys, ws, als⟩ hbn hs0 ht hW hH rfl rfl
    (blockCount b.toNat (prepareCanvas si).height *
      (blockCount b.toNat (prepareCanvas si).width + 1)) 0 0 _
    ⟨0, 0, 0, (b * b).toNat⟩ (loopFuel (prepareCanvas si)) n hinv
    (by rw [Nat.zero_mul]) (by rw [Nat.zero_mul]) (Nat.zero_le _) hchpos (by simp) hbound
    (by unfold loopFuel; exact hbound) (by unfold loopFuel at hn; omega)
  unfold runPass MosaicEffect.start MosaicEffect.drawEffect
  simp only [hshow]
  rw [if_neg (by simp), if_neg (by omega), if_pos h1, if_pos ⟨hH, trivial⟩]
  exact hloop

/-! ## The grid -/

theorem gridVisits_blocks (src : Canvas) (b : Nat) :
    (gridVisits src b).map Visit.block = gridBlocks b src.width src.height := by
  unfold gridVisits gridBlocks
  rw [List.map_flatMap]
  congr 1
  funext j
  simp [rowVisits, gridRow, blockVisit]

theorem mem_gridBlocks {b W H : Nat} {bl : Block} :
    bl ∈ gridBlocks b W H ↔ ∃ j, j < blockCount b H ∧ ∃ i, i < blockCount b W ∧
      bl = ⟨i * b, j * b, min b (W - i * b), min b (H - j * b)⟩ := by
  simp only [gridBlocks, gridRow, List.mem_flatMap, List.mem_map, List.mem_range]
  constructor
  · rintro ⟨j, hj, i, hi, rfl⟩
    exact ⟨j, hj, i, hi, rfl⟩
  · rintro ⟨j, hj, i, hi, rfl⟩
    exact ⟨j, hj, i, hi, rfl⟩

theorem length_rows (b W H n : Nat) :
    ((List.range n).flatMap (gridRow b W H)).length = n * blockCount b W := by
  induction n with
  | zero => simp
  | succ n ih =>
    rw [List.range_succ, List.flatMap_append, List.length_append, ih, List.flatMap_singleton,
      Nat.add_mul, Nat.one_mul]
    simp [gridRow]

theorem gridBlocks_pairwise {b W H : Nat} (R : Block → Block → Prop)
    (hrow : ∀ i1 i2 j, i1 < i2 →
      R ⟨i1 * b, j * b, min b (W - i1 * b), min b (H - j * b)⟩
        ⟨i2 * b, j * b, min b (W - i2 * b), min b (H - j * b)⟩)
    (hcol : ∀ i1 i2 j1 j2, j1 < j2 →
      R ⟨i1 * b, j1 * b, min b (W - i1 * b), min b (H - j1 * b)⟩
        ⟨i2 * b, j2 * b, min b (W - i2 * b), min b (H - j2 * b)⟩) :
    List.Pairwise R (gridBlocks b W H) := by
  unfold gridBlocks
  rw [List.pairwise_flatMap]
  constructor
  · intro j _
    unfold gridRow
    rw [List.pairwise_map]
    exact (List.pairwise_lt_range _).imp (fun h => hrow _ _ j h)
  · refine (List.pairwise_lt_range _).imp ?_
    intro j1 j2 hj x hx y hy
    simp only [gridRow, List.mem_map, List.mem_range] at hx hy
    obtain ⟨i1, _, rfl⟩ := hx
    obtain ⟨i2, _, rfl⟩ := hy
    exact hcol i1 i2 j1 j2 hj


/-- C3: for an integer block size `b > 1` and a work buffer of `W × H` device pixels
(`W, H ≥ 1`), a pass that is not cancelled returns, and the blocks it has visited are, in
order, the grid `gridBlocks b W H`: origins `(i * b, j * b)` below `W` and `H`, row by row
from the top and left to right inside a row, each of size
`min(b, W − x) × min(b, H − y)`.  The grid has `ceil(W / b) * ceil(H / b)` blocks, they are
pairwise disjoint, every pixel of the buffer lies in one of them, and a block narrower
(lower) than `b` is in the last column (row). -/
theorem mosaic_pass_grid (m : MosaicEffect) (si : ShowImage) (b : Int) (W H : Nat)
    (hsi : m.showImage = some si) (hshow : si.isShowableImage = true)
    (hclean : si.image.originClean = true) (hs : 0 < si.scale)
    (hb : m.blockSize = some b) (h1 : 1 < b)
    (hW : deviceLength si.image.width si.scale = W) (hH : deviceLength si.image.height si.scale = H)
    (hW1 : 1 ≤ W) (hH1 : 1 ≤ H) :
    (∀ n, (W + 2) * (H + 2) ≤ n →
      ∃ m', runPass (List.replicate n false) m = some (Outcome.returned m') ∧
        m'.blocks = m.blocks ++ gridBlocks b.toNat W H)
    ∧ (gridBlocks b.toNat W H).length = blockCount b.toNat W * blockCount b.toNat H
    ∧ List.Pairwise (fun a c => a.y < c.y ∨ (a.y = c.y ∧ a.x < c.x)) (gridBlocks b.toNat W H)
    ∧ List.Pairwise (fun a c => ∀ p q, ¬ (a.contains p q ∧ c.contains p q))
        (gridBlocks b.toNat W H)
    ∧ (∀ p q, p < W → q < H → ∃ bl, bl ∈ gridBlocks b.toNat W H ∧ bl.contains p q)
    ∧ (∀ bl, bl ∈ gridBlocks b.toNat W H →
        bl.x < W ∧ bl.y < H ∧ bl.x % b.toNat = 0 ∧ bl.y % b.toNat = 0 ∧
        bl.w = min b.toNat (W - bl.x) ∧ bl.h = min b.toNat (H - bl.y) ∧
        (bl.w < b.toNat → bl.x = (blockCount b.toNat W - 1) * b.toNat) ∧
        (bl.h < b.toNat → bl.y = (blockCount b.toNat H - 1) * b.toNat)) := by
  have hbn : 0 < b.toNat := by omega
  have hmono : ∀ i1 i2 : Nat, i1 < i2 → i1 * b.toNat + b.toNat ≤ i2 * b.toNat := by
    intro i1 i2 h
    have := Nat.mul_le_mul_right b.toNat (Nat.succ_le_of_lt h)
    rw [Nat.succ_mul] at this
    exact this
  refine ⟨?_, ?_, ?_, ?_, ?_, ?_⟩
  · intro n hn
    obtain ⟨m', hrun, hdone⟩ := pass_completes m si b hsi hshow hclean hs hb h1
      (by show 0 < deviceLength si.image.width si.scale; omega)
      (by show 0 < deviceLength si.image.height si.scale; omega) n
      (by show (deviceLength si.image.width si.scale + 2) *
            (deviceLength si.image.height si.scale + 2) ≤ n
          rw [hW, hH]; exact hn)
    refine ⟨m', hrun, ?_⟩
    unfold MosaicEffect.blocks
    rw [hdone.visits, List.map_append, gridVisits_blocks]
    show _ ++ gridBlocks b.toNat (deviceLength si.image.width si.scale)
      (deviceLength si.image.height si.scale) = _
    rw [hW, hH]
  · unfold gridBlocks
    rw [length_rows, Nat.mul_comm]
  · apply gridBlocks_pairwise
    · intro i1 i2 j h
      right
      exact ⟨rfl, by have := hmono i1 i2 h; show i1 * b.toNat < i2 * b.toNat; omega⟩
    · intro i1 i2 j1 j2 h
      left
      have := hmono j1 j2 h
      show j1 * b.toNat < j2 * b.toNat
      omega
  · apply gridBlocks_pairwise
    · intro i1 i2 j h p q
      have := hmono i1 i2 h
      simp only [Block.contains]
      omega
    · intro i1 i2 j1 j2 h p q
      have := hmono j1 j2 h
      simp only [Block.contains]
      omega
  · intro p q hp hq
    have hpi : p / b.toNat * b.toNat ≤ p := Nat.div_mul_le_self p _
    have hqi : q / b.toNat * b.toNat ≤ q := Nat.div_mul_le_self q _
    have hp2 : p < p / b.toNat * b.toNat + b.toNat := by
      have := Nat.div_add_mod p b.toNat
      have := Nat.mod_lt p hbn
      rw [Nat.mul_comm]
      omega
    have hq2 : q < q / b.toNat * b.toNat + b.toNat := by
      have := Nat.div_add_mod q b.toNat
      have := Nat.mod_lt q hbn
      rw [Nat.mul_comm]
      omega
    refine ⟨⟨p / b.toNat * b.toNat, q / b.toNat * b.toNat, min b.toNat (W - p / b.toNat * b.toNat),
      min b.toNat (H - q / b.toNat * b.toNat)⟩, ?_, ?_⟩
    · rw [mem_gridBlocks]
      exact ⟨q / b.toNat, (mul_lt_iff_lt_blockCount hbn _ _).mp (by omega), p / b.toNat,
        (mul_lt_iff_lt_blockCount hbn _ _).mp (by omega), rfl⟩
    · simp only [Block.contains]
      omega
  · intro bl hbl
    rw [mem_gridBlocks] at hbl
    obtain ⟨j, hj, i, hi, rfl⟩ := hbl
    have hiW := (mul_lt_iff_lt_blockCount hbn _ _).mpr hi
    have hjH := (mul_lt_iff_lt_blockCount hbn _ _).mpr hj
    refine ⟨hiW, hjH, Nat.mul_mod_left _ _, Nat.mul_mod_left _ _, rfl, rfl, ?_, ?_⟩
    · intro hw
      simp only at hw
      have h2 : ¬ ((i + 1) * b.toNat < W) := by rw [Nat.add_mul, Nat.one_mul]; omega
      rw [mul_lt_iff_lt_blockCount hbn] at h2
      show i * b.toNat = _
      rw [show blockCount b.toNat W - 1 = i by omega]
    · intro hh
      simp only at hh
      have h2 : ¬ ((j + 1) * b.toNat < H) := by rw [Nat.add_mul, Nat.one_mul]; omega
      rw [mul_lt_iff_lt_blockCount hbn] at h2
      show j * b.toNat = _
      rw [show blockCount b.toNat H - 1 = j by omega]


/-- Witness for C3: a 20×20 buffer with block size 7 is visited as nine blocks whose last
column and row have extent 6, and a 100×100 buffer with block size 10 as exactly one
hundred blocks of 10×10. -/
theorem mosaic_pass_grid_witness :
    ((runPass (List.replicate 484 false) (sampleMosaic 20 20 (some 7))).map fun o =>
        (o.isReturned, o.mosaic.blocks)) =
      some (true, [⟨0, 0, 7, 7⟩, ⟨7, 0, 7, 7⟩, ⟨14, 0, 6, 7⟩, ⟨0, 7, 7, 7⟩, ⟨7, 7, 7, 7⟩,
        ⟨14, 7, 6, 7⟩, ⟨0, 14, 7, 6⟩, ⟨7, 14, 7, 6⟩, ⟨14, 14, 6, 6⟩])
    ∧ ((runPass (List.replicate 10404 false) (sampleMosaic 100 100 (some 10))).map fun o =>
        (o.isReturned, o.mosaic.blocks.length,
          o.mosaic.blocks.all fun bl => decide (bl.w = 10 ∧ bl.h = 10))) =
      some (true, 100, true) := by
  constructor
  · obtain ⟨m', hrun, hblocks⟩ :=
      (mosaic_pass_grid (sampleMosaic 20 20 (some 7)) ⟨Surface.resize 20 20, sampleImage 20 20, true, 1⟩
        7 20 20 rfl rfl rfl (by norm_num) rfl (by decide) (by decide) (by decide) (by decide)
        (by decide)).1 484 (by decide)
    rw [hrun, Option.map_some']
    simp only [Outcome.isReturned, Outcome.mosaic, hblocks]
    decide
  · obtain ⟨m', hrun, hblocks⟩ :=
      (mosaic_pass_grid (sampleMosaic 100 100 (some 10))
        ⟨Surface.resize 100 100, sampleImage 100 100, true, 1⟩
        10 100 100 rfl rfl rfl (by norm_num) rfl (by decide) (by decide) (by decide) (by decide)
        (by decide)).1 10404 (by decide)
    rw [hrun, Option.map_some']
    simp only [Outcome.isReturned, Outcome.mosaic, hblocks]
    decide

/-- C1: for an integer block size `b > 1` and a work buffer of `W × H` device pixels, a pass
that is not cancelled returns after one copy of the work buffer has been put on the visible
canvas, and every pixel `(px, py)` of that copy has the colour `_calculateAverageColor`
gives for the source pixels of its block, the rectangle
`[b⌊px/b⌋, min(b⌊px/b⌋ + b, W)) × [b⌊py/b⌋, min(b⌊py/b⌋ + b, H))` of the buffer as it was
before the first block.  Every block read exactly those source pixels, was filled with their
average, and its clear and fill region covers, inside the buffer, exactly the pixels it
read. -/
theorem mosaic_pass_pixels (m : MosaicEffect) (si : ShowImage) (b : Int) (W H : Nat)
    (hsi : m.showImage = some si) (hshow : si.isShowableImage = true)
    (hclean : si.image.originClean = true) (hs : 0 < si.scale)
    (hb : m.blockSize = some b) (h1 : 1 < b)
    (hW : deviceLength si.image.width si.scale = W) (hH : deviceLength si.image.height si.scale = H)
    (hW1 : 1 ≤ W) (hH1 : 1 ≤ H) (n : Nat) (hn : (W + 2) * (H + 2) ≤ n) :
    ∃ m' img vs, runPass (List.replicate n false) m = some (Outcome.returned m') ∧
      m'.surfaceOps = m.surfaceOps ++ [DrawOp.putImageData img 0 0] ∧
      img.width = W ∧ img.height = H ∧
      (∀ px py, px < W → py < H →
        img.pix px py = (_calculateAverageColor ((prepareCanvas si).read
          (b.toNat * (px / b.toNat)) (b.toNat * (py / b.toNat))
          (min (b.toNat * (px / b.toNat) + b.toNat) W - b.toNat * (px / b.toNat))
          (min (b.toNat * (py / b.toNat) + b.toNat) H - b.toNat * (py / b.toNat))).data).toPixel) ∧
      m'.visits = m.visits ++ vs ∧
      (∀ v, v ∈ vs →
        v.read = (prepareCanvas si).read v.block.x v.block.y v.block.w v.block.h ∧
        v.color = _calculateAverageColor v.read.data ∧
        ∀ p q, p < W → q < H →
          (inRect si.scale (v.block.x / si.scale) (v.block.y / si.scale) (b.toNat / si.scale)
            (b.toNat / si.scale) p q = true ↔ v.block.contains p q)) := by
  have hbn : 0 < b.toNat := by omega
  have hsw : (prepareCanvas si).width = W := hW
  have hsh : (prepareCanvas si).height = H := hH
  obtain ⟨m', hrun, hdone⟩ := pass_completes m si b hsi hshow hclean hs hb h1
    (by rw [hsw]; omega) (by rw [hsh]; omega) n
    (by unfold loopFuel; rw [hsw, hsh]; exact hn)
  refine ⟨m', m'._canvas.read 0 0 W H, gridVisits (prepareCanvas si) b.toNat, hrun, ?_, rfl, rfl,
    ?_, hdone.visits, ?_⟩
  · unfold MosaicEffect.surfaceOps
    rw [hdone.showImage, hsi, hsw, hsh]
    rfl
  · intro px py hpx hpy
    have hpix := hdone.pix px py (by rw [hsw]; exact hpx) (by rw [hsh]; exact hpy)
    have himg : (m'._canvas.read 0 0 W H).pix px py = m'._canvas.pix px py := by
      unfold Canvas.read
      simp only [Nat.zero_add]
      rw [if_pos ⟨hpx, hpy, by rw [hdone.width, hsw]; exact hpx,
        by rw [hdone.height, hsh]; exact hpy⟩]
    rw [himg, hpix]
    unfold mosaicPixel blockRead
    rw [hsw, hsh]
    have e1 : min b.toNat (W - b.toNat * (px / b.toNat)) =
        min (b.toNat * (px / b.toNat) + b.toNat) W - b.toNat * (px / b.toNat) := by omega
    have e2 : min b.toNat (H - b.toNat * (py / b.toNat)) =
        min (b.toNat * (py / b.toNat) + b.toNat) H - b.toNat * (py / b.toNat) := by omega
    rw [e1, e2]
  · intro v hv
    simp only [gridVisits, rowVisits, List.mem_flatMap, List.mem_map, List.mem_range] at hv
    obtain ⟨j, _, i, _, rfl⟩ := hv
    refine ⟨rfl, rfl, ?_⟩
    intro p q hp hq
    show inRect si.scale ((i * b.toNat : Nat) / si.scale) ((j * b.toNat : Nat) / si.scale) _ _ p q
      = true ↔ _
    rw [inRect_block (ne_of_gt hs)]
    simp only [blockVisit, Block.contains, hsw, hsh]
    omega


theorem sample_read_data :
    ((prepareCanvas ⟨Surface.resize 2 2, sampleImage 2 2, true, 1⟩).read 0 0 2 2).data =
      [0, 0, 3, 255, 1, 0, 3, 255, 0, 1, 3, 255, 1, 1, 3, 255] := by
  have h : ∀ i j : Nat, i < 2 → j < 2 →
      (prepareCanvas ⟨Surface.resize 2 2, sampleImage 2 2, true, 1⟩).pix i j = ⟨i, j, 3, 255⟩ := by
    intro i j _ _
    simp [prepareCanvas, Canvas.drawPlane, Canvas.clearRect, Canvas.scale, Canvas.resize,
      sampleImage, Pixel.over, Pixel.transparent]
  have hw : (prepareCanvas ⟨Surface.resize 2 2, sampleImage 2 2, true, 1⟩).width = 2 := by decide
  have hh : (prepareCanvas ⟨Surface.resize 2 2, sampleImage 2 2, true, 1⟩).height = 2 := by decide
  simp [ImageData.data, ImageData.pixels, Canvas.read, List.range_succ, bytesOf, hw, hh, h]

/-- Witness for C1: on a 2×2 image at scale 1 with block size 2, the pass ends after one
copy to the visible canvas, and the pixel `(1, 1)` of that copy is the average
`(1, 1, 3, 255)` of the four source pixels. -/
theorem mosaic_pass_pixels_witness :
    ((runPass (List.replicate 16 false) (sampleMosaic 2 2 (some 2))).map fun o =>
        (o.isReturned, o.mosaic.surfaceOps.length,
          (lastPut o.mosaic.surfaceOps).map fun img => img.pix 1 1)) =
      some (true, 1, some ⟨1, 1, 3, 255⟩) := by
  obtain ⟨m', img, vs, hrun, hops, _, _, hpix, _, _⟩ :=
    mosaic_pass_pixels (sampleMosaic 2 2 (some 2)) ⟨Surface.resize 2 2, sampleImage 2 2, true, 1⟩
      2 2 2 rfl rfl rfl (by norm_num) rfl (by decide) (by decide) (by decide) (by decide)
      (by decide) 16 (by decide)
  have h11 := hpix 1 1 (by decide) (by decide)
  have e : (2 : Int).toNat = 2 := rfl
  rw [e] at h11
  norm_num at h11
  rw [sample_read_data] at h11
  rw [hrun, Option.map_some']
  simp only [Outcome.isReturned, Outcome.mosaic, hops]
  have hl : lastPut ((sampleMosaic 2 2 (some 2)).surfaceOps ++ [DrawOp.putImageData img 0 0]) =
      some img := rfl
  rw [hl, Option.map_some', h11]
  have hc : _calculateAverageColor [0, 0, 3, 255, 1, 0, 3, 255, 0, 1, 3, 255, 1, 1, 3, 255] =
      ⟨1, 1, 3, 1⟩ := by
    simp [_calculateAverageColor, sumLoop, jsRound]
    norm_num [Int.floor_eq_iff]
  rw [hc]
  simp [Color.toPixel, jsRound, sampleMosaic, MosaicEffect.surfaceOps, Surface.resize]
  rw [show ⌊(2 : ℚ)⁻¹⌋ = 0 by norm_num [Int.floor_eq_iff]]
  rfl


/-! ## Runs of the body between two suspensions -/

theorem processBlock_running {m m1 : MosaicEffect} {b : Nat} {s : ℚ} {x y : Nat}
    (h : processBlock m b s x y = some m1) :
    m1._isRunningDraw = m._isRunningDraw ∧ m1._isRequestedCancel = m._isRequestedCancel ∧
      m1.showImage = m.showImage ∧ m1.blockSize = m.blockSize ∧ m1.alerts = m.alerts ∧
      m1.warnings = m.warnings := by
  unfold processBlock at h
  dsimp only at h
  split at h
  · exact absurd h (by simp)
  · simp only [Option.some.injEq] at h
    subst h
    exact ⟨rfl, rfl, rfl, rfl, rfl, rfl⟩

theorem loop_suspended_running (b : Nat) (s : ℚ) :
    ∀ fuel m l l' m', loop b s fuel m l = some (Outcome.suspended l' m') →
      m'._isRunningDraw = m._isRunningDraw := by
  intro fuel
  induction fuel with
  | zero => intro m l l' m' h; simp [loop] at h
  | succ f ih =>
    intro m l l' m' h
    unfold loop at h
    split at h
    · split at h
      · simp at h
      · rename_i m1 hpb
        dsimp only at h
        split at h
        · simp only [Option.some.injEq, Outcome.suspended.injEq] at h
          obtain ⟨_, rfl⟩ := h
          exact (processBlock_running hpb).1
        · rw [ih _ _ _ _ h]
          exact (processBlock_running hpb).1
    · split at h
      · exact ih _ _ _ _ h
      · simp at h

theorem drawEffect_suspended_running {m m' : MosaicEffect} {l : Locals} {isOverlap : Bool}
    (h : m.drawEffect isOverlap = some (Outcome.suspended l m')) :
    m'._isRunningDraw = m._isRunningDraw := by
  unfold MosaicEffect.drawEffect at h
  split at h
  · simp at h
  · split at h
    · simp at h
    · split at h
      · simp at h
      · split at h
        · simp at h
        · split at h
          · dsimp only at h
            split at h
            · exact (loop_suspended_running _ _ _ _ _ _ _ h).trans rfl
            · simp at h
          · simp at h

theorem start_suspended_running {m m' : MosaicEffect} {l : Locals}
    (h : m.start = some (Outcome.suspended l m')) : m'._isRunningDraw = true :=
  drawEffect_suspended_running h

theorem resume_suspended_running {m m' : MosaicEffect} {l l' : Locals}
    (h : m.resume l = some (Outcome.suspended l' m')) :
    m'._isRunningDraw = m._isRunningDraw :=
  loop_suspended_running _ _ _ _ _ _ _ h

theorem resume_cancelled (m : MosaicEffect) (l : Locals) (h : m._isRequestedCancel = true) :
    m.resume l = some (Outcome.returned { m with _isRunningDraw := false }) := by
  unfold MosaicEffect.resume loopFuel
  rw [show (m._canvas.width + 2) * (m._canvas.height + 2) =
    ((m._canvas.width + 2) * (m._canvas.height + 2) - 1) + 1 from by
      have : 1 ≤ (m._canvas.width + 2) * (m._canvas.height + 2) := Nat.mul_pos (by omega) (by omega)
      omega]
  unfold loop
  simp [h, afterLoops]


/-! ## The controller -/

theorem sound_init (m : MosaicEffect) : Sound (Controller.init m) := by
  constructor <;> simp [Controller.init]

theorem settle_sound (c0 : Controller) (id : Nat) (before : MosaicEffect) (out : Outcome)
    (hmicro : c0.micro = []) (hover : c0.overlaps = 0) (hid : id < c0.nextId)
    (hidt : id ∉ c0.timers) (hidc : id ∉ c0.committed)
    (hft : ∀ j, j ∈ c0.timers → j < c0.nextId) (hfc : ∀ j, j ∈ c0.committed → j < c0.nextId)
    (hnd : c0.timers.Nodup) (hct : ∀ j, j ∈ c0.committed → j ∉ c0.timers)
    (hrun : ∀ l m', out = Outcome.suspended l m' → m'._isRunningDraw = true) :
    Sound (Controller.settle c0 id [] before out) := by
  cases out with
  | suspended l m' =>
    have hr := hrun l m' rfl
    constructor <;> simp [Controller.settle, hmicro, hover, hr] <;>
      first
      | assumption
      | (intro j hj hji; exact hidc (hji ▸ hj))
  | returned m' =>
    by_cases hc : m'.surfaceOps.length = before.surfaceOps.length
    · constructor <;> simp [Controller.settle, hmicro, hover, hc] <;> assumption
    · constructor <;> simp [Controller.settle, hmicro, hover, hc] <;>
        first
        | assumption
        | (intro j hj
           rcases hj with hj | hj
           · exact hfc j hj
           · exact hj ▸ hid)
        | (intro j hj
           rcases hj with hj | hj
           · exact hct j hj
           · exact hj ▸ hidt)

theorem frames_single {frames : List (Nat × Locals)} {id : Nat} {l : Locals}
    (hle : frames.length ≤ 1) (hl : frames.lookup id = some l) :
    frames = [(id, l)] ∧ (frames.filter fun e => e.1 ≠ id) = [] := by
  match frames, hle, hl with
  | [e], _, hl =>
    obtain ⟨j, l'⟩ := e
    rw [List.lookup_cons] at hl
    by_cases hj : id = j
    · subst hj
      simp at hl
      subst hl
      simp
    · have : (id == j) = false := by simpa using hj
      rw [this] at hl
      simp at hl

theorem sound_call {c c' : Controller} (hs : Sound c)
    (h : Controller.step true c Turn.call = some c') : Sound c' := by
  have hm : c.micro = [] := by
    by_contra hne
    simp [Controller.step, hne] at h
  by_cases hr : c.mosaic._isRunningDraw = false
  · have hf : c.frames = [] := by
      by_contra hne
      have := hs.running_of_frames hne
      rw [hr] at this
      exact absurd this (by simp)
    simp [Controller.step, hm, hr] at h
    subst h
    constructor <;> simp [hf, hr, hs.overlaps] <;>
      first
      | exact hs.timers_nodup
      | (intro j hj; have := hs.fresh_timers j hj; omega)
      | (intro j hj; have := hs.fresh_committed j hj; omega)
      | (intro hj; have := hs.fresh_timers _ hj; omega)
      | exact hs.committed_timers
  · simp [Controller.step, hm, hr] at h
    subst h
    have hnd : (c.timers ++ [c.nextId]).Nodup := by
      rw [List.nodup_append]
      refine ⟨hs.timers_nodup, by simp, ?_⟩
      intro a ha hb
      simp at hb
      subst hb
      have := hs.fresh_timers _ ha
      omega
    constructor <;> simp [hm, hs.overlaps] <;>
      first
      | exact hnd
      | exact hs.frames_le
      | exact hs.running_of_frames
      | (intro j hj
         rcases hj with hj | hj
         · have := hs.fresh_timers j hj; omega
         · omega)
      | (intro a b hab; have := hs.fresh_frames _ hab; simp at this; omega)
      | (intro j hj; have := hs.fresh_committed j hj; omega)
      | (intro a b hab
         refine ⟨hs.frames_timers _ hab, ?_⟩
         have := hs.fresh_frames _ hab
         simp at this
         omega)
      | (intro j hj
         refine ⟨hs.committed_timers j hj, ?_⟩
         have := hs.fresh_committed j hj
         omega)
      | (intro j hj a b hab; exact hs.committed_frames j hj _ hab)


theorem sound_timer {c c' : Controller} {id : Nat} (hs : Sound c)
    (h : Controller.step true c (Turn.timer id) = some c') : Sound c' := by
  by_cases hg : c.micro = [] ∧ id ∈ c.timers
  · by_cases hr : c.mosaic._isRunningDraw = false
    · have hf : c.frames = [] := by
        by_contra hne
        have := hs.running_of_frames hne
        rw [hr] at this
        exact absurd this (by simp)
      simp [Controller.step, hg, hr] at h
      subst h
      constructor <;> simp [hf, hr, hs.overlaps] <;>
        first
        | exact hs.fresh_timers id hg.2
        | exact hs.fresh_committed
        | exact hs.timers_nodup.erase id
        | (intro j hj; exact hs.fresh_timers j (List.mem_of_mem_erase hj))
        | (intro hj; exact ((hs.timers_nodup.mem_erase_iff).mp hj).1 rfl)
        | (intro j hj hj'; exact hs.committed_timers j hj (List.mem_of_mem_erase hj'))
        | (intro j hj hji; exact hs.committed_timers j hj (hji ▸ hg.2))
    · simp [Controller.step, hg, hr] at h
      subst h
      exact hs
  · simp [Controller.step, hg] at h

theorem sound_micro {c c' : Controller} (hs : Sound c)
    (h : Controller.step true c Turn.micro = some c') : Sound c' := by
  simp only [Controller.step] at h
  split at h
  · simp at h
  · rename_i id rest hmicro
    have hne : c.micro ≠ [] := by rw [hmicro]; simp
    obtain ⟨hf, _⟩ := hs.idle_of_micro hne
    have hrest : rest = [] := by
      have := hs.micro_le
      rw [hmicro] at this
      simp at this
      exact this
    rw [Option.map_eq_some'] at h
    obtain ⟨out, hout, rfl⟩ := h
    rw [hf]
    apply settle_sound
    · exact hrest
    · simp [hf, hs.overlaps]
    · exact hs.fresh_micro id (by rw [hmicro]; simp)
    · exact hs.micro_timers id (by rw [hmicro]; simp)
    · intro hc
      exact hs.committed_micro id hc (by rw [hmicro]; simp)
    · exact hs.fresh_timers
    · exact hs.fresh_committed
    · exact hs.timers_nodup
    · exact hs.committed_timers
    · intro l m' he
      subst he
      exact start_suspended_running hout

theorem sound_frame {c c' : Controller} {id : Nat} (hs : Sound c)
    (h : Controller.step true c (Turn.frame id) = some c') : Sound c' := by
  simp only [Controller.step] at h
  split at h
  · rename_i hmicro
    split at h
    · simp at h
    · rename_i l hl
      obtain ⟨hf, hfil⟩ := frames_single hs.frames_le hl
      rw [Option.map_eq_some'] at h
      obtain ⟨out, hout, rfl⟩ := h
      rw [hfil]
      have hmem : (id, l) ∈ c.frames := by rw [hf]; simp
      apply settle_sound
      · exact hmicro
      · exact hs.overlaps
      · exact hs.fresh_frames _ hmem
      · exact hs.frames_timers _ hmem
      · intro hc
        exact hs.committed_frames id hc _ hmem rfl
      · exact hs.fresh_timers
      · exact hs.fresh_committed
      · exact hs.timers_nodup
      · exact hs.committed_timers
      · intro l' m' he
        subst he
        rw [resume_suspended_running hout]
        exact hs.running_of_frames (by rw [hf]; simp)
  · simp at h

theorem sound_step {c c' : Controller} {t : Turn} (hs : Sound c)
    (h : Controller.step true c t = some c') : Sound c' := by
  cases t with
  | call => exact sound_call hs h
  | micro => exact sound_micro hs h
  | timer id => exact sound_timer hs h
  | frame id => exact sound_frame hs h

theorem sound_run {ts : List Turn} : ∀ {c c' : Controller}, Sound c →
    Controller.run true c ts = some c' → Sound c' := by
  induction ts with
  | nil =>
    intro c c' hs h
    simp [Controller.run] at h
    exact h ▸ hs
  | cons t ts ih =>
    intro c c' hs h
    simp only [Controller.run, Option.bind_eq_some] at h
    obtain ⟨c1, h1, h2⟩ := h
    exact ih (sound_step hs h1) h2


theorem settle_fields (c0 : Controller) (id : Nat) (rest : List (Nat × Locals))
    (before : MosaicEffect) (out : Outcome) :
    (Controller.settle c0 id rest before out).micro = c0.micro ∧
    (Controller.settle c0 id rest before out).timers = c0.timers ∧
    (Controller.settle c0 id rest before out).nextId = c0.nextId ∧
    (Controller.settle c0 id rest before out).mosaic = out.mosaic ∧
    (∀ e, e ∈ (Controller.settle c0 id rest before out).frames → e ∈ rest ∨ e.1 = id) ∧
    (∀ j, j ∈ (Controller.settle c0 id rest before out).committed → j ∈ c0.committed ∨
      (j = id ∧ out.mosaic.surfaceOps.length ≠ before.surfaceOps.length)) := by
  cases out with
  | suspended l m' =>
    refine ⟨rfl, rfl, rfl, rfl, ?_, ?_⟩
    · intro e he
      simp only [Controller.settle, List.mem_append, List.mem_singleton] at he
      rcases he with he | he
      · exact Or.inl he
      · exact Or.inr (by rw [he])
    · intro j hj
      exact Or.inl hj
  | returned m' =>
    refine ⟨rfl, rfl, rfl, rfl, ?_, ?_⟩
    · intro e he
      exact Or.inl he
    · intro j hj
      simp only [Controller.settle] at hj
      split at hj
      · exact Or.inl hj
      · rename_i hne
        simp only [List.mem_append, List.mem_singleton] at hj
        rcases hj with hj | hj
        · exact Or.inl hj
        · exact Or.inr ⟨hj, hne⟩

theorem superseded_step {id : Nat} {c c' : Controller} {t : Turn} (hc : Superseded id c)
    (h : Controller.step true c t = some c') : Superseded id c' := by
  have hs' : Sound c' := sound_step hc.sound h
  cases t with
  | call =>
    have hm : c.micro = [] := by
      by_contra hne
      simp [Controller.step, hne] at h
    have hfresh := hc.fresh
    by_cases hr : c.mosaic._isRunningDraw = false
    · simp [Controller.step, hm, hr] at h
      subst h
      refine ⟨hs', ?_, ?_, hc.not_timer, hc.not_committed, fun _ _ => rfl⟩
      · show id < c.nextId + 1
        omega
      · show id ∉ [c.nextId]
        simp
        omega
    · simp [Controller.step, hm, hr] at h
      subst h
      refine ⟨hs', ?_, by simp, ?_, hc.not_committed, fun _ _ => rfl⟩
      · show id < c.nextId + 1
        omega
      · show id ∉ c.timers ++ [c.nextId]
        simp
        exact ⟨hc.not_timer, by omega⟩
  | timer j =>
    by_cases hg : c.micro = [] ∧ j ∈ c.timers
    · by_cases hr : c.mosaic._isRunningDraw = false
      · simp [Controller.step, hg, hr] at h
        subst h
        refine ⟨hs', hc.fresh, ?_, ?_, hc.not_committed, hc.cancel⟩
        · show id ∉ [j]
          simp
          intro hij
          exact hc.not_timer (hij ▸ hg.2)
        · intro hmem
          exact hc.not_timer (List.mem_of_mem_erase hmem)
      · simp [Controller.step, hg, hr] at h
        subst h
        exact hc
    · simp [Controller.step, hg] at h
  | micro =>
    simp only [Controller.step] at h
    split at h
    · simp at h
    · rename_i j rest hmicro
      have hne : c.micro ≠ [] := by rw [hmicro]; simp
      obtain ⟨hf, _⟩ := hc.sound.idle_of_micro hne
      have hij : id ≠ j := by
        intro hij
        exact hc.not_micro (by rw [hmicro, hij]; simp)
      have hrest : id ∉ rest := by
        intro hmem
        exact hc.not_micro (by rw [hmicro]; simp [hmem])
      rw [Option.map_eq_some'] at h
      obtain ⟨out, _, rfl⟩ := h
      obtain ⟨e1, e2, e3, _, e5, e6⟩ := settle_fields
        { c with micro := rest, started := c.started ++ [j],
                 overlaps := if c.frames = [] then c.overlaps else c.overlaps + 1 }
        j c.frames c.mosaic out
      refine ⟨hs', ?_, ?_, ?_, ?_, ?_⟩
      · rw [e3]
        exact hc.fresh
      · rw [e1]
        exact hrest
      · rw [e2]
        exact hc.not_timer
      · intro hmem
        rcases e6 id hmem with h6 | h6
        · exact hc.not_committed h6
        · exact hij h6.1
      · intro l hl
        rcases e5 _ hl with h5 | h5
        · rw [hf] at h5
          simp at h5
        · exact absurd h5 hij
  | frame j =>
    simp only [Controller.step] at h
    split at h
    · split at h
      · simp at h
      · rename_i l hl
        obtain ⟨hf, hfil⟩ := frames_single hc.sound.frames_le hl
        rw [Option.map_eq_some'] at h
        obtain ⟨out, hout, rfl⟩ := h
        obtain ⟨e1, e2, e3, _, e5, e6⟩ := settle_fields c j
          (c.frames.filter fun e => e.1 ≠ j) c.mosaic out
        by_cases hij : id = j
        · subst hij
          have hcancel := hc.cancel l (by rw [hf]; simp)
          rw [resume_cancelled _ _ hcancel] at hout
          simp only [Option.some.injEq] at hout
          subst hout
          refine ⟨hs', ?_, ?_, ?_, ?_, ?_⟩
          · rw [e3]
            exact hc.fresh
          · rw [e1]
            exact hc.not_micro
          · rw [e2]
            exact hc.not_timer
          · intro hmem
            rcases e6 id hmem with h6 | h6
            · exact hc.not_committed h6
            · exact h6.2 rfl
          · intro l' hl'
            rw [hfil] at hl'
            simp [Controller.settle] at hl'
        · refine ⟨hs', ?_, ?_, ?_, ?_, ?_⟩
          · rw [e3]
            exact hc.fresh
          · rw [e1]
            exact hc.not_micro
          · rw [e2]
            exact hc.not_timer
          · intro hmem
            rcases e6 id hmem with h6 | h6
            · exact hc.not_committed h6
            · exact hij h6.1
          · intro l' hl'
            rcases e5 _ hl' with h5 | h5
            · rw [hfil] at h5
              simp at h5
            · exact absurd h5 hij
    · simp at h

theorem superseded_run {id : Nat} {ts : List Turn} : ∀ {c c' : Controller}, Superseded id c →
    Controller.run true c ts = some c' → Superseded id c' := by
  induction ts with
  | nil =>
    intro c c' hs h
    simp [Controller.run] at h
    exact h ▸ hs
  | cons t ts ih =>
    intro c c' hs h
    simp only [Controller.run, Option.bind_eq_some] at h
    obtain ⟨c1, h1, h2⟩ := h
    exact ih (superseded_step hs h1) h2


/-! ## The running flag at the end of the body -/

theorem deviceLength_eq_floor (n : Nat) (s : ℚ) (hs : 0 ≤ s) :
    deviceLength n s = ⌊(n : ℚ) * s⌋₊ := by
  unfold deviceLength
  have hnum : ((s.num.toNat : ℕ) : ℤ) = s.num := Int.toNat_of_nonneg (Rat.num_nonneg.mpr hs)
  have hq : s = ((s.num.toNat : ℕ) : ℚ) / (s.den : ℚ) := by
    have h1 : ((s.num.toNat : ℕ) : ℚ) = ((s.num : ℤ) : ℚ) := by
      rw [← Int.cast_natCast, hnum]
    rw [h1]
    exact (Rat.num_div_den s).symm
  have hfl : ⌊(n : ℚ) * s⌋₊ = ⌊((n * s.num.toNat : ℕ) : ℚ) / (s.den : ℚ)⌋₊ := by
    congr 1
    rw [Nat.cast_mul, mul_div_assoc, ← hq]
  rw [hfl, Nat.floor_div_eq_div]

theorem afterLoops_idle (m : MosaicEffect) : (afterLoops m)._isRunningDraw = false := by
  unfold afterLoops
  split
  · split <;> rfl
  · rfl

theorem loop_returned_idle (b : Nat) (s : ℚ) :
    ∀ fuel m l m', loop b s fuel m l = some (Outcome.returned m') →
      m'._isRunningDraw = false := by
  intro fuel
  induction fuel with
  | zero => intro m l m' h; simp [loop] at h
  | succ f ih =>
    intro m l m' h
    unfold loop at h
    split at h
    · split at h
      · simp only [Option.some.injEq, Outcome.returned.injEq] at h
        subst h
        rfl
      · dsimp only at h
        split at h
        · simp at h
        · exact ih _ _ _ h
    · split at h
      · exact ih _ _ _ h
      · simp only [Option.some.injEq, Outcome.returned.injEq] at h
        subst h
        exact afterLoops_idle m

theorem resume_returned_idle {m m' : MosaicEffect} {l : Locals}
    (h : m.resume l = some (Outcome.returned m')) : m'._isRunningDraw = false :=
  loop_returned_idle _ _ _ _ _ _ h

theorem drawEffect_returned_idle {m m' : MosaicEffect} {si : ShowImage} {isOverlap : Bool}
    (hsi : m.showImage = some si) (hshow : si.isShowableImage = true)
    (h : m.drawEffect isOverlap = some (Outcome.returned m')) : m'._isRunningDraw = false := by
  unfold MosaicEffect.drawEffect at h
  simp only [hsi, hshow] at h
  rw [if_neg (by simp)] at h
  split at h
  · simp only [Option.some.injEq, Outcome.returned.injEq] at h
    subst h
    rfl
  · split at h
    · simp only [Option.some.injEq, Outcome.returned.injEq] at h
      subst h
      rfl
    · split at h
      · split at h
        · exact loop_returned_idle _ _ _ _ _ _ h
        · simp only [Option.some.injEq, Outcome.returned.injEq] at h
          subst h
          exact afterLoops_idle _
      · simp only [Option.some.injEq, Outcome.returned.injEq] at h
        subst h
        rfl

theorem stuck_step {c c' : Controller} {t : Turn}
    (hrun : c.mosaic._isRunningDraw = true) (hf : c.frames = []) (hm : c.micro = [])
    (h : Controller.step true c t = some c') :
    c'.mosaic._isRunningDraw = true ∧ c'.frames = [] ∧ c'.micro = [] ∧
      c'.started = c.started := by
  cases t with
  | call =>
    simp [Controller.step, hm, hrun] at h
    subst h
    exact ⟨rfl, hf, rfl, rfl⟩
  | micro => simp [Controller.step, hm] at h
  | timer id =>
    simp only [Controller.step, hrun] at h
    split at h
    · simp at h
      subst h
      exact ⟨hrun, hf, hm, rfl⟩
    · simp at h
  | frame id => simp [Controller.step, hm, hf] at h

theorem stuck_forever {ts : List Turn} : ∀ {c c' : Controller},
    c.mosaic._isRunningDraw = true → c.frames = [] → c.micro = [] →
    Controller.run true c ts = some c' →
    c'.mosaic._isRunningDraw = true ∧ c'.started = c.started := by
  induction ts with
  | nil =>
    intro c c' hrun _ _ h
    simp [Controller.run] at h
    subst h
    exact ⟨hrun, rfl⟩
  | cons t ts ih =>
    intro c c' hrun hf hm h
    simp only [Controller.run, Option.bind_eq_some] at h
    obtain ⟨c1, h1, h2⟩ := h
    obtain ⟨a1, a2, a3, a4⟩ := stuck_step hrun hf hm h1
    obtain ⟨b1, b2⟩ := ih a1 a2 a3 h2
    exact ⟨b1, b2.trans a4⟩

/-! ## Mutual exclusion, supersession and the stuck flag -/

/-- C4 as stated fails: two calls of `drawEffectAsync` in one task both see
`_isRunningDraw` unset before either continuation has run; then the first pass starts and is
suspended at its first `await`, and the second pass starts while the first has not ended. -/
theorem overlapping_passes :
    ((Controller.run false (Controller.init (sampleMosaic 1 1 (some 71)))
        [Turn.call, Turn.call, Turn.micro, Turn.micro]).map fun c =>
      (c.frames.map Prod.fst, c.started, c.ended, c.overlaps)) =
      some ([0, 1], [0, 1], [], 1) := by
  decide

/-- C4, amended: when every call of `drawEffectAsync` is a task of its own, then in every
reachable state at most one pass is between its start and its end, no pass has started while
another was suspended, a suspended pass keeps `_isRunningDraw` set, and no request is about
to start while a pass is suspended. -/
theorem one_pass_at_a_time (m : MosaicEffect) (ts : List Turn) (c : Controller)
    (h : Controller.run true (Controller.init m) ts = some c) :
    c.frames.length ≤ 1 ∧ c.overlaps = 0 ∧
      (c.frames ≠ [] → c.mosaic._isRunningDraw = true ∧ c.micro = []) := by
  have hs : Sound c := sound_run (sound_init m) h
  refine ⟨hs.frames_le, hs.overlaps, fun hf => ⟨hs.running_of_frames hf, ?_⟩⟩
  by_contra hm
  exact hf (hs.idle_of_micro hm).1

/-- Witness for C4, amended: a pass is suspended while two later requests wait. -/
theorem one_pass_at_a_time_witness :
    (sampleAfter [Turn.call, Turn.micro, Turn.call, Turn.call, Turn.timer 1]).frames.length ≤ 1 ∧
    (sampleAfter [Turn.call, Turn.micro, Turn.call, Turn.call, Turn.timer 1]).overlaps = 0 ∧
    ((sampleAfter [Turn.call, Turn.micro, Turn.call, Turn.call, Turn.timer 1]).frames ≠ [] →
      (sampleAfter [Turn.call, Turn.micro, Turn.call, Turn.call,
        Turn.timer 1]).mosaic._isRunningDraw = true ∧
      (sampleAfter [Turn.call, Turn.micro, Turn.call, Turn.call, Turn.timer 1]).micro = []) :=
  one_pass_at_a_time (sampleMosaic 1 1 (some 71))
    [Turn.call, Turn.micro, Turn.call, Turn.call, Turn.timer 1] _ rfl

/-- C5 fails on the code: when the image is not displayable, `drawEffectAsync` sets
`_isRunningDraw` and `drawEffect` returns at its first line without resetting it.  After
the body of request 0 has ended the flag is still set, and the later request 1 stays at its
poll however often its timer fires. -/
theorem undisplayable_leaves_running :
    ((Controller.run true (Controller.init sampleUnloaded)
        [Turn.call, Turn.micro, Turn.call, Turn.timer 1, Turn.timer 1, Turn.timer 1]).map fun c =>
      (c.mosaic._isRunningDraw, c.frames.length, c.started, c.ended, c.timers)) =
      some (true, 0, [0], [0], [1]) := by
  decide

/-- C6 as stated fails.  Request 0 is suspended when the requests 1 and 2 arrive.  Once
pass 0 has stopped, the start of request 1 clears the cancel flag that request 2 had set, so
pass 1 is not cancelled and draws while request 2 still waits; and when the timer of
request 2 fires first, the older request 1 draws after the newer request 2 has run. -/
theorem waiting_request_not_superseded :
    ((Controller.run true (Controller.init (sampleMosaic 1 1 (some 71)))
        [Turn.call, Turn.micro, Turn.call, Turn.call, Turn.frame 0, Turn.timer 1, Turn.micro,
          Turn.frame 1]).map fun c => (c.committed, c.timers, c.started)) =
      some ([1], [2], [0, 1])
    ∧ ((Controller.run true (Controller.init (sampleMosaic 1 1 (some 71)))
        [Turn.call, Turn.micro, Turn.call, Turn.call, Turn.frame 0, Turn.timer 2, Turn.micro,
          Turn.frame 2, Turn.timer 1, Turn.micro, Turn.frame 1]).map fun c =>
        (c.committed, c.started)) =
      some ([2, 1], [0, 2, 1]) := by
  decide

/-- C6, amended: when every call of `drawEffectAsync` is a task of its own, a request that
is issued while a pass is suspended at its `await` supersedes that pass: whatever happens
afterwards, the pass never draws on the visible canvas, and the cancel flag stays set for as
long as the pass is suspended. -/
theorem newer_request_cancels_running_pass (m : MosaicEffect) (ts ts' : List Turn)
    (c c' : Controller) (id : Nat) (l : Locals)
    (h : Controller.run true (Controller.init m) ts = some c) (hf : (id, l) ∈ c.frames)
    (h' : Controller.run true c (Turn.call :: ts') = some c') :
    id ∉ c'.committed ∧ ∀ l', (id, l') ∈ c'.frames → c'.mosaic._isRequestedCancel = true := by
  have hs : Sound c := sound_run (sound_init m) h
  have hne : c.frames ≠ [] := by
    intro he
    rw [he] at hf
    simp at hf
  have hsup : Superseded id
      { c with mosaic := { c.mosaic with _isRequestedCancel := true } } := by
    refine ⟨?_, hs.fresh_frames _ hf, ?_, hs.frames_timers _ hf, ?_, fun _ _ => rfl⟩
    · exact ⟨hs.micro_le, hs.frames_le, hs.idle_of_micro, hs.running_of_frames, hs.overlaps,
        hs.fresh_micro, hs.fresh_timers, hs.fresh_frames, hs.fresh_committed, hs.timers_nodup,
        hs.micro_timers, hs.frames_timers, hs.committed_micro, hs.committed_timers,
        hs.committed_frames⟩
    · intro hm
      have : c.micro ≠ [] := by
        intro he
        rw [he] at hm
        simp at hm
      exact hne (hs.idle_of_micro this).1
    · intro hc
      exact hs.committed_frames id hc _ hf rfl
  have hcall : Controller.run true
      { c with mosaic := { c.mosaic with _isRequestedCancel := true } } (Turn.call :: ts') =
      some c' := by
    rw [← h']
    simp only [Controller.run, Controller.step]
  have hfin := superseded_run hsup hcall
  exact ⟨hfin.not_committed, hfin.cancel⟩

/-- Witness for C6, amended: pass 0 is suspended when request 1 arrives; pass 0 then stops
without drawing, and request 1 runs and draws. -/
theorem newer_request_cancels_running_pass_witness :
    0 ∉ (sampleAfter [Turn.call, Turn.micro, Turn.call, Turn.frame 0, Turn.timer 1, Turn.micro,
          Turn.frame 1]).committed ∧
      (sampleAfter [Turn.call, Turn.micro, Turn.call, Turn.frame 0, Turn.timer 1, Turn.micro,
          Turn.frame 1]).committed = [1] :=
  ⟨(newer_request_cancels_running_pass (sampleMosaic 1 1 (some 71)) [Turn.call, Turn.micro]
      [Turn.frame 0, Turn.timer 1, Turn.micro, Turn.frame 1]
      (sampleAfter [Turn.call, Turn.micro]) _ 0 ⟨0, 0, 41, 5041⟩ rfl (by decide) rfl).1,
    by decide⟩


/-! ## A pass under cancel requests -/

theorem runFrom_returned (cs : List Bool) (m : MosaicEffect) :
    runFrom cs (Outcome.returned m) = some (Outcome.returned m) := by
  cases cs <;> rfl

theorem runFrom_append (cs cs' : List Bool) :
    ∀ out, runFrom (cs ++ cs') out = (runFrom cs out).bind (runFrom cs') := by
  induction cs with
  | nil =>
    intro out
    cases out with
    | suspended l m => rfl
    | returned m => rw [runFrom_returned, runFrom_returned, Option.some_bind, runFrom_returned]
  | cons c cs ih =>
    intro out
    cases out with
    | suspended l m =>
      simp only [List.cons_append, runFrom]
      cases MosaicEffect.resume { m with _isRequestedCancel := m._isRequestedCancel || c } l with
      | none => rfl
      | some out' => exact ih out'
    | returned m => rw [runFrom_returned, runFrom_returned, Option.some_bind, runFrom_returned]

theorem loop_outcomes {src : Canvas} {b : Nat} {s : ℚ} {m0 : MosaicEffect}
    (hb : 0 < b) (hs : s ≠ 0) (ht : src.transform = s) (hW : 0 < src.width)
    (hH : 0 < src.height) (hstep : m0.step = b) (hscale : m0.scale = s) :
    ∀ k i j m l fuel cs, LoopInv src b m0 m i j → l.x = i * b → l.y = j * b →
      i ≤ blockCount b src.width → j < blockCount b src.height →
      (blockCount b src.height - j) * (blockCount b src.width + 1) - i ≤ k →
      k ≤ (src.width + 2) * (src.height + 2) → k ≤ fuel →
      ∃ out, (loop b s fuel m l).bind (runFrom cs) = some out ∧ PassState src b m0 out := by
  intro k
  induction k with
  | zero =>
    intro i j m l fuel cs _ _ _ hi hj hk _ _
    exfalso
    have h1 : 1 * (blockCount b src.width + 1) ≤
        (blockCount b src.height - j) * (blockCount b src.width + 1) :=
      Nat.mul_le_mul_right _ (by omega)
    omega
  | succ k ih =>
    intro i j m l fuel cs hinv hx hy hi hj hk hkb hfuel
    obtain ⟨f, rfl⟩ : ∃ f, fuel = f + 1 := ⟨fuel - 1, by omega⟩
    have h1 : 1 * (blockCount b src.width + 1) ≤
        (blockCount b src.height - j) * (blockCount b src.width + 1) :=
      Nat.mul_le_mul_right _ (by omega)
    have hjH : j * b < src.height := (mul_lt_iff_lt_blockCount hb _ _).mpr hj
    unfold loop
    by_cases hxi : i < blockCount b src.width
    · have hiW : i * b < src.width := (mul_lt_iff_lt_blockCount hb _ _).mpr hxi
      obtain ⟨m1, hpb, hinv1, _, _⟩ := processBlock_spec hb hs ht hinv hiW hjH
      rw [if_pos ⟨by rw [hx, hinv.width]; exact hiW, hinv.cancel⟩, hx, hy, hpb]
      simp only []
      have hmul : (i + 1) * b = i * b + b := by rw [Nat.add_mul, Nat.one_mul]
      by_cases hpc : l.pixelCount + l.blockUnitSize > piexelCountThreshold
      · rw [if_pos hpc, Option.some_bind]
        cases cs with
        | nil => exact ⟨_, rfl, PassState.waiting _ _ (i + 1) j (hinv1.withYields _)⟩
        | cons c cs =>
          cases c with
          | false =>
            rw [runFrom, cancel_or_false _ (hinv1.withYields _).cancel]
            unfold MosaicEffect.resume
            rw [MosaicEffect.step_congr (hinv1.withYields _).blockSize,
              MosaicEffect.scale_congr (hinv1.withYields _).showImage, hstep, hscale]
            refine ih (i + 1) j _ _ _ cs (hinv1.withYields _) ?_ rfl (by omega) hj (by omega)
              (by omega) ?_
            · show i * b + b = _
              rw [hmul]
            · show k ≤ loopFuel _
              unfold loopFuel
              show k ≤ (m1._canvas.width + 2) * (m1._canvas.height + 2)
              rw [hinv1.width, hinv1.height]
              omega
          | true =>
            rw [runFrom, resume_cancelled _ _ (by simp), Option.some_bind, runFrom_returned]
            exact ⟨_, rfl, PassState.cancelled _ hinv1.showImage (by simp) rfl hinv1.alerts
              hinv1.warnings⟩
      · rw [if_neg hpc]
        refine ih (i + 1) j m1 _ f cs hinv1 ?_ rfl (by omega) hj (by omega) (by omega)
          (by omega)
        show i * b + b = _
        rw [hmul]
    · have hi' : i = blockCount b src.width := by omega
      subst hi'
      have hnlt : ¬ (l.x < m._canvas.width ∧ m._isRequestedCancel = false) := by
        rw [hx, hinv.width, mul_lt_iff_lt_blockCount hb]
        omega
      rw [if_neg hnlt, hy, hinv.height, hinv.cancel]
      by_cases hrow : j * b + b < src.height
      · rw [if_pos ⟨hrow, rfl⟩]
        have hj1 : j + 1 < blockCount b src.height := by
          rw [← mul_lt_iff_lt_blockCount hb, Nat.add_mul, Nat.one_mul]
          exact hrow
        have hsplit : (blockCount b src.height - j) * (blockCount b src.width + 1) =
            (blockCount b src.height - (j + 1)) * (blockCount b src.width + 1) +
              (blockCount b src.width + 1) := by
          rw [show blockCount b src.height - j = (blockCount b src.height - (j + 1)) + 1 by omega,
            Nat.add_mul, Nat.one_mul]
        have hnocol : ¬ (blockCount b src.width * b < src.width) := by
          rw [mul_lt_iff_lt_blockCount hb]
          omega
        have hinv' : LoopInv src b m0 m 0 (j + 1) := by
          refine ⟨hinv.width, hinv.height, hinv.transform, hinv.clean, ?_, ?_, hinv.showImage,
            hinv.blockSize, hinv.cancel, hinv.warnings, hinv.alerts⟩
          · intro p q hp hq
            rw [hinv.pix p q hp hq, Nat.add_mul, Nat.one_mul]
            by_cases hd : q < j * b ∨ (q < j * b + b ∧ p < blockCount b src.width * b)
            · rw [if_pos hd, if_pos (by omega)]
            · rw [if_neg hd, if_neg (by omega)]
          · rw [hinv.visits, List.range_succ, List.flatMap_append, List.flatMap_singleton]
            simp [rowVisits]
        refine ih 0 (j + 1) m _ f cs hinv' ?_ ?_ (by omega) hj1 (by omega) (by omega)
          (by omega)
        · show 0 = 0 * b
          rw [Nat.zero_mul]
        · show j * b + b = _
          rw [Nat.add_mul, Nat.one_mul]
      · rw [if_neg (fun h => hrow h.1), Option.some_bind, runFrom_returned]
        exact ⟨_, rfl, PassState.completed _ (afterLoops_completed hb hW hH hinv hj hrow)⟩

theorem pass_outcomes (m : MosaicEffect) (si : ShowImage) (b : Int)
    (hsi : m.showImage = some si) (hshow : si.isShowableImage = true)
    (hclean : si.image.originClean = true) (hs : 0 < si.scale)
    (hb : m.blockSize = some b) (h1 : 1 < b)
    (hW : 0 < (prepareCanvas si).width) (hH : 0 < (prepareCanvas si).height)
    (cs : List Bool) :
    ∃ out, runPass cs m = some out ∧ PassState (prepareCanvas si) b.toNat m out := by
  obtain ⟨showImage, blockSize, r, c, cv, vs, ys, ws, als⟩ := m
  simp only at hsi hb
  subst hsi hb
  have hbn : 0 < b.toNat := by omega
  have hs0 : si.scale ≠ 0 := ne_of_gt hs
  have ht : (prepareCanvas si).transform = si.scale := by
    show (1 : ℚ) * si.scale = si.scale
    rw [one_mul]
  have hinv := prepareCanvas_loopInv ⟨some si, some b, r, c, cv, vs, ys, ws, als⟩ si b.toNat
    hclean
  have hcw := blockCount_le hbn (prepareCanvas si).width
  have hch := blockCount_le hbn (prepareCanvas si).height
  have hchpos : 0 < blockCount b.toNat (prepareCanvas si).height := by
    rw [← mul_lt_iff_lt_blockCount hbn, Nat.zero_mul]
    exact hH
  have hbound : blockCount b.toNat (prepareCanvas si).height *
      (blockCount b.toNat (prepareCanvas si).width + 1) ≤
      ((prepareCanvas si).width + 2) * ((prepareCanvas si).height + 2) := by
    calc _ ≤ ((prepareCanvas si).height + 2) * ((prepareCanvas si).width + 2) :=
          Nat.mul_le_mul (by omega) (by omega)
      _ = _ := Nat.mul_comm _ _
  have hloop := @loop_outcomes (prepareCanvas si) b.toNat si.scale
    ⟨some si, some b, r, c, cv, vs, ys, ws, als⟩ hbn hs0 ht hW hH rfl rfl
    (blockCount b.toNat (prepareCanvas si).height *
      (blockCount b.toNat (prepareCanvas si).width + 1)) 0 0 _
    ⟨0, 0, 0, (b * b).toNat⟩ (loopFuel (prepareCanvas si)) cs hinv
    (by rw [Nat.zero_mul]) (by rw [Nat.zero_mul]) (Nat.zero_le _) hchpos (by simp) hbound
    (by unfold loopFuel; exact hbound)
  unfold runPass MosaicEffect.start MosaicEffect.drawEffect
  simp only [hshow]
  rw [if_neg (by simp), if_neg (by omega), if_pos h1, if_pos ⟨hH, trivial⟩]
  exact hloop


/-- C7: for a block size above 1 (on a displayable, readable image of at least one device
pixel), whatever cancel requests arrive during the `await`s, the run of a pass ends or is
suspended with the visible canvas untouched, or else it has ended with the cancel flag
unset, after all blocks of the grid, with exactly one `putImageData` of the whole work
buffer added to the visible canvas.  And if the cancel flag is set while the pass is
suspended at an `await`, the visible canvas still is as before the pass, and the pass then
ends at once: nothing but `_isRunningDraw` changes, so no further block is processed, no
copy is made and no error is raised. -/
theorem pass_writes_once (m : MosaicEffect) (si : ShowImage) (b : Int) (W H : Nat)
    (hsi : m.showImage = some si) (hshow : si.isShowableImage = true)
    (hclean : si.image.originClean = true) (hs : 0 < si.scale)
    (hb : m.blockSize = some b) (h1 : 1 < b)
    (hW : deviceLength si.image.width si.scale = W) (hH : deviceLength si.image.height si.scale = H)
    (hW1 : 1 ≤ W) (hH1 : 1 ≤ H) :
    (∀ cs, ∃ out, runPass cs m = some out ∧
      (out.mosaic.showImage = m.showImage ∨
        (out.isReturned = true ∧ out.mosaic._isRequestedCancel = false ∧
          out.mosaic.blocks = m.blocks ++ gridBlocks b.toNat W H ∧
          out.mosaic.showImage = some { si with
            canvas := si.canvas.putImageData (out.mosaic._canvas.read 0 0 W H) 0 0 })))
    ∧ (∀ cs l m1, runPass cs m = some (Outcome.suspended l m1) →
        m1.showImage = m.showImage ∧
        runPass (cs ++ [true]) m = some (Outcome.returned
          { m1 with _isRequestedCancel := true, _isRunningDraw := false })) := by
  have hsw : (prepareCanvas si).width = W := hW
  have hsh : (prepareCanvas si).height = H := hH
  have hout := pass_outcomes m si b hsi hshow hclean hs hb h1 (by rw [hsw]; omega)
    (by rw [hsh]; omega)
  constructor
  · intro cs
    obtain ⟨out, hrun, hstate⟩ := hout cs
    refine ⟨out, hrun, ?_⟩
    cases hstate with
    | waiting l m' i j hinv => exact Or.inl hinv.showImage
    | cancelled m' hshow' _ _ _ _ => exact Or.inl hshow'
    | completed m' hdone =>
      right
      refine ⟨rfl, hdone.cancel, ?_, ?_⟩
      · show m'.blocks = _
        unfold MosaicEffect.blocks
        rw [hdone.visits, List.map_append, gridVisits_blocks, hsw, hsh]
      · show m'.showImage = _
        rw [hdone.showImage, hsi, hsw, hsh]
        rfl
  · intro cs l m1 hrun
    obtain ⟨out, hrun', hstate⟩ := hout cs
    rw [hrun] at hrun'
    simp only [Option.some.injEq] at hrun'
    subst hrun'
    constructor
    · cases hstate with
      | waiting l m' i j hinv => exact hinv.showImage
    · unfold runPass at hrun ⊢
      cases hstart : m.start with
      | none =>
        rw [hstart] at hrun
        simp at hrun
      | some out0 =>
        rw [hstart, Option.some_bind] at hrun
        rw [Option.some_bind, runFrom_append, hrun, Option.some_bind, runFrom,
          resume_cancelled _ _ (by simp), Option.some_bind, runFrom_returned]
        simp

/-- Witness for C7: on a 1×1 image with block size 71 the pass is suspended after its only
block; with the cancel flag set there it ends without a copy to the visible canvas. -/
theorem pass_writes_once_witness :
    ((runPass [true] (sampleMosaic 1 1 (some 71))).map fun o =>
      (o.isReturned, o.mosaic.surfaceOps.length, o.mosaic.blocks, o.mosaic.alerts,
        o.mosaic._isRunningDraw)) = some (true, 0, [⟨0, 0, 1, 1⟩], 0, false) := by
  have h := (pass_writes_once (sampleMosaic 1 1 (some 71))
    ⟨Surface.resize 1 1, sampleImage 1 1, true, 1⟩ 71 1 1 rfl rfl rfl (by norm_num) rfl
    (by decide) (by decide) (by decide) (by decide) (by decide)).2 []
    ⟨0, 0, 41, 5041⟩ ((runPass [] (sampleMosaic 1 1 (some 71))).getD
      (Outcome.returned (sampleMosaic 1 1 (some 71)))).mosaic rfl
  rw [show ([] : List Bool) ++ [true] = [true] from rfl] at h
  rw [h.2]
  decide


/-! ## The synchronous effects -/

theorem drawFiltered_rejected (param : Num) (filter : ℚ → Filter) (si : ShowImage)
    (isOverlap : Bool) (h : param.rejected) :
    drawFiltered param filter (some si) isOverlap = some si := by
  simp only [drawFiltered]
  by_cases hsh : si.isShowableImage = false
  · rw [if_pos hsh]
  · rw [if_neg hsh]
    rcases h with h | ⟨v, h, hv⟩
    · rw [h]
    · rw [h]
      simp only [hv, if_true]

/-- C8: on a displayable Surface, each of the ten effects whose primary parameter is `NaN`
or negative where that is not allowed (mosaic: block size `NaN` or `≤ 0`; drop shadow: blur
radius `NaN` or negative, or an offset `NaN`) returns with the `ShowImage` exactly as it
was: size, transform, filter and drawing calls of the visible canvas are untouched.  The
mosaic only counts a warning and clears its running flag. -/
theorem invalid_parameter_no_effect (si : ShowImage) (isOverlap : Bool)
    (hshow : si.isShowableImage = true) :
    (∀ m : MosaicEffect, m.showImage = some si →
      (m.blockSize = none ∨ ∃ b, m.blockSize = some b ∧ b ≤ 0) →
      m.drawEffect isOverlap = some (Outcome.returned
        { m with warnings := m.warnings + 1, _isRunningDraw := false }))
    ∧ (∀ e : BlurEffect, e.size.rejected → e.drawEffect (some si) isOverlap = some si)
    ∧ (∀ e : BrightnessEffect, e.brightness.rejected →
        e.drawEffect (some si) isOverlap = some si)
    ∧ (∀ e : ContrastEffect, e.contrastRate.rejected →
        e.drawEffect (some si) isOverlap = some si)
    ∧ (∀ e : DropShadowEffect, (e.blurRadius.rejected ∨ e.offsetX = none ∨ e.offsetY = none) →
        e.drawEffect (some si) isOverlap = some si)
    ∧ (∀ e : GrayscaleEffect, e.grayscaleRate.rejected →
        e.drawEffect (some si) isOverlap = some si)
    ∧ (∀ e : HueRotateEffect, e.degreeAngle.rejected →
        e.drawEffect (some si) isOverlap = some si)
    ∧ (∀ e : InvertEffect, e.invertRate.rejected → e.drawEffect (some si) isOverlap = some si)
    ∧ (∀ e : OpacityEffect, e.opacityRate.rejected →
        e.drawEffect (some si) isOverlap = some si)
    ∧ (∀ e : SaturateEffect, e.saturateRate.rejected →
        e.drawEffect (some si) isOverlap = some si) := by
  refine ⟨?_, ?_, fun e h => drawFiltered_rejected _ _ _ _ h,
    fun e h => drawFiltered_rejected _ _ _ _ h, ?_, fun e h => drawFiltered_rejected _ _ _ _ h,
    fun e h => drawFiltered_rejected _ _ _ _ h, fun e h => drawFiltered_rejected _ _ _ _ h,
    fun e h => drawFiltered_rejected _ _ _ _ h, fun e h => drawFiltered_rejected _ _ _ _ h⟩
  · intro m hsi hb
    unfold MosaicEffect.drawEffect
    rcases hb with hb | ⟨b, hb, hle⟩
    · simp only [hsi, hshow, hb]
      rfl
    · simp only [hsi, hshow, hb, hle, if_true]
      rfl
  · intro e h
    unfold BlurEffect.drawEffect
    rcases h with h | ⟨v, h, hv⟩
    · simp only [h, hshow]
      rfl
    · simp only [h, hshow, hv, if_true]
      rfl
  · intro e h
    simp only [DropShadowEffect.drawEffect, hshow]
    rw [if_neg (by simp)]
    rcases h with (h | ⟨v, h, hv⟩) | h | h
    · rw [h]
      split <;> rfl
    · rw [h]
      simp only [hv, if_true]
      split <;> rfl
    · rw [h]
    · rw [h]
      split
      · rename_i heq
        simp at heq
      · rfl

/-- Witness for C8: the blur effect with size `NaN`, the brightness effect with a negative
brightness and the drop shadow with an offset `NaN` leave the sample Surface as it was. -/
theorem invalid_parameter_no_effect_witness :
    BlurEffect.drawEffect ⟨none, true⟩ (some sampleShow) false = some sampleShow
    ∧ BrightnessEffect.drawEffect ⟨some (-1)⟩ (some sampleShow) false = some sampleShow
    ∧ DropShadowEffect.drawEffect ⟨none, some 3, some 2, "black"⟩ (some sampleShow) false =
        some sampleShow :=
  ⟨(invalid_parameter_no_effect sampleShow false rfl).2.1 ⟨none, true⟩ (Or.inl rfl),
    (invalid_parameter_no_effect sampleShow false rfl).2.2.1 ⟨some (-1)⟩
      (Or.inr ⟨-1, rfl, by norm_num⟩),
    (invalid_parameter_no_effect sampleShow false rfl).2.2.2.2.1 ⟨none, some 3, some 2, "black"⟩
      (Or.inr (Or.inl rfl))⟩


theorem ite_clearRect_canvas (c : Prop) [Decidable c] (x : ShowImage) :
    (if c then x.clearRect else x).canvas.width = x.canvas.width ∧
    (if c then x.clearRect else x).canvas.height = x.canvas.height ∧
    (if c then x.clearRect else x).canvas.transform = x.canvas.transform := by
  split <;> exact ⟨rfl, rfl, rfl⟩

theorem drawImage_last (sf : Surface) (f : Filter) (dx dy : ℚ) :
    ((sf.setFilter f).drawImage dx dy).ops.getLast? =
      some (DrawOp.drawImage sf.transform f dx dy) := by
  simp [Surface.drawImage, Surface.setFilter]

theorem blur_result (e : BlurEffect) (si : ShowImage) (isOverlap : Bool) (r : ℚ)
    (hshow : si.isShowableImage = true) (hsize : e.size = some r) (hr : 0 ≤ r) :
    ∃ si', e.drawEffect (some si) isOverlap = some si' ∧
      si'.canvas.width = ((si.image.width : ℚ) +
        r * (5 / 2) / si.scale * (if e.isScaling = true then 1 else 0) * 2) * si.scale ∧
      si'.canvas.height = ((si.image.height : ℚ) +
        r * (5 / 2) / si.scale * (if e.isScaling = true then 1 else 0) * 2) * si.scale ∧
      si'.canvas.ops.getLast? = some (DrawOp.drawImage (1 * si.scale) (Filter.blur r)
        (r * (5 / 2) / si.scale * (if e.isScaling = true then 1 else 0))
        (r * (5 / 2) / si.scale * (if e.isScaling = true then 1 else 0))) := by
  refine ⟨_, by simp only [BlurEffect.drawEffect, hshow, hsize, if_neg (not_lt.mpr hr)]; rfl,
    ?_, ?_, ?_⟩
  · exact (ite_clearRect_canvas _ _).1
  · exact (ite_clearRect_canvas _ _).2.1
  · dsimp only
    rw [drawImage_last, (ite_clearRect_canvas _ _).2.2]
    rfl

/-- C9: for the blur effect with a valid size `r ≥ 0` on a displayable image of `W × H` at a
scale above zero, with the spread `s = r * 2.5 / scale` when the scaling flag is set and
`s = 0` otherwise, the visible canvas is resized to `((W + 2s) * scale, (H + 2s) * scale)`
and the image is drawn last, with the filter `blur(r px)`, at the offset `(s, s)`.  With the
flag set the size is `(W * scale + 5r, H * scale + 5r)`; with the flag clear it is
`(W * scale, H * scale)` and the image is drawn at the origin. -/
theorem blur_geometry (e : BlurEffect) (si : ShowImage) (isOverlap : Bool) (r : ℚ)
    (hshow : si.isShowableImage = true) (hsize : e.size = some r) (hr : 0 ≤ r)
    (hscale : 0 < si.scale) :
    ∃ si', e.drawEffect (some si) isOverlap = some si' ∧
      si'.canvas.width = (si.image.width + 2 * blurSpread r si.scale e.isScaling) * si.scale ∧
      si'.canvas.height = (si.image.height + 2 * blurSpread r si.scale e.isScaling) * si.scale ∧
      si'.canvas.ops.getLast? = some (DrawOp.drawImage si.scale (Filter.blur r)
        (blurSpread r si.scale e.isScaling) (blurSpread r si.scale e.isScaling)) ∧
      (e.isScaling = true →
        blurSpread r si.scale e.isScaling = r * (5 / 2) / si.scale ∧
        si'.canvas.width = si.image.width * si.scale + 5 * r ∧
        si'.canvas.height = si.image.height * si.scale + 5 * r) ∧
      (e.isScaling = false →
        blurSpread r si.scale e.isScaling = 0 ∧
        si'.canvas.width = si.image.width * si.scale ∧
        si'.canvas.height = si.image.height * si.scale ∧
        si'.canvas.ops.getLast? = some (DrawOp.drawImage si.scale (Filter.blur r) 0 0)) := by
  have hs0 : si.scale ≠ 0 := ne_of_gt hscale
  have hspread : r * (5 / 2) / si.scale * (if e.isScaling = true then 1 else 0) =
      blurSpread r si.scale e.isScaling := by
    unfold blurSpread
    split <;> simp
  obtain ⟨si', hdraw, hw, hh, hops⟩ := blur_result e si isOverlap r hshow hsize hr
  rw [hspread] at hw hh hops
  rw [one_mul] at hops
  refine ⟨si', hdraw, ?_, ?_, hops, ?_, ?_⟩
  · rw [hw]
    ring
  · rw [hh]
    ring
  · intro hflag
    have hsp : blurSpread r si.scale e.isScaling = r * (5 / 2) / si.scale := by
      unfold blurSpread
      rw [if_pos hflag]
    refine ⟨hsp, ?_, ?_⟩
    · rw [hw, hsp]
      field_simp
      ring
    · rw [hh, hsp]
      field_simp
      ring
  · intro hflag
    have hsp : blurSpread r si.scale e.isScaling = 0 := by
      unfold blurSpread
      rw [if_neg (by simp [hflag])]
    refine ⟨hsp, ?_, ?_, ?_⟩
    · rw [hw, hsp]
      ring
    · rw [hh, hsp]
      ring
    · rw [hops, hsp]

/-- Witness for C9: size 4 with the scaling flag on the sample 4×3 image at scale 2 gives a
visible canvas of `(4 * 2 + 20) × (3 * 2 + 20)`. -/
theorem blur_geometry_witness :
    ∃ si', BlurEffect.drawEffect ⟨some 4, true⟩ (some sampleShow) false = some si' ∧
      si'.canvas.width = 28 ∧ si'.canvas.height = 26 := by
  obtain ⟨si', hdraw, _, _, _, hflag, _⟩ :=
    blur_geometry ⟨some 4, true⟩ sampleShow false 4 rfl rfl (by norm_num)
      (by show (0 : ℚ) < 2; norm_num)
  obtain ⟨_, hw, hh⟩ := hflag rfl
  refine ⟨si', hdraw, ?_, ?_⟩
  · rw [hw]
    show ((4 : Nat) : ℚ) * 2 + 5 * 4 = 28
    norm_num
  · rw [hh]
    show ((3 : Nat) : ℚ) * 2 + 5 * 4 = 26
    norm_num

theorem grow_eq_max (base off spread : ℚ) :
    (if |off| > spread then base + (|off| - spread) else base) =
      base + max (|off| - spread) 0 := by
  split
  · rw [max_eq_left (by linarith)]
  · rw [max_eq_right (by linarith), add_zero]

theorem shadow_result (e : DropShadowEffect) (si : ShowImage) (isOverlap : Bool)
    (ox oy r : ℚ) (hshow : si.isShowableImage = true) (hx : e.offsetX = some ox)
    (hy : e.offsetY = some oy) (hr : e.blurRadius = some r) (h0 : 0 ≤ r) :
    ∃ si', e.drawEffect (some si) isOverlap = some si' ∧
      si'.canvas.width =
        (if |ox| > r * (5 / 2) / si.scale
          then (si.image.width : ℚ) + r * (5 / 2) / si.scale * 2 + (|ox| - r * (5 / 2) / si.scale)
          else (si.image.width : ℚ) + r * (5 / 2) / si.scale * 2) * si.scale ∧
      si'.canvas.height =
        (if |oy| > r * (5 / 2) / si.scale
          then (si.image.height : ℚ) + r * (5 / 2) / si.scale * 2 + (|oy| - r * (5 / 2) / si.scale)
          else (si.image.height : ℚ) + r * (5 / 2) / si.scale * 2) * si.scale ∧
      si'.canvas.ops.getLast? = some (DrawOp.drawImage (1 * si.scale)
        (Filter.dropShadow (ox * si.scale) (oy * si.scale) r e.color)
        (max (r * (5 / 2) / si.scale - ox) 0) (max (r * (5 / 2) / si.scale - oy) 0)) := by
  refine ⟨_, by simp only [DropShadowEffect.drawEffect, hshow, hx, hy, hr,
    if_neg (not_lt.mpr h0)]; rfl, rfl, rfl, ?_⟩
  dsimp only
  rw [drawImage_last]
  rfl

/-- C10: for the drop shadow with a valid radius `≥ 0`, offsets of either sign and a scale
above zero on a displayable image of `W × H`, with `s = radius * 2.5 / scale`, the visible
canvas is resized to `((W + 2s + max(|offsetX| − s, 0)) * scale,
(H + 2s + max(|offsetY| − s, 0)) * scale)` (the conditional growth of the code is this
maximum) and the image is drawn last, with the drop-shadow filter, at the offset
`(max(s − offsetX, 0), max(s − offsetY, 0))`. -/
theorem shadow_geometry (e : DropShadowEffect) (si : ShowImage) (isOverlap : Bool)
    (ox oy r : ℚ) (hshow : si.isShowableImage = true) (hx : e.offsetX = some ox)
    (hy : e.offsetY = some oy) (hr : e.blurRadius = some r) (h0 : 0 ≤ r)
    (_hscale : 0 < si.scale) :
    ∃ si', e.drawEffect (some si) isOverlap = some si' ∧
      si'.canvas.width = (si.image.width + 2 * shadowSpread r si.scale +
        max (|ox| - shadowSpread r si.scale) 0) * si.scale ∧
      si'.canvas.height = (si.image.height + 2 * shadowSpread r si.scale +
        max (|oy| - shadowSpread r si.scale) 0) * si.scale ∧
      si'.canvas.ops.getLast? = some (DrawOp.drawImage si.scale
        (Filter.dropShadow (ox * si.scale) (oy * si.scale) r e.color)
        (max (shadowSpread r si.scale - ox) 0) (max (shadowSpread r si.scale - oy) 0)) := by
  obtain ⟨si', hdraw, hw, hh, hops⟩ := shadow_result e si isOverlap ox oy r hshow hx hy hr h0
  rw [grow_eq_max] at hw hh
  rw [one_mul] at hops
  refine ⟨si', hdraw, ?_, ?_, hops⟩
  · rw [hw]
    unfold shadowSpread
    ring
  · rw [hh]
    unfold shadowSpread
    ring

/-- Witness for C10: radius 2 and the offset `(-30, 3)` on the sample 4×3 image at scale 2:
the spread is 2.5, so the canvas is `(4 + 5 + 27.5) * 2` wide and `(3 + 5 + 0.5) * 2` high. -/
theorem shadow_geometry_witness :
    ∃ si', DropShadowEffect.drawEffect ⟨some (-30), some 3, some 2, "black"⟩ (some sampleShow)
        false = some si' ∧
      si'.canvas.width = 73 ∧ si'.canvas.height = 17 := by
  obtain ⟨si', hdraw, hw, hh, _⟩ :=
    shadow_geometry ⟨some (-30), some 3, some 2, "black"⟩ sampleShow false (-30) 3 2 rfl rfl rfl
      rfl (by norm_num) (by show (0 : ℚ) < 2; norm_num)
  refine ⟨si', hdraw, ?_, ?_⟩
  · rw [hw]
    show (((4 : Nat) : ℚ) + 2 * shadowSpread 2 2 + max (|(-30 : ℚ)| - shadowSpread 2 2) 0) * 2 = 73
    norm_num [shadowSpread, abs_of_neg]
  · rw [hh]
    show (((3 : Nat) : ℚ) + 2 * shadowSpread 2 2 + max (|(3 : ℚ)| - shadowSpread 2 2) 0) * 2 = 17
    norm_num [shadowSpread, abs_of_pos]

/-! ## The drop shadow inside its buffer -/

theorem shadow_axis (w o s : ℚ) (hs : 0 ≤ s) :
    0 ≤ max (s - o) 0 ∧
    max (s - o) 0 + w ≤ w + 2 * s + max (|o| - s) 0 ∧
    0 ≤ max (s - o) 0 + o - s ∧
    max (s - o) 0 + o + w + s ≤ w + 2 * s + max (|o| - s) 0 ∧
    min (max (s - o) 0) (max (s - o) 0 + o - s) = 0 ∧
    max (max (s - o) 0 + w) (max (s - o) 0 + o + w + s) = w + 2 * s + max (|o| - s) 0 := by
  rcases le_total (s - o) 0 with h1 | h1
  · have ho : 0 ≤ o := by linarith
    rw [max_eq_right h1, abs_of_nonneg ho, max_eq_left (by linarith : (0 : ℚ) ≤ o - s)]
    refine ⟨le_refl _, by linarith, by linarith, by linarith, ?_, ?_⟩
    · rw [min_eq_left (by linarith)]
    · rw [max_eq_right (by linarith)]
      ring
  · rw [max_eq_left h1]
    rcases le_total 0 o with ho | ho
    · rw [abs_of_nonneg ho, max_eq_right (by linarith : o - s ≤ 0)]
      refine ⟨h1, by linarith, by linarith, by linarith, ?_, ?_⟩
      · rw [min_eq_right (by linarith)]
        ring
      · rw [max_eq_right (by linarith)]
        ring
    · rw [abs_of_nonpos ho]
      rcases le_total (-o - s) 0 with h2 | h2
      · rw [max_eq_right h2]
        refine ⟨h1, by linarith, by linarith, by linarith, ?_, ?_⟩
        · rw [min_eq_right (by linarith)]
          ring
        · rw [max_eq_right (by linarith)]
          ring
      · rw [max_eq_left h2]
        refine ⟨h1, by linarith, by linarith, by linarith, ?_, ?_⟩
        · rw [min_eq_right (by linarith)]
          ring
        · rw [max_eq_left (by linarith)]
          ring

/-- C11: the drop shadow is never clipped.  For a valid radius `≥ 0`, offsets of either
sign and a scale above zero on a displayable image of `W × H`, let `s` be the spread,
`(dx, dy)` the offset at which the image is drawn and `(Cw, Ch)` the logical size of the
buffer (its size is `(Cw * scale, Ch * scale)`).  Then the image `[dx, dx + W]` and the
extent of the shadow `[dx + offsetX − s, dx + offsetX + W + s]` lie inside `[0, Cw]`, the
left edge of their union is `0` and its right edge is `Cw`; and likewise for the rows with
`dy`, `offsetY`, `H` and `Ch`. -/
theorem shadow_not_clipped (e : DropShadowEffect) (si : ShowImage) (isOverlap : Bool)
    (ox oy r : ℚ) (hshow : si.isShowableImage = true) (hx : e.offsetX = some ox)
    (hy : e.offsetY = some oy) (hr : e.blurRadius = some r) (h0 : 0 ≤ r)
    (hscale : 0 < si.scale) :
    ∃ si' Cw Ch dx dy, e.drawEffect (some si) isOverlap = some si' ∧
      si'.canvas.width = Cw * si.scale ∧ si'.canvas.height = Ch * si.scale ∧
      si'.canvas.ops.getLast? = some (DrawOp.drawImage si.scale
        (Filter.dropShadow (ox * si.scale) (oy * si.scale) r e.color) dx dy) ∧
      (0 ≤ dx ∧ dx + si.image.width ≤ Cw ∧
        0 ≤ dx + ox - shadowSpread r si.scale ∧
        dx + ox + si.image.width + shadowSpread r si.scale ≤ Cw ∧
        min dx (dx + ox - shadowSpread r si.scale) = 0 ∧
        max (dx + si.image.width) (dx + ox + si.image.width + shadowSpread r si.scale) = Cw) ∧
      (0 ≤ dy ∧ dy + si.image.height ≤ Ch ∧
        0 ≤ dy + oy - shadowSpread r si.scale ∧
        dy + oy + si.image.height + shadowSpread r si.scale ≤ Ch ∧
        min dy (dy + oy - shadowSpread r si.scale) = 0 ∧
        max (dy + si.image.height) (dy + oy + si.image.height + shadowSpread r si.scale) =
          Ch) := by
  obtain ⟨si', hdraw, hw, hh, hops⟩ := shadow_result e si isOverlap ox oy r hshow hx hy hr h0
  rw [grow_eq_max] at hw hh
  rw [one_mul] at hops
  have hs : 0 ≤ shadowSpread r si.scale := by
    unfold shadowSpread
    positivity
  refine ⟨si', si.image.width + 2 * shadowSpread r si.scale +
      max (|ox| - shadowSpread r si.scale) 0,
    si.image.height + 2 * shadowSpread r si.scale + max (|oy| - shadowSpread r si.scale) 0,
    max (shadowSpread r si.scale - ox) 0, max (shadowSpread r si.scale - oy) 0, hdraw, ?_, ?_,
    hops, shadow_axis _ ox _ hs, shadow_axis _ oy _ hs⟩
  · rw [hw]
    unfold shadowSpread
    ring
  · rw [hh]
    unfold shadowSpread
    ring

/-- Witness for C11: radius 2 and the offset `(-30, 3)` on the sample 4×3 image at scale 2:
the buffer is `36.5 × 8.5` logical units and the image is drawn at `(32.5, 0)`. -/
theorem shadow_not_clipped_witness :
    ∃ si' Cw Ch dx dy,
      DropShadowEffect.drawEffect ⟨some (-30), some 3, some 2, "black"⟩ (some sampleShow) false =
        some si' ∧
      si'.canvas.width = Cw * 2 ∧ si'.canvas.height = Ch * 2 ∧
      0 ≤ dx ∧ dx + 4 ≤ Cw ∧ 0 ≤ dy ∧ dy + 3 ≤ Ch := by
  obtain ⟨si', Cw, Ch, dx, dy, hdraw, hw, hh, _, hxs, hys⟩ :=
    shadow_not_clipped ⟨some (-30), some 3, some 2, "black"⟩ sampleShow false (-30) 3 2 rfl rfl
      rfl rfl (by norm_num) (by show (0 : ℚ) < 2; norm_num)
  refine ⟨si', Cw, Ch, dx, dy, hdraw, hw, hh, hxs.1, ?_, hys.1, ?_⟩
  · have := hxs.2.1
    simpa [sampleShow, sampleImage] using this
  · have := hys.2.1
    simpa [sampleShow, sampleImage] using this

/-! ## Clearing before drawing -/

theorem clearRect_clearsAll (w h s : ℚ) (hs : 0 < s) :
    (DrawOp.clearRect s 0 0 (w / s) (h / s)).clearsAll w h = true := by
  have hs0 : s ≠ 0 := ne_of_gt hs
  simp only [DrawOp.clearsAll, decide_eq_true_eq, zero_mul, zero_add, le_refl, true_and]
  rw [div_mul_cancel₀ _ hs0, div_mul_cancel₀ _ hs0]
  exact ⟨le_refl _, le_refl _⟩

theorem scaleCanvas_aligned (si : ShowImage) :
    (scaleCanvas si).canvas.transform = (scaleCanvas si).scale := by
  show (1 : ℚ) * si.scale = si.scale
  rw [one_mul]

theorem drawFiltered_valid (param : Num) (filter : ℚ → Filter) (si : ShowImage)
    (isOverlap : Bool) (v : ℚ) (hshow : si.isShowableImage = true) (hp : param = some v)
    (hv : 0 ≤ v) (halign : si.canvas.transform = si.scale) (hscale : 0 < si.scale) :
    ∃ si', drawFiltered param filter (some si) isOverlap = some si' ∧
      ClearThenDraw si si' isOverlap (filter v) := by
  refine ⟨_, by simp only [drawFiltered, hshow, hp, if_neg (not_lt.mpr hv)]; rfl, ?_⟩
  dsimp only
  cases isOverlap with
  | false =>
    refine ⟨rfl, rfl, rfl, rfl, rfl, rfl, rfl, clearRect_clearsAll _ _ _ hscale, ?_⟩
    simp [ShowImage.clearRect, Surface.clearRect, Surface.drawImage, Surface.setFilter, halign]
  | true =>
    refine ⟨rfl, rfl, rfl, rfl, rfl, rfl, rfl, clearRect_clearsAll _ _ _ hscale, ?_⟩
    simp [Surface.drawImage, Surface.setFilter, halign]

theorem shadow_ops (e : DropShadowEffect) (si : ShowImage) (isOverlap : Bool)
    (ox oy r : ℚ) (hshow : si.isShowableImage = true) (hx : e.offsetX = some ox)
    (hy : e.offsetY = some oy) (hr : e.blurRadius = some r) (h0 : 0 ≤ r)
    (hscale : 0 < si.scale) :
    ∃ si', e.drawEffect (some si) isOverlap = some si' ∧
      si'.canvas.transform = si.scale ∧
      (DrawOp.clearRect si.scale 0 0 (si'.canvas.width / si.scale)
        (si'.canvas.height / si.scale)).clearsAll si'.canvas.width si'.canvas.height = true ∧
      si'.canvas.ops =
        [DrawOp.clearRect si.scale 0 0 (si'.canvas.width / si.scale)
          (si'.canvas.height / si.scale),
         DrawOp.drawImage si.scale (Filter.dropShadow (ox * si.scale) (oy * si.scale) r e.color)
          (max (shadowSpread r si.scale - ox) 0) (max (shadowSpread r si.scale - oy) 0)] := by
  refine ⟨_, by simp only [DropShadowEffect.drawEffect, hshow, hx, hy, hr,
    if_neg (not_lt.mpr h0)]; rfl, ?_, clearRect_clearsAll _ _ _ hscale, ?_⟩
  · show (1 : ℚ) * si.scale = si.scale
    rw [one_mul]
  · simp [ShowImage.clearRect, Surface.clearRect, Surface.drawImage, Surface.setFilter,
      Surface.resize, Surface.scale, shadowSpread]

/-- C13: clear before draw.  On a displayable image whose visible canvas has the scale as
its transform (as `scaleCanvas` and every resizing effect leave it) and a scale above
zero, each of the seven effects brightness, contrast, grayscale, hue-rotate, invert,
opacity and saturate with a valid parameter `v ≥ 0` keeps the size and the transform of
the canvas, appends a `clearRect` that covers the whole bitmap exactly when `isOverlap` is
`false` and nothing when it is `true`, and then draws the image at the origin with the
filter of that effect at `v`.  The drop shadow with valid offsets and the radius `v`
returns the same canvas for both values of `isOverlap`: its drawing calls are a `clearRect`
that covers the whole resized bitmap followed by the filtered draw. -/
theorem clear_before_draw (si : ShowImage) (isOverlap : Bool) (v : ℚ)
    (hshow : si.isShowableImage = true) (hscale : 0 < si.scale) (hv : 0 ≤ v) :
    (si.canvas.transform = si.scale →
      (∀ e : BrightnessEffect, e.brightness = some v →
        ∃ si', e.drawEffect (some si) isOverlap = some si' ∧
          ClearThenDraw si si' isOverlap (Filter.brightness v)) ∧
      (∀ e : ContrastEffect, e.contrastRate = some v →
        ∃ si', e.drawEffect (some si) isOverlap = some si' ∧
          ClearThenDraw si si' isOverlap (Filter.contrast v)) ∧
      (∀ e : GrayscaleEffect, e.grayscaleRate = some v →
        ∃ si', e.drawEffect (some si) isOverlap = some si' ∧
          ClearThenDraw si si' isOverlap (Filter.grayscale v)) ∧
      (∀ e : HueRotateEffect, e.degreeAngle = some v →
        ∃ si', e.drawEffect (some si) isOverlap = some si' ∧
          ClearThenDraw si si' isOverlap (Filter.hueRotate v)) ∧
      (∀ e : InvertEffect, e.invertRate = some v →
        ∃ si', e.drawEffect (some si) isOverlap = some si' ∧
          ClearThenDraw si si' isOverlap (Filter.invert v)) ∧
      (∀ e : OpacityEffect, e.opacityRate = some v →
        ∃ si', e.drawEffect (some si) isOverlap = some si' ∧
          ClearThenDraw si si' isOverlap (Filter.opacity v)) ∧
      (∀ e : SaturateEffect, e.saturateRate = some v →
        ∃ si', e.drawEffect (some si) isOverlap = some si' ∧
          ClearThenDraw si si' isOverlap (Filter.saturate v))) ∧
    (∀ (e : DropShadowEffect) (ox oy : ℚ), e.offsetX = some ox → e.offsetY = some oy →
      e.blurRadius = some v →
      ∃ si', e.drawEffect (some si) isOverlap = some si' ∧
        e.drawEffect (some si) (!isOverlap) = some si' ∧
        si'.canvas.transform = si.scale ∧
        (DrawOp.clearRect si.scale 0 0 (si'.canvas.width / si.scale)
          (si'.canvas.height / si.scale)).clearsAll si'.canvas.width si'.canvas.height = true ∧
        si'.canvas.ops =
          [DrawOp.clearRect si.scale 0 0 (si'.canvas.width / si.scale)
            (si'.canvas.height / si.scale),
           DrawOp.drawImage si.scale
            (Filter.dropShadow (ox * si.scale) (oy * si.scale) v e.color)
            (max (shadowSpread v si.scale - ox) 0) (max (shadowSpread v si.scale - oy) 0)]) := by
  refine ⟨fun halign => ⟨?_, ?_, ?_, ?_, ?_, ?_, ?_⟩, ?_⟩
  · exact fun e he => drawFiltered_valid _ _ si isOverlap v hshow he hv halign hscale
  · exact fun e he => drawFiltered_valid _ _ si isOverlap v hshow he hv halign hscale
  · exact fun e he => drawFiltered_valid _ _ si isOverlap v hshow he hv halign hscale
  · exact fun e he => drawFiltered_valid _ _ si isOverlap v hshow he hv halign hscale
  · exact fun e he => drawFiltered_valid _ _ si isOverlap v hshow he hv halign hscale
  · exact fun e he => drawFiltered_valid _ _ si isOverlap v hshow he hv halign hscale
  · exact fun e he => drawFiltered_valid _ _ si isOverlap v hshow he hv halign hscale
  · intro e ox oy hx hy hr
    obtain ⟨si', hdraw, ht, hclear, hops⟩ :=
      shadow_ops e si isOverlap ox oy v hshow hx hy hr hv hscale
    exact ⟨si', hdraw, hdraw, ht, hclear, hops⟩

/-- Witness for C13: on the sample image at scale 2, brightness 1/2 without overlap clears
the 8×6 canvas and then draws with `brightness(0.5)`; the drop shadow called with overlap
issues its two drawing calls, the clear and the draw. -/
theorem clear_before_draw_witness :
    (∃ si', BrightnessEffect.drawEffect ⟨some (1 / 2)⟩ (some sampleScaled) false = some si' ∧
      si'.canvas.ops = [DrawOp.clearRect 2 0 0 4 3,
        DrawOp.drawImage 2 (Filter.brightness (1 / 2)) 0 0]) ∧
    (∃ si', DropShadowEffect.drawEffect ⟨some 1, some 1, some (1 / 2), "black"⟩
        (some sampleScaled) true = some si' ∧ si'.canvas.ops.length = 2) := by
  have hscale : 0 < sampleScaled.scale := by show (0 : ℚ) < 2; norm_num
  have h := clear_before_draw sampleScaled false (1 / 2) rfl hscale (by norm_num)
  have h' := clear_before_draw sampleScaled true (1 / 2) rfl hscale (by norm_num)
  constructor
  · obtain ⟨si', hdraw, hspec⟩ := (h.1 (scaleCanvas_aligned _)).1 ⟨some (1 / 2)⟩ rfl
    refine ⟨si', hdraw, ?_⟩
    rw [hspec.2.2.2.2.2.2.2.2]
    norm_num [sampleScaled, scaleCanvas, Surface.resize, Surface.scale, sampleImage]
  · obtain ⟨si', hdraw, _, _, _, hops⟩ :=
      h'.2 ⟨some 1, some 1, some (1 / 2), "black"⟩ 1 1 rfl rfl rfl
    exact ⟨si', hdraw, by rw [hops]; rfl⟩

/-! ## The mosaic with block size one -/

theorem content_clear_draw (sf : Surface) (pre : List DrawOp) (c d : DrawOp)
    (hc : c.clearsAll sf.width sf.height = true) (hd : d.clearsAll sf.width sf.height = false)
    (hops : sf.ops = pre ++ [c, d]) : sf.content = [d] := by
  unfold Surface.content
  rw [hops, List.foldl_append]
  simp [hc, hd]

theorem clearRect_drawPlane (si : ShowImage) (halign : si.canvas.transform = si.scale)
    (hscale : 0 < si.scale) :
    ClearThenDraw si si.clearRect.drawPlane false Filter.none ∧
    si.clearRect.drawPlane.canvas.content = [DrawOp.drawImage si.scale Filter.none 0 0] := by
  have hops : si.clearRect.drawPlane.canvas.ops = si.canvas.ops ++
      [DrawOp.clearRect si.scale 0 0 (si.canvas.width / si.scale) (si.canvas.height / si.scale),
       DrawOp.drawImage si.scale Filter.none 0 0] := by
    simp [ShowImage.clearRect, ShowImage.drawPlane, Surface.clearRect, Surface.drawImage,
      Surface.setFilter, halign]
  refine ⟨⟨rfl, rfl, rfl, rfl, rfl, rfl, rfl, clearRect_clearsAll _ _ _ hscale, ?_⟩, ?_⟩
  · rw [hops]
    simp
  · exact content_clear_draw _ _ _ _ (clearRect_clearsAll _ _ _ hscale) rfl hops

/-- C14: the mosaic with block size 1.  On a displayable image whose visible canvas has the
scale as its transform and a scale above zero, `drawEffect` returns at once for either value
of `isOverlap`: the record of blocks, the work canvas and the count of `await`s are those
of before, and the visible canvas is `showImage.clearRect()` followed by `drawPlane`, that
is a `clearRect` covering the whole bitmap and the unfiltered image at the origin, with the
size and the transform kept.  What the canvas then shows is the plain draw alone, the same
as `drawPlane` on the canvas freshly set up by `scaleCanvas`; and a second call returns at
once as well and leaves a canvas of the same size, transform and filter showing the same. -/
theorem unit_block_draws_plain (m : MosaicEffect) (si : ShowImage) (isOverlap : Bool)
    (hsi : m.showImage = some si) (hshow : si.isShowableImage = true)
    (hb : m.blockSize = some 1) (halign : si.canvas.transform = si.scale)
    (hscale : 0 < si.scale) :
    m.drawEffect isOverlap = some (Outcome.returned
      { m with showImage := some si.clearRect.drawPlane, _isRunningDraw := false }) ∧
    ClearThenDraw si si.clearRect.drawPlane false Filter.none ∧
    si.clearRect.drawPlane.canvas.content = [DrawOp.drawImage si.scale Filter.none 0 0] ∧
    si.clearRect.drawPlane.canvas.content = (scaleCanvas si).drawPlane.canvas.content ∧
    MosaicEffect.drawEffect
        { m with showImage := some si.clearRect.drawPlane, _isRunningDraw := false } isOverlap =
      some (Outcome.returned
        { m with showImage := some si.clearRect.drawPlane.clearRect.drawPlane,
                 _isRunningDraw := false }) ∧
    si.clearRect.drawPlane.clearRect.drawPlane.canvas.content =
      si.clearRect.drawPlane.canvas.content ∧
    si.clearRect.drawPlane.clearRect.drawPlane.canvas.width =
      si.clearRect.drawPlane.canvas.width ∧
    si.clearRect.drawPlane.clearRect.drawPlane.canvas.height =
      si.clearRect.drawPlane.canvas.height ∧
    si.clearRect.drawPlane.clearRect.drawPlane.canvas.transform =
      si.clearRect.drawPlane.canvas.transform ∧
    si.clearRect.drawPlane.clearRect.drawPlane.canvas.filter =
      si.clearRect.drawPlane.canvas.filter := by
  have hone := clearRect_drawPlane si halign hscale
  have htwo := clearRect_drawPlane si.clearRect.drawPlane halign hscale
  refine ⟨?_, hone.1, hone.2, ?_, ?_, ?_, rfl, rfl, rfl, rfl⟩
  · simp [MosaicEffect.drawEffect, hsi, hshow, hb]
  · rw [hone.2]
    simp [scaleCanvas, ShowImage.drawPlane, Surface.content, Surface.drawImage,
      Surface.setFilter, Surface.resize, Surface.scale, DrawOp.clearsAll]
  · simp [MosaicEffect.drawEffect, hshow, hb, ShowImage.clearRect, ShowImage.drawPlane]
  · rw [htwo.2, hone.2]
    rfl

/-- Witness for C14: the sample mosaic with block size 1 on the sample image at scale 2
returns at once, with no block visited, and the canvas shows the plain draw alone. -/
theorem unit_block_draws_plain_witness :
    ∃ m', MosaicEffect.drawEffect
        { sampleMosaic 4 3 (some 1) with showImage := some sampleScaled } true =
        some (Outcome.returned m') ∧
      m'.visits = [] ∧ m'.yields = 0 ∧
      sampleScaled.clearRect.drawPlane.canvas.content = [DrawOp.drawImage 2 Filter.none 0 0] := by
  have h := unit_block_draws_plain
    { sampleMosaic 4 3 (some 1) with showImage := some sampleScaled } sampleScaled true rfl rfl
    rfl (scaleCanvas_aligned _) (by show (0 : ℚ) < 2; norm_num)
  exact ⟨_, h.1, rfl, rfl, h.2.2.1⟩

/-! ## The schedule of the yields -/

theorem countBlocks_small (u : Nat) (h1 : 1 ≤ u) (hu : u ≤ piexelCountThreshold) (n : Nat) :
    (countBlocks u n).1 + piexelCountThreshold * (countBlocks u n).2 = n * u ∧
    (countBlocks u n).1 ≤ piexelCountThreshold ∧ (1 ≤ n → 1 ≤ (countBlocks u n).1) := by
  unfold piexelCountThreshold at *
  induction n with
  | zero => simp [countBlocks]
  | succ n ih =>
    obtain ⟨hsum, hle, _⟩ := ih
    have hmul : (n + 1) * u = n * u + u := by ring
    rw [hmul]
    generalize n * u = t at hsum
    simp only [countBlocks, countBlock, piexelCountThreshold]
    split
    · refine ⟨?_, ?_, fun _ => ?_⟩ <;> dsimp only <;> omega
    · refine ⟨?_, ?_, fun _ => ?_⟩ <;> dsimp only <;> omega

theorem countBlocks_large (u : Nat) (hu : piexelCountThreshold < u) (n : Nat) :
    countBlocks u n = (n * (u - piexelCountThreshold), n) := by
  unfold piexelCountThreshold at *
  induction n with
  | zero => simp [countBlocks]
  | succ n ih =>
    simp only [countBlocks, countBlock, piexelCountThreshold, ih]
    have hmul : (n + 1) * (u - 5000) = n * (u - 5000) + (u - 5000) := by ring
    rw [if_pos (by omega), hmul, Prod.mk.injEq]
    generalize n * (u - 5000) = t
    exact ⟨by omega, rfl⟩

theorem countBlocks_yield {u n : Nat} (h : (countBlocks u n).1 + u > piexelCountThreshold) :
    countBlocks u (n + 1) =
      ((countBlocks u n).1 + u - piexelCountThreshold, (countBlocks u n).2 + 1) := by
  show countBlock u (countBlocks u n) = _
  unfold countBlock
  exact if_pos h

theorem countBlocks_pass {u n : Nat} (h : ¬ (countBlocks u n).1 + u > piexelCountThreshold) :
    countBlocks u (n + 1) = ((countBlocks u n).1 + u, (countBlocks u n).2) := by
  show countBlock u (countBlocks u n) = _
  unfold countBlock
  exact if_neg h

theorem processBlock_record {m m1 : MosaicEffect} {b : Nat} {s : ℚ} {x y : Nat}
    (h : processBlock m b s x y = some m1) :
    m1.visits.length = m.visits.length + 1 ∧ m1.yields = m.yields := by
  unfold processBlock at h
  dsimp only at h
  split at h
  · exact absurd h (by simp)
  · simp only [Option.some.injEq] at h
    subst h
    exact ⟨by simp, rfl⟩

theorem afterLoops_record (m : MosaicEffect) :
    (afterLoops m).visits = m.visits ∧ (afterLoops m).yields = m.yields := by
  unfold afterLoops
  split
  · split <;> exact ⟨rfl, rfl⟩
  · exact ⟨rfl, rfl⟩

theorem counted_suspended {u v0 y0 n : Nat} {l : Locals} {m : MosaicEffect}
    (hv : m.visits.length = v0 + (n + 1)) (hy : m.yields = y0 + (countBlocks u (n + 1)).2)
    (hu : l.blockUnitSize = u) (hp : l.pixelCount = (countBlocks u (n + 1)).1)
    (hgt : (countBlocks u n).1 + u > piexelCountThreshold) :
    (Outcome.suspended l m).counted u v0 y0 :=
  ⟨n + 1, hv, hy, hu, hp, n, rfl, hgt⟩

theorem loop_counted (b : Nat) (s : ℚ) (u v0 y0 : Nat) :
    ∀ fuel m l out n, loop b s fuel m l = some out → m.visits.length = v0 + n →
      m.yields = y0 + (countBlocks u n).2 → l.pixelCount = (countBlocks u n).1 →
      l.blockUnitSize = u → out.counted u v0 y0 := by
  intro fuel
  induction fuel with
  | zero => intro m l out n h; simp [loop] at h
  | succ f ih =>
    intro m l out n h hv hy hc hu
    unfold loop at h
    split at h
    · split at h
      · simp only [Option.some.injEq] at h
        subst h
        exact ⟨n, hv, hy, trivial⟩
      · rename_i m1 hpb
        obtain ⟨hv1, hy1⟩ := processBlock_record hpb
        dsimp only at h
        split at h
        · rename_i hgt
          simp only [Option.some.injEq] at h
          subst h
          rw [hc, hu] at hgt
          have hnext := countBlocks_yield hgt
          exact counted_suspended (by show m1.visits.length = v0 + (n + 1); omega)
            (by show m1.yields + 1 = y0 + (countBlocks u (n + 1)).2; rw [hnext]; omega) hu
            (by show l.pixelCount + l.blockUnitSize - piexelCountThreshold = _
                rw [hnext, hc, hu]) hgt
        · rename_i hle
          rw [hc, hu] at hle
          have hnext := countBlocks_pass hle
          exact ih _ _ _ (n + 1) h (by omega) (by rw [hnext]; omega)
            (by show l.pixelCount + l.blockUnitSize = _; rw [hnext, hc, hu]) hu
    · split at h
      · exact ih _ _ _ n h hv hy hc hu
      · simp only [Option.some.injEq] at h
        subst h
        refine ⟨n, ?_, ?_, trivial⟩
        · show (afterLoops m).visits.length = v0 + n
          rw [(afterLoops_record m).1]
          exact hv
        · show (afterLoops m).yields = y0 + (countBlocks u n).2
          rw [(afterLoops_record m).2]
          exact hy

theorem runFrom_counted (u v0 y0 : Nat) :
    ∀ cs out out', Outcome.counted u v0 y0 out → runFrom cs out = some out' →
      out'.counted u v0 y0 := by
  intro cs
  induction cs with
  | nil =>
    intro out out' hc h
    cases out with
    | suspended l m =>
      simp only [runFrom, Option.some.injEq] at h
      exact h ▸ hc
    | returned m =>
      rw [runFrom_returned, Option.some.injEq] at h
      exact h ▸ hc
  | cons c cs ih =>
    intro out out' hc h
    cases out with
    | suspended l m =>
      simp only [runFrom, Option.bind_eq_some] at h
      obtain ⟨o1, hres, hrest⟩ := h
      obtain ⟨n, hv, hy, hu, hp, _⟩ := hc
      exact ih o1 out' (loop_counted _ _ u v0 y0 _ _ _ _ n hres hv hy hp hu) hrest
    | returned m =>
      rw [runFrom_returned, Option.some.injEq] at h
      exact h ▸ hc

theorem pass_counted (m : MosaicEffect) (si : ShowImage) (b : Int)
    (hsi : m.showImage = some si) (hshow : si.isShowableImage = true)
    (hb : m.blockSize = some b) (h1 : 1 < b) (cs : List Bool) (out : Outcome)
    (h : runPass cs m = some out) :
    out.counted (b * b).toNat m.visits.length m.yields := by
  simp only [runPass, Option.bind_eq_some] at h
  obtain ⟨o1, hstart, hrest⟩ := h
  refine runFrom_counted _ _ _ cs o1 out ?_ hrest
  unfold MosaicEffect.start MosaicEffect.drawEffect at hstart
  simp only [hsi, hshow, hb] at hstart
  rw [if_neg (by simp), if_neg (by omega), if_pos h1] at hstart
  split at hstart
  · exact loop_counted _ _ _ _ _ _ _ _ _ 0 hstart rfl rfl rfl rfl
  · simp only [Option.some.injEq] at hstart
    subst hstart
    refine ⟨0, ?_, ?_, trivial⟩
    · show (afterLoops _).visits.length = m.visits.length + 0
      rw [(afterLoops_record _).1]
      rfl
    · show (afterLoops _).yields = m.yields + 0
      rw [(afterLoops_record _).2]
      rfl

theorem gridVisits_length (src : Canvas) (b : Nat) :
    (gridVisits src b).length = blockCount b src.width * blockCount b src.height := by
  rw [← List.length_map (gridVisits src b) Visit.block, gridVisits_blocks]
  unfold gridBlocks
  rw [length_rows, Nat.mul_comm]

/-- C16: the schedule of the yields.  `countBlocks u n` iterates lines 104–108 from
`pixelCount = 0`: per block `u` is added, and when the sum is above 5000 the pass awaits
once and 5000 is subtracted.  For a pass with block size `b > 1` over a displayable image,
`u = b * b` for every block, clipped or not, and whatever requests to cancel arrive: the
pass comes to an outcome, at which it has processed some `n` blocks and awaited
`(countBlocks u n).2` times, and when it is suspended its counter is `(countBlocks u n).1`
and the block just processed took the sum above 5000; a pass that is not cancelled ends
after all `ceil(W / b) * ceil(H / b)` blocks.  If `u ≤ 5000`, then after `n ≥ 1` blocks the
counter `c` lies in `1..5000`, `c + 5000 * k = n * u` for the number `k` of yields, and
`k = ceil(n * u / 5000) − 1`; if `u > 5000`, the pass yields after every block. -/
theorem yield_schedule (m : MosaicEffect) (si : ShowImage) (b : Int)
    (hsi : m.showImage = some si) (hshow : si.isShowableImage = true)
    (hclean : si.image.originClean = true) (hs : 0 < si.scale)
    (hb : m.blockSize = some b) (h1 : 1 < b)
    (hW : 0 < (prepareCanvas si).width) (hH : 0 < (prepareCanvas si).height) :
    (∀ cs, ∃ out, runPass cs m = some out ∧
      out.counted (b * b).toNat m.visits.length m.yields) ∧
    (∀ n, loopFuel (prepareCanvas si) ≤ n →
      ∃ m', runPass (List.replicate n false) m = some (Outcome.returned m') ∧
        m'.visits.length = m.visits.length +
          blockCount b.toNat (prepareCanvas si).width *
            blockCount b.toNat (prepareCanvas si).height ∧
        m'.yields = m.yields + (countBlocks (b * b).toNat
          (blockCount b.toNat (prepareCanvas si).width *
            blockCount b.toNat (prepareCanvas si).height)).2) ∧
    ((b * b).toNat ≤ piexelCountThreshold → ∀ n, 1 ≤ n →
      1 ≤ (countBlocks (b * b).toNat n).1 ∧
      (countBlocks (b * b).toNat n).1 ≤ piexelCountThreshold ∧
      (countBlocks (b * b).toNat n).1 + piexelCountThreshold * (countBlocks (b * b).toNat n).2 =
        n * (b * b).toNat ∧
      (countBlocks (b * b).toNat n).2 =
        (n * (b * b).toNat + (piexelCountThreshold - 1)) / piexelCountThreshold - 1) ∧
    (piexelCountThreshold < (b * b).toNat → ∀ n,
      countBlocks (b * b).toNat n = (n * ((b * b).toNat - piexelCountThreshold), n)) := by
  refine ⟨?_, ?_, ?_, fun hu n => countBlocks_large _ hu n⟩
  · intro cs
    obtain ⟨out, hrun, _⟩ := pass_outcomes m si b hsi hshow hclean hs hb h1 hW hH cs
    exact ⟨out, hrun, pass_counted m si b hsi hshow hb h1 cs out hrun⟩
  · intro n hn
    obtain ⟨m', hrun, hdone⟩ := pass_completes m si b hsi hshow hclean hs hb h1 hW hH n hn
    obtain ⟨k, hv, hy, _⟩ := pass_counted m si b hsi hshow hb h1 _ _ hrun
    have hlen : m'.visits.length = m.visits.length +
        blockCount b.toNat (prepareCanvas si).width *
          blockCount b.toNat (prepareCanvas si).height := by
      rw [hdone.visits, List.length_append, gridVisits_length]
    have hk : k = blockCount b.toNat (prepareCanvas si).width *
        blockCount b.toNat (prepareCanvas si).height := by
      have hv' : m'.visits.length = m.visits.length + k := hv
      omega
    refine ⟨m', hrun, hlen, ?_⟩
    rw [← hk]
    exact hy
  · intro hu n hn
    have hpos : 1 ≤ (b * b).toNat := by
      have : 1 < b * b := by nlinarith
      omega
    obtain ⟨hsum, hle, hge⟩ := countBlocks_small _ hpos hu n
    refine ⟨hge hn, hle, hsum, ?_⟩
    have hc := hge hn
    unfold piexelCountThreshold at *
    generalize n * (b * b).toNat = t at hsum
    omega

/-- Witness for C16: on the sample 1×1 image with block size 71 one block counts 5041, so
the pass is suspended after its only block with the counter 41, and it yields after every
block; with block size 10 on the sample 100×100 image the pass ends after 100 blocks and
one yield. -/
theorem yield_schedule_witness :
    runPass [] (sampleMosaic 1 1 (some 71)) =
      some (Outcome.suspended ⟨0, 0, 41, 5041⟩ ((runPass [] (sampleMosaic 1 1 (some 71))).getD
        (Outcome.returned (sampleMosaic 1 1 (some 71)))).mosaic) ∧
    (∀ n, countBlocks 5041 n = (n * 41, n)) ∧
    (∃ m', runPass (List.replicate 10404 false) (sampleMosaic 100 100 (some 10)) =
      some (Outcome.returned m') ∧ m'.visits.length = 100 ∧ m'.yields = 1) := by
  have h := yield_schedule (sampleMosaic 1 1 (some 71))
    ⟨Surface.resize 1 1, sampleImage 1 1, true, 1⟩ 71 rfl rfl rfl (by norm_num) rfl
    (by decide) (by decide) (by decide)
  have h' := yield_schedule (sampleMosaic 100 100 (some 10))
    ⟨Surface.resize 100 100, sampleImage 100 100, true, 1⟩ 10 rfl rfl rfl (by norm_num) rfl
    (by decide) (by decide) (by decide)
  refine ⟨rfl, h.2.2.2 (by decide), ?_⟩
  obtain ⟨m', hrun, hlen, hy⟩ := h'.2.1 10404 (by decide)
  have hn : blockCount (10 : Int).toNat
      (prepareCanvas ⟨Surface.resize 100 100, sampleImage 100 100, true, 1⟩).width *
      blockCount (10 : Int).toNat
        (prepareCanvas ⟨Surface.resize 100 100, sampleImage 100 100, true, 1⟩).height = 100 := by
    decide
  rw [hn, (h'.2.2.1 (by decide) 100 (by decide)).2.2.2] at hy
  exact ⟨m', hrun, hlen, hy.trans (by decide)⟩

/-! ## The scenario of a 100×100 opaque image -/

theorem prepareCanvas_pix (si : ShowImage) (i j : Nat) :
    (prepareCanvas si).pix i j = si.image.sample (1 * si.scale) i j := by
  simp [prepareCanvas, Canvas.drawPlane, Canvas.clearRect, Canvas.scale, Canvas.resize,
    Pixel.over, Pixel.transparent]

theorem flatMap_congr_mem {α β : Type} (l : List α) (f g : α → List β)
    (h : ∀ a, a ∈ l → f a = g a) : l.flatMap f = l.flatMap g := by
  induction l with
  | nil => rfl
  | cons a l ih =>
    rw [List.flatMap_cons, List.flatMap_cons, h a (List.mem_cons_self _ _),
      ih fun x hx => h x (List.mem_cons_of_mem _ hx)]

theorem read_pixels (cv : Canvas) (x y w h : Nat) (hx : x + w ≤ cv.width)
    (hy : y + h ≤ cv.height) :
    (cv.read x y w h).pixels =
      (List.range h).flatMap fun q => (List.range w).map fun p => cv.pix (x + p) (y + q) := by
  unfold ImageData.pixels Canvas.read
  refine flatMap_congr_mem _ _ _ fun q hq => ?_
  rw [List.map_inj_left]
  intro p hp
  rw [List.mem_range] at hp hq
  dsimp only at hp hq ⊢
  rw [if_pos ⟨hp, hq, by omega, by omega⟩]

theorem mem_gridVisits {src : Canvas} {b : Nat} {v : Visit} :
    v ∈ gridVisits src b ↔ ∃ j, j < blockCount b src.height ∧ ∃ i, i < blockCount b src.width ∧
      v = blockVisit src b (i * b) (j * b) := by
  simp only [gridVisits, rowVisits, List.mem_flatMap, List.mem_map, List.mem_range]
  constructor
  · rintro ⟨j, hj, i, hi, rfl⟩
    exact ⟨j, hj, i, hi, rfl⟩
  · rintro ⟨j, hj, i, hi, rfl⟩
    exact ⟨j, hj, i, hi, rfl⟩

theorem sum_alpha_solid (ps : List Pixel) (h : ∀ p, p ∈ ps → p.a = 255) :
    (ps.map Pixel.a).sum = 255 * ps.length := by
  induction ps with
  | nil => rfl
  | cons p ps ih =>
    rw [List.map_cons, List.sum_cons, List.length_cons, h p (List.mem_cons_self _ _),
      ih fun x hx => h x (List.mem_cons_of_mem _ hx)]
    omega

theorem sourceBlock_length (image : Image) (x y : Nat) : (sourceBlock image x y).length = 100 := by
  simp [sourceBlock, List.length_flatMap, Function.comp_def]

theorem mem_sourceBlock {image : Image} {x y : Nat} {px : Pixel}
    (h : px ∈ sourceBlock image x y) :
    ∃ p q, p < 10 ∧ q < 10 ∧ px = image.sample 1 (x + p) (y + q) := by
  simp only [sourceBlock, List.mem_flatMap, List.mem_map, List.mem_range] at h
  obtain ⟨q, hq, p, hp, rfl⟩ := h
  exact ⟨p, q, hp, hq, rfl⟩

theorem opaque_block (si : ShowImage) (hscale : si.scale = 1) (hw : si.image.width = 100)
    (hh : si.image.height = 100)
    (hsolid : ∀ i j, i < 100 → j < 100 → (si.image.sample 1 i j).a = 255) (i j : Nat)
    (hi : i < 10) (hj : j < 10) :
    (blockVisit (prepareCanvas si) 10 (i * 10) (j * 10)).block = ⟨i * 10, j * 10, 10, 10⟩ ∧
    (blockVisit (prepareCanvas si) 10 (i * 10) (j * 10)).read.pixels =
      sourceBlock si.image (i * 10) (j * 10) ∧
    counted (sourceBlock si.image (i * 10) (j * 10)) = sourceBlock si.image (i * 10) (j * 10) ∧
    (blockVisit (prepareCanvas si) 10 (i * 10) (j * 10)).color =
      ⟨jsRound ((((sourceBlock si.image (i * 10) (j * 10)).map Pixel.r).sum : ℚ) / 100),
       jsRound ((((sourceBlock si.image (i * 10) (j * 10)).map Pixel.g).sum : ℚ) / 100),
       jsRound ((((sourceBlock si.image (i * 10) (j * 10)).map Pixel.b).sum : ℚ) / 100), 1⟩ := by
  have hW : (prepareCanvas si).width = 100 := by
    show deviceLength si.image.width si.scale = 100
    rw [hw, hscale]
    rfl
  have hH : (prepareCanvas si).height = 100 := by
    show deviceLength si.image.height si.scale = 100
    rw [hh, hscale]
    rfl
  have hpix : (blockRead (prepareCanvas si) 10 (i * 10) (j * 10)).pixels =
      sourceBlock si.image (i * 10) (j * 10) := by
    unfold blockRead
    rw [hW, hH, show min 10 (100 - i * 10) = 10 by omega,
      show min 10 (100 - j * 10) = 10 by omega,
      read_pixels _ _ _ _ _ (by omega) (by omega)]
    unfold sourceBlock
    simp only [prepareCanvas_pix, hscale, mul_one]
  have hall : ∀ px, px ∈ sourceBlock si.image (i * 10) (j * 10) → px.a = 255 := by
    intro px hpx
    obtain ⟨p, q, hp, hq, rfl⟩ := mem_sourceBlock hpx
    exact hsolid _ _ (by omega) (by omega)
  have hcount : counted (sourceBlock si.image (i * 10) (j * 10)) =
      sourceBlock si.image (i * 10) (j * 10) := by
    unfold counted
    rw [List.filter_eq_self]
    intro px hpx
    simp [hall px hpx]
  refine ⟨?_, hpix, hcount, ?_⟩
  · show (⟨i * 10, j * 10, min 10 ((prepareCanvas si).width - i * 10),
      min 10 ((prepareCanvas si).height - j * 10)⟩ : Block) = _
    rw [hW, hH, show min 10 (100 - i * 10) = 10 by omega,
      show min 10 (100 - j * 10) = 10 by omega]
  · show _calculateAverageColor (blockRead (prepareCanvas si) 10 (i * 10) (j * 10)).data = _
    unfold ImageData.data
    rw [hpix, calculateAverageColor_bytesOf, hcount, sourceBlock_length, if_neg (by decide),
      sum_alpha_solid _ hall, sourceBlock_length]
    have ha : (jsRound (((255 * 100 : ℕ) : ℚ) / ((100 : ℕ) : ℚ)) : ℚ) / 255 = 1 := by
      have : jsRound (((255 * 100 : ℕ) : ℚ) / ((100 : ℕ) : ℚ)) = 255 := by
        unfold jsRound
        norm_num [Int.floor_eq_iff]
      rw [this]
      norm_num
    rw [ha]
    norm_num

theorem opaque_pass (m : MosaicEffect) (si : ShowImage) (hsi : m.showImage = some si)
    (hshow : si.isShowableImage = true) (hclean : si.image.originClean = true)
    (hscale : si.scale = 1) (hw : si.image.width = 100) (hh : si.image.height = 100)
    (hb : m.blockSize = some 10) (n : Nat) (hn : 10404 ≤ n) :
    ∃ m', runPass (List.replicate n false) m = some (Outcome.returned m') ∧
      m'.visits = m.visits ++ gridVisits (prepareCanvas si) 10 ∧
      (prepareCanvas si).width = 100 ∧ (prepareCanvas si).height = 100 := by
  have hW : (prepareCanvas si).width = 100 := by
    show deviceLength si.image.width si.scale = 100
    rw [hw, hscale]
    rfl
  have hH : (prepareCanvas si).height = 100 := by
    show deviceLength si.image.height si.scale = 100
    rw [hh, hscale]
    rfl
  obtain ⟨m', hrun, hdone⟩ := pass_completes m si 10 hsi hshow hclean
    (by rw [hscale]; exact zero_lt_one) hb (by decide) (by rw [hW]; decide)
    (by rw [hH]; decide) n (by unfold loopFuel; rw [hW, hH]; exact hn)
  exact ⟨m', hrun, hdone.visits, hW, hH⟩

/-- C15, amended: for every 100×100 fully opaque source image at scale 1 and block size 10,
a pass that is not cancelled ends after exactly 100 blocks of 10×10, the grid in row-major
order.  Each block reads its 100 source pixels, counts every one of them, and its output
colour has as red, green and blue the mean of these 100 values rounded to the nearest
integer (halves go up), not the exact mean, and the alpha exactly 1. -/
theorem opaque_blocks_rounded_mean (m : MosaicEffect) (si : ShowImage)
    (hsi : m.showImage = some si) (hshow : si.isShowableImage = true)
    (hclean : si.image.originClean = true) (hscale : si.scale = 1)
    (hw : si.image.width = 100) (hh : si.image.height = 100)
    (hsolid : ∀ i j, i < 100 → j < 100 → (si.image.sample 1 i j).a = 255)
    (hb : m.blockSize = some 10) (n : Nat) (hn : 10404 ≤ n) :
    ∃ m' vs, runPass (List.replicate n false) m = some (Outcome.returned m') ∧
      m'.visits = m.visits ++ vs ∧ vs.length = 100 ∧
      vs.map Visit.block = gridBlocks 10 100 100 ∧
      ∀ v, v ∈ vs →
        v.block.w = 10 ∧ v.block.h = 10 ∧
        v.read.pixels = sourceBlock si.image v.block.x v.block.y ∧
        v.read.pixels.length = 100 ∧ counted v.read.pixels = v.read.pixels ∧
        v.color.r = jsRound (((v.read.pixels.map Pixel.r).sum : ℚ) / 100) ∧
        v.color.g = jsRound (((v.read.pixels.map Pixel.g).sum : ℚ) / 100) ∧
        v.color.b = jsRound (((v.read.pixels.map Pixel.b).sum : ℚ) / 100) ∧
        v.color.a = 1 := by
  obtain ⟨m', hrun, hvisits, hW, hH⟩ := opaque_pass m si hsi hshow hclean hscale hw hh hb n hn
  refine ⟨m', gridVisits (prepareCanvas si) 10, hrun, hvisits, ?_, ?_, ?_⟩
  · rw [gridVisits_length, hW, hH]
    rfl
  · rw [gridVisits_blocks, hW, hH]
  · intro v hv
    rw [mem_gridVisits, hW, hH] at hv
    obtain ⟨j, hj, i, hi, rfl⟩ := hv
    have hi' : i < 10 := hi
    have hj' : j < 10 := hj
    obtain ⟨hblock, hpix, hcount, hcolor⟩ := opaque_block si hscale hw hh hsolid i j hi' hj'
    rw [hblock, hpix, hcolor]
    exact ⟨rfl, rfl, rfl, sourceBlock_length _ _ _, hcount, rfl, rfl, rfl, rfl⟩

/-- Witness for C15, amended: the sample 100×100 image with block size 10 at scale 1 ends
after 100 blocks, each with the output alpha 1. -/
theorem opaque_blocks_rounded_mean_witness :
    ∃ m', runPass (List.replicate 10404 false) (sampleMosaic 100 100 (some 10)) =
        some (Outcome.returned m') ∧
      m'.visits.length = 100 ∧ ∀ v, v ∈ m'.visits → v.color.a = 1 := by
  obtain ⟨m', vs, hrun, hvisits, hlen, _, hall⟩ :=
    opaque_blocks_rounded_mean (sampleMosaic 100 100 (some 10))
      ⟨Surface.resize 100 100, sampleImage 100 100, true, 1⟩ rfl rfl rfl rfl rfl rfl
      (fun _ _ _ _ => rfl) rfl 10404 (le_refl _)
  have hvs : m'.visits = vs := hvisits
  refine ⟨m', hrun, ?_, ?_⟩
  · rw [hvs]
    exact hlen
  · rw [hvs]
    exact fun v hv => (hall v hv).2.2.2.2.2.2.2.2

/-- Counterexample to C15 as stated: on the 100×100 opaque image that is black but for the
red value 1 of one pixel, the first block reads 100 pixels whose red values sum to 1, so the
exact mean of red is 1/100, while the output red of the block is 0. -/
theorem exact_mean_fails :
    ∃ m' v, runPass (List.replicate 10404 false) speckMosaic = some (Outcome.returned m') ∧
      v ∈ m'.visits ∧ v.block = ⟨0, 0, 10, 10⟩ ∧
      v.read.pixels = sourceBlock speckImage 0 0 ∧ v.read.pixels.length = 100 ∧
      counted v.read.pixels = v.read.pixels ∧
      (v.read.pixels.map Pixel.r).sum = 1 ∧ v.color.r = 0 ∧
      (v.color.r : ℚ) ≠ ((v.read.pixels.map Pixel.r).sum : ℚ) / v.read.pixels.length := by
  obtain ⟨m', hrun, hvisits, hW, hH⟩ := opaque_pass speckMosaic
    ⟨Surface.resize 100 100, speckImage, true, 1⟩ rfl rfl rfl rfl rfl rfl rfl 10404 (le_refl _)
  obtain ⟨hblock, hpix, hcount, hcolor⟩ := opaque_block
    ⟨Surface.resize 100 100, speckImage, true, 1⟩ rfl rfl rfl (fun _ _ _ _ => rfl) 0 0
    (by decide) (by decide)
  have hsum : ((sourceBlock speckImage 0 0).map Pixel.r).sum = 1 := by decide
  have hround : jsRound (((1 : ℕ) : ℚ) / 100) = 0 := by
    unfold jsRound
    norm_num [Int.floor_eq_iff]
  refine ⟨m', blockVisit (prepareCanvas ⟨Surface.resize 100 100, speckImage, true, 1⟩) 10
    (0 * 10) (0 * 10), hrun, ?_, hblock, hpix, ?_, ?_, ?_, ?_, ?_⟩
  · rw [hvisits]
    refine List.mem_append_right _ (mem_gridVisits.mpr ⟨0, ?_, 0, ?_, rfl⟩)
    · rw [hH]
      decide
    · rw [hW]
      decide
  · rw [hpix]
    exact sourceBlock_length _ _ _
  · rw [hpix]
    exact hcount
  · rw [hpix]
    exact hsum
  · rw [hcolor]
    show jsRound ((((sourceBlock speckImage 0 0).map Pixel.r).sum : ℚ) / 100) = 0
    rw [hsum]
    exact hround
  · rw [hcolor, hpix]
    show ((jsRound ((((sourceBlock speckImage 0 0).map Pixel.r).sum : ℚ) / 100) : Int) : ℚ) ≠
      (((sourceBlock speckImage 0 0).map Pixel.r).sum : ℚ) / (sourceBlock speckImage 0 0).length
    rw [hsum, hround, sourceBlock_length]
    norm_num

/-! ## The registry -/

theorem lookup_entry (e : Entry) : EFFECT_FUNCTIONS e.id = some (Member.entry e) := by
  cases e <;> rfl

theorem call_keeps (a : App) (e : Entry) :
    (e.call a).lastDrawEffect = a.lastDrawEffect ∧ (e.call a).invoked = a.invoked ∧
    (e.call a).unknownReports = a.unknownReports ∧ (e.call a).errorReports = a.errorReports := by
  cases e <;> exact ⟨rfl, rfl, rfl, rfl⟩

theorem drawEffect_entry (a : App) (e : Entry) :
    drawEffect a e.id =
      e.call { a with lastDrawEffect := some e.id, invoked := a.invoked ++ [Member.entry e] } := by
  unfold drawEffect
  rw [lookup_entry]

theorem lookup_none (effect : String) :
    EFFECT_FUNCTIONS effect = none ↔
      effect ∉ registered.map Entry.id ∧ effect ∉ objectPrototypeNames := by
  unfold EFFECT_FUNCTIONS
  constructor
  · intro h
    split at h
    · exact absurd h (by simp)
    · rename_i hfind
      split at h
      · exact absurd h (by simp)
      · rename_i hproto
        refine ⟨?_, hproto⟩
        rw [List.find?_eq_none] at hfind
        intro hmem
        rw [List.mem_map] at hmem
        obtain ⟨e, he, hid⟩ := hmem
        exact hfind e he (by simp [hid])
  · rintro ⟨hreg, hproto⟩
    have hfind : (registered.find? fun e => e.id = effect) = none := by
      rw [List.find?_eq_none]
      intro e he hid
      exact hreg (List.mem_map.mpr ⟨e, he, by simpa using hid⟩)
    rw [hfind]
    exact if_neg hproto

theorem mosaic_call (c : Controller) :
    ∃ c', Controller.step false c Turn.call = some c' ∧
      c'.mosaic._isRequestedCancel = true ∧ c'.nextId = c.nextId + 1 ∧
      c'.mosaic.showImage = c.mosaic.showImage ∧
      (c.mosaic._isRunningDraw = false → c'.micro = c.micro ++ [c.nextId] ∧ c'.timers = c.timers) ∧
      (c.mosaic._isRunningDraw = true → c'.timers = c.timers ++ [c.nextId] ∧ c'.micro = c.micro) := by
  cases hrun : c.mosaic._isRunningDraw with
  | false =>
    refine ⟨{ c with mosaic := { c.mosaic with _isRequestedCancel := true },
                     micro := c.micro ++ [c.nextId], nextId := c.nextId + 1 },
      by simp [Controller.step, hrun], rfl, rfl, rfl, fun _ => ⟨rfl, rfl⟩, ?_⟩
    intro h
    exact absurd h (by simp)
  | true =>
    refine ⟨{ c with mosaic := { c.mosaic with _isRequestedCancel := true },
                     timers := c.timers ++ [c.nextId], nextId := c.nextId + 1 },
      by simp [Controller.step, hrun], rfl, rfl, rfl, ?_, fun _ => ⟨rfl, rfl⟩⟩
    intro h
    exact absurd h (by simp)

theorem drawEffect_entry_fields (a : App) (e : Entry) :
    (drawEffect a e.id).lastDrawEffect = some e.id ∧
    (drawEffect a e.id).invoked = a.invoked ++ [Member.entry e] ∧
    (drawEffect a e.id).unknownReports = a.unknownReports ∧
    (drawEffect a e.id).errorReports = a.errorReports := by
  rw [drawEffect_entry]
  exact call_keeps _ e

theorem drawEffect_unknown (a : App) (effect : String)
    (hreg : effect ∉ registered.map Entry.id) (hproto : effect ∉ objectPrototypeNames) :
    drawEffect a effect = { a with unknownReports := a.unknownReports + 1 } := by
  unfold drawEffect
  rw [(lookup_none effect).mpr ⟨hreg, hproto⟩]

/-- C12: the registry.  For each of the ten registered identifiers, `drawEffect` sets
`lastDrawEffect` to the identifier and calls exactly the entry of that effect once, with no
report: `drawEffectAsync` of the mosaic, which only queues a request in its controller, or
the `drawEffect` of one of the nine synchronous effects with `isOverlap = false`; and
`drawLastEffect` after it calls the same entry again.  For a name that is no property of
`EFFECT_FUNCTIONS` at all, nothing is called and nothing changes but the report of an
unknown effect.  But the lookup also finds the members inherited from `Object.prototype`:
for `"toString"`, which is not registered, `drawEffect` reports no unknown effect and sets
`lastDrawEffect` to `"toString"`, so the remembered effect does not keep its value and a
later `drawLastEffect` draws nothing; no effect is invoked and the canvas is not touched. -/
theorem registry_draw (a : App) :
    (∀ e : Entry,
      drawEffect a e.id =
        e.call { a with lastDrawEffect := some e.id,
                        invoked := a.invoked ++ [Member.entry e] } ∧
      (drawEffect a e.id).lastDrawEffect = some e.id ∧
      (drawEffect a e.id).invoked = a.invoked ++ [Member.entry e] ∧
      (drawEffect a e.id).unknownReports = a.unknownReports ∧
      (drawEffect a e.id).errorReports = a.errorReports ∧
      drawLastEffect (drawEffect a e.id) = drawEffect (drawEffect a e.id) e.id ∧
      (drawLastEffect (drawEffect a e.id)).invoked =
        a.invoked ++ [Member.entry e, Member.entry e]) ∧
    (Controller.step false a.controller Turn.call = some (drawEffect a "mosaic").controller ∧
      (drawEffect a "mosaic").showImage = a.showImage) ∧
    (∀ effect, effect ∉ registered.map Entry.id → effect ∉ objectPrototypeNames →
      drawEffect a effect = { a with unknownReports := a.unknownReports + 1 }) ∧
    ("toString" ∉ registered.map Entry.id ∧
      drawEffect a "toString" =
        { a with lastDrawEffect := some "toString",
                 invoked := a.invoked ++ [Member.inherited "toString"] } ∧
      (drawEffect { a with lastDrawEffect := some "mosaic" } "toString").lastDrawEffect ≠
        some "mosaic" ∧
      (drawLastEffect (drawEffect a "toString")).invoked =
        a.invoked ++ [Member.inherited "toString", Member.inherited "toString"] ∧
      (drawLastEffect (drawEffect a "toString")).showImage = a.showImage) := by
  refine ⟨fun e => ?_, ?_, drawEffect_unknown a, ?_⟩
  · obtain ⟨hlast, hinv, hunk, herr⟩ := drawEffect_entry_fields a e
    have hreplay : drawLastEffect (drawEffect a e.id) = drawEffect (drawEffect a e.id) e.id := by
      unfold drawLastEffect
      rw [hlast]
    refine ⟨drawEffect_entry a e, hlast, hinv, hunk, herr, hreplay, ?_⟩
    rw [hreplay, (drawEffect_entry_fields _ e).2.1, hinv, List.append_assoc]
    rfl
  · obtain ⟨c', hstep, _, _, hshow, _⟩ := mosaic_call a.controller
    have hdraw : drawEffect a "mosaic" = Entry.mosaic.call
        { a with lastDrawEffect := some "mosaic",
                 invoked := a.invoked ++ [Member.entry Entry.mosaic] } :=
      drawEffect_entry a Entry.mosaic
    have hctl : (drawEffect a "mosaic").controller = c' := by
      rw [hdraw]
      show (Controller.step false a.controller Turn.call).getD a.controller = c'
      rw [hstep]
      rfl
    refine ⟨by rw [hctl]; exact hstep, ?_⟩
    show (drawEffect a "mosaic").controller.mosaic.showImage = a.controller.mosaic.showImage
    rw [hctl]
    exact hshow
  · have hdraw : ∀ x : App, drawEffect x "toString" =
        { x with lastDrawEffect := some "toString",
                 invoked := x.invoked ++ [Member.inherited "toString"] } := fun _ => rfl
    refine ⟨by decide, hdraw a, ?_, ?_, ?_⟩
    · rw [hdraw]
      show some "toString" ≠ some "mosaic"
      decide
    · rw [hdraw]
      show (drawEffect _ "toString").invoked = _
      rw [hdraw]
      show (a.invoked ++ [Member.inherited "toString"]) ++ [Member.inherited "toString"] = _
      rw [List.append_assoc]
      rfl
    · rw [hdraw]
      show (drawEffect _ "toString").showImage = _
      rw [hdraw]
      rfl

/-- Witness for C12: in the state of a freshly loaded page, `"brightness"` becomes the
remembered effect, `"sepia"` is reported as unknown and changes nothing else, and
`"toString"` becomes the remembered effect without a report. -/
theorem registry_draw_witness :
    (drawEffect (App.init (sampleMosaic 4 3 (some 2))) "brightness").lastDrawEffect =
      some "brightness" ∧
    drawEffect (App.init (sampleMosaic 4 3 (some 2))) "sepia" =
      { App.init (sampleMosaic 4 3 (some 2)) with unknownReports := 1 } ∧
    (drawEffect (App.init (sampleMosaic 4 3 (some 2))) "toString").lastDrawEffect =
      some "toString" ∧
    (drawEffect (App.init (sampleMosaic 4 3 (some 2))) "toString").unknownReports = 0 := by
  have h := registry_draw (App.init (sampleMosaic 4 3 (some 2)))
  refine ⟨(h.1 Entry.brightness).2.1, h.2.2.1 "sepia" (by decide) (by decide), ?_, ?_⟩
  · rw [h.2.2.2.2.1]
  · rw [h.2.2.2.2.1]
    rfl

end ImageMosaicFilter
